import Mathlib

/-!
# curltree: the interactive form and session (`cmd/tui`), and the server side

A shallow embedding of the terminal form that drives profile creation and
editing (`form.go`) and of the session state machine around it (`tui.go`,
`handlers.go`), together with the parts of the text-input widget, of the Go
`strings` package and of the storage layer that this code calls; and of the
validators of `pkg/utils`, the profile handler and its plain-text rendering
(`internal/handlers`), the configuration (`internal/config`) and the
constructor of the rate limiter.

Conventions of the embedding

* A Go `string` is its sequence of Unicode code points (`GoString`); byte
  lengths (`len(s)`) are computed from the UTF-8 width of every code point.
* A Go `int` that the code does arithmetic on (`focusIndex`, the loop
  indices, `linkInputIndex`) is an `Int`; lengths are `Nat`.
* A Go `error` result is an `Option String`: `none` is `nil`, `some msg`
  is the error carrying that message.
* A function that can panic on a slice or index out of range returns an
  `Option`; `none` is the panic.
* `for i := 3; i < len(f.inputs); i += 2` loops are recursive functions on
  the index `i` with a step budget; the budget handed in by the callers is
  `len(f.inputs)`, which is never exhausted (`scanLinkIndex_fuel`,
  `validateLinks_eq`, `requestLinks_eq`).
* A command `tea.Cmd` is the data of the function literal that builds it
  (`Cmd`); `Cmd.run` is its body, run against a storage of any behaviour, and
  records the storage calls it makes.
* A handler that writes to an `http.ResponseWriter` returns what it writes
  (`Response`); `renderPlainText` returns the text of its `Fprintf` calls.
* A division whose divisor can be zero returns an `Option`; `none` is the
  run-time panic.
-/

namespace Curltree

/-- A Go string, as the list of its code points. -/
abbrev GoString := List Char

/-! ## Go `strings` / `unicode` helpers -/

/-- Go `unicode.IsSpace`: the Latin-1 spaces `\t \n \v \f \r`, space, U+0085,
U+00A0, and the code points of category Z. -/
def isSpace (c : Char) : Bool :=
  let n := c.toNat
  (9 ≤ n && n ≤ 13) || n == 0x20 || n == 0x85 || n == 0xA0 || n == 0x1680 ||
  (0x2000 ≤ n && n ≤ 0x200A) || n == 0x2028 || n == 0x2029 || n == 0x202F ||
  n == 0x205F || n == 0x3000

/-- Go `strings.TrimSpace`: drop leading and trailing white space. -/
def TrimSpace (s : GoString) : GoString :=
  (s.dropWhile isSpace).rdropWhile isSpace

/-- Go `strings.HasPrefix`. -/
def HasPrefix (s pre : GoString) : Bool :=
  pre.isPrefixOf s

/-- Go `strings.Contains`. -/
def Contains (s substr : GoString) : Bool :=
  s.tails.any fun t => substr.isPrefixOf t

/-- Go `len(s)` of a string: its length in bytes of UTF-8. -/
def byteLen (s : GoString) : Nat :=
  (s.map Char.utf8Size).sum

/-! ## The text-input widget (`bubbles/textinput`)

Only the fields that `form.go` reads or writes are kept: the placeholder,
the character limit, the width, the stored runes and the focus flag. Cursor
and style fields never influence a value, a count or the focus flag.
-/

namespace textinput

/-- The widget `textinput.Model`. -/
structure Model where
  Placeholder : GoString
  CharLimit : Nat
  Width : Nat
  value : List Char
  focus : Bool
deriving DecidableEq, Repr

/-- Widget constructor `textinput.New()`: no limit, empty, not focused. -/
def New : Model :=
  { Placeholder := [], CharLimit := 0, Width := 0, value := [], focus := false }

/-- Go `unicode.IsControl`: category Cc. -/
def isControl (c : Char) : Bool :=
  let n := c.toNat
  n ≤ 0x1F || (0x7F ≤ n && n ≤ 0x9F)

/-- The input sanitizer of the widget: the replacement rune U+FFFD and
control characters are dropped, tabs and line breaks become one space. -/
def Sanitize : List Char → List Char
  | [] => []
  | r :: rest =>
    if r.toNat = 0xFFFD then Sanitize rest
    else if r = '\r' ∨ r = '\n' then ' ' :: Sanitize rest
    else if r = '\t' then ' ' :: Sanitize rest
    else if isControl r then Sanitize rest
    else r :: Sanitize rest

/-- Widget method `SetValue`: sanitize, then cut to `CharLimit` runes when a
limit is set. -/
def Model.SetValue (m : Model) (s : GoString) : Model :=
  let runes := Sanitize s
  if m.CharLimit > 0 ∧ runes.length > m.CharLimit then
    { m with value := runes.take m.CharLimit }
  else
    { m with value := runes }

/-- What a field with character limit `limit` holds after `SetValue s`. -/
def stored (limit : Nat) (s : GoString) : List Char :=
  if limit > 0 ∧ (Sanitize s).length > limit then (Sanitize s).take limit else Sanitize s

/-- A text that `SetValue` stores as it is in a field with limit `limit`: no
replacement rune, no control character, and within the limit when there is one. -/
def Verbatim (limit : Nat) (s : GoString) : Prop :=
  (∀ c ∈ s, c.toNat ≠ 0xFFFD ∧ isControl c = false) ∧ (limit = 0 ∨ s.length ≤ limit)

instance (limit : Nat) (s : GoString) : Decidable (Verbatim limit s) := by
  unfold Verbatim
  exact inferInstance

/-- Widget method `Value`. -/
def Model.Value (m : Model) : GoString := m.value

/-- Widget method `Focus`. -/
def Model.Focus (m : Model) : Model := { m with focus := true }

/-- Widget method `Blur`. -/
def Model.Blur (m : Model) : Model := { m with focus := false }

end textinput

/-- A key event `tea.KeyMsg`, identified by the name `msg.String()` gives it. -/
structure KeyMsg where
  name : String
deriving DecidableEq, Repr

/-- The editing behaviour of the widget on a key event (insert, delete, move
the cursor, ...) is a parameter of the development. -/
abbrev KeyEdit := KeyMsg → textinput.Model → textinput.Model

/-- Widget method `Update`: a widget that is not focused ignores the event. -/
def textinput.Model.Update (edit : KeyEdit) (m : textinput.Model) (msg : KeyMsg) :
    textinput.Model :=
  if !m.focus then m else edit msg m

/-! ## `internal/models` -/

/-- The record `models.Link`. -/
structure Link where
  ID : GoString
  UserID : GoString
  Name : GoString
  URL : GoString
  Position : Int
deriving DecidableEq, Repr

/-- The record `models.User`; the two time stamps are seconds since the epoch. -/
structure User where
  ID : GoString
  SSHPublicKey : GoString
  FullName : GoString
  Username : GoString
  About : GoString
  CreatedAt : Int
  UpdatedAt : Int
  Links : List Link
deriving DecidableEq, Repr

/-- The record `models.LinkInput`. -/
structure LinkInput where
  Name : GoString
  URL : GoString
deriving DecidableEq, Repr

/-- The record `models.CreateUserRequest`. -/
structure CreateUserRequest where
  SSHPublicKey : GoString
  FullName : GoString
  Username : GoString
  About : GoString
  Links : List LinkInput
deriving DecidableEq, Repr

/-- The record `models.UpdateUserRequest`. -/
structure UpdateUserRequest where
  FullName : GoString
  Username : GoString
  About : GoString
  Links : List LinkInput
deriving DecidableEq, Repr

/-- Modelled from the spec: the constant `StateError`, which `tui.go` uses and
no source file declares, is a sixth state next to the five session states
that `models/tui.go` declares as `models.AppState` (the specification lists
Error among the session view states, and the `switch` of `View` has all six as
cases, so they are six different values). -/
inductive AppState where
  | StateLoading
  | StateProfileView
  | StateProfileEdit
  | StateProfileCreate
  | StateConfirmDelete
  | StateError
deriving DecidableEq, Repr

/-! ## `cmd/tui/form.go` -/

/-- The form: `type formModel struct`. -/
structure formModel where
  inputs : List textinput.Model
  focusIndex : Int
  width : Int
deriving DecidableEq, Repr

/-- Indexing `xs[i]` with a Go `int`; `none` when out of range. -/
def goIndex {α : Type} (xs : List α) (i : Int) : Option α :=
  if 0 ≤ i then xs[i.toNat]? else none

/-- The value of `inputs[i].Value()` at an index the caller has checked to be
in range (the empty string stands for the unreachable other case). -/
def valueAt (inputs : List textinput.Model) (i : Nat) : GoString :=
  match inputs[i]? with
  | some m => m.Value
  | none => []

/-- The character limit of the field at index `i` (`0`, no limit, when there
is no such field). -/
def limitAt (inputs : List textinput.Model) (i : Nat) : Nat :=
  match inputs[i]? with
  | some m => m.CharLimit
  | none => 0

/-- Constructor `newFormModel`: five fields, the first one focused. -/
def newFormModel : formModel :=
  { inputs :=
      [ { textinput.New with
            Placeholder := "Your full name".toList, CharLimit := 100, Width := 48 }.Focus,
        { textinput.New with
            Placeholder := "Username (alphanumeric, -, _)".toList, CharLimit := 50, Width := 48 },
        { textinput.New with
            Placeholder := "Tell us about yourself (optional)".toList, CharLimit := 500,
            Width := 48 },
        { textinput.New with Placeholder := "Link name".toList, CharLimit := 100, Width := 23 },
        { textinput.New with
            Placeholder := "https://example.com".toList, CharLimit := 500, Width := 23 } ],
    focusIndex := 0,
    width := 0 }

/-- Method `clearLinks`: keep the three fixed fields, clamp the focus. -/
def formModel.clearLinks (f : formModel) : formModel :=
  if f.inputs.length > 3 then
    let inputs := f.inputs.take 3
    if f.focusIndex ≥ (inputs.length : Int) then
      { f with inputs := inputs, focusIndex := (inputs.length : Int) - 1 }
    else
      { f with inputs := inputs }
  else f

/-- Method `addLink`: append a name field and a URL field. -/
def formModel.addLink (f : formModel) (name url : GoString) : formModel :=
  let nameInput :=
    ({ textinput.New with
        Placeholder := "Link name".toList, CharLimit := 100, Width := 23 }).SetValue name
  let urlInput :=
    ({ textinput.New with
        Placeholder := "https://example.com".toList, CharLimit := 500, Width := 23 }).SetValue url
  { f with inputs := f.inputs ++ [nameInput, urlInput] }

/-- Method `populateFromUser`. -/
def formModel.populateFromUser (f : formModel) (user : User) : formModel :=
  let f1 : formModel :=
    if f.inputs.length ≥ 3 then
      let inputs0 := f.inputs.modify (fun m => m.SetValue user.FullName) 0
      let inputs1 := inputs0.modify (fun m => m.SetValue user.Username) 1
      let inputs2 := inputs1.modify (fun m => m.SetValue user.About) 2
      { f with inputs := inputs2 }
    else f
  user.Links.foldl (fun g link => g.addLink link.Name link.URL) f1.clearLinks

/-- Method `Update`: hand the event to the field whose index is the focus index. -/
def formModel.Update (edit : KeyEdit) (f : formModel) (msg : KeyMsg) : formModel :=
  { f with inputs :=
      f.inputs.enum.map fun p =>
        if (p.1 : Int) = f.focusIndex then p.2.Update edit msg else p.2 }

/-- The search loop of `deleteCurrentLink`: starting at index `i`, in steps of
two, the first `i < len` with `focusIndex == i || focusIndex == i+1`; `-1`
when the loop ends without one. -/
def scanLinkIndex (len : Nat) (focusIndex : Int) : Nat → Nat → Int
  | 0, _ => -1
  | fuel + 1, i =>
    if i < len then
      if focusIndex = (i : Int) ∨ focusIndex = (i : Int) + 1 then (i : Int)
      else scanLinkIndex len focusIndex fuel (i + 2)
    else -1

/-- Method `deleteCurrentLink`; `none` is the panic of
`f.inputs[linkInputIndex+2:]` on a slice bound out of range. -/
def formModel.deleteCurrentLink (f : formModel) : Option formModel :=
  if f.inputs.length ≤ 3 then some f
  else
    let linkInputIndex := scanLinkIndex f.inputs.length f.focusIndex f.inputs.length 3
    if linkInputIndex ≠ -1 then
      if linkInputIndex + 2 > (f.inputs.length : Int) then none
      else
        let inputs := f.inputs.take linkInputIndex.toNat ++ f.inputs.drop (linkInputIndex + 2).toNat
        if f.focusIndex ≥ (inputs.length : Int) then
          some { f with inputs := inputs, focusIndex := (inputs.length : Int) - 1 }
        else
          some { f with inputs := inputs }
    else some f

/-- Method `nextField`; `none` is the panic of `f.inputs[f.focusIndex]` on an
index out of range. -/
def formModel.nextField (f : formModel) : Option formModel :=
  if f.focusIndex < (f.inputs.length : Int) - 1 then
    if 0 ≤ f.focusIndex then
      let inputs := f.inputs.modify textinput.Model.Blur f.focusIndex.toNat
      let focusIndex := f.focusIndex + 1
      some { f with inputs := inputs.modify textinput.Model.Focus focusIndex.toNat,
                    focusIndex := focusIndex }
    else none
  else some f

/-- Method `prevField`; `none` is the panic of `f.inputs[f.focusIndex]` on an
index out of range. -/
def formModel.prevField (f : formModel) : Option formModel :=
  if f.focusIndex > 0 then
    if f.focusIndex < (f.inputs.length : Int) then
      let inputs := f.inputs.modify textinput.Model.Blur f.focusIndex.toNat
      let focusIndex := f.focusIndex - 1
      some { f with inputs := inputs.modify textinput.Model.Focus focusIndex.toNat,
                    focusIndex := focusIndex }
    else none
  else some f

/-- Function `isValidUsername`: 1 to 50 bytes, every rune an ASCII letter, a
digit, `-` or `_`. -/
def isValidUsername (username : GoString) : Bool :=
  if byteLen username < 1 ∨ byteLen username > 50 then false
  else
    username.all fun char =>
      ('a' ≤ char && char ≤ 'z') || ('A' ≤ char && char ≤ 'Z') ||
      ('0' ≤ char && char ≤ '9') || char == '-' || char == '_'

/-- The link loop of `validate`, from index `i` in steps of two. -/
def validateLinks (inputs : List textinput.Model) : Nat → Nat → Option String
  | 0, _ => none
  | fuel + 1, i =>
    if i < inputs.length then
      if i + 1 ≥ inputs.length then validateLinks inputs fuel (i + 2)
      else
        let name := TrimSpace (valueAt inputs i)
        let url := TrimSpace (valueAt inputs (i + 1))
        if name ≠ [] ∨ url ≠ [] then
          if name = [] then some "link name is required"
          else if url = [] then some "link URL is required"
          else if !HasPrefix url "http://".toList && !HasPrefix url "https://".toList then
            some "URL must start with http:// or https://"
          else validateLinks inputs fuel (i + 2)
        else validateLinks inputs fuel (i + 2)
    else none

/-- Method `validate`. -/
def formModel.validate (f : formModel) : Option String :=
  if f.inputs.length < 3 then some "form not properly initialized"
  else
    let fullName := TrimSpace (valueAt f.inputs 0)
    if fullName = [] then some "full name is required"
    else
      let username := TrimSpace (valueAt f.inputs 1)
      if username = [] then some "username is required"
      else if !isValidUsername username then
        some "username must be alphanumeric with optional hyphens and underscores"
      else validateLinks f.inputs f.inputs.length 3

/-- The link loop that `toCreateRequest` and `toUpdateRequest` both contain:
from index `i` in steps of two, append the trimmed name and URL of every pair
whose name and URL are both non-empty to `links`. -/
def requestLinks (inputs : List textinput.Model) : Nat → Nat → List LinkInput → List LinkInput
  | 0, _, links => links
  | fuel + 1, i, links =>
    if i < inputs.length then
      if i + 1 < inputs.length then
        let name := TrimSpace (valueAt inputs i)
        let url := TrimSpace (valueAt inputs (i + 1))
        if name ≠ [] ∧ url ≠ [] then
          requestLinks inputs fuel (i + 2) (links ++ [{ Name := name, URL := url }])
        else requestLinks inputs fuel (i + 2) links
      else requestLinks inputs fuel (i + 2) links
    else links

/-- Method `toCreateRequest`. -/
def formModel.toCreateRequest (f : formModel) (sshKey : GoString) : CreateUserRequest :=
  let req : CreateUserRequest :=
    { SSHPublicKey := sshKey, FullName := [], Username := [], About := [], Links := [] }
  let req1 : CreateUserRequest :=
    if f.inputs.length ≥ 3 then
      { req with
        FullName := TrimSpace (valueAt f.inputs 0),
        Username := TrimSpace (valueAt f.inputs 1),
        About := TrimSpace (valueAt f.inputs 2) }
    else req
  { req1 with Links := requestLinks f.inputs f.inputs.length 3 req1.Links }

/-- Method `toUpdateRequest`. -/
def formModel.toUpdateRequest (f : formModel) : UpdateUserRequest :=
  let req : UpdateUserRequest := { FullName := [], Username := [], About := [], Links := [] }
  let req1 : UpdateUserRequest :=
    if f.inputs.length ≥ 3 then
      { req with
        FullName := TrimSpace (valueAt f.inputs 0),
        Username := TrimSpace (valueAt f.inputs 1),
        About := TrimSpace (valueAt f.inputs 2) }
    else req
  { req1 with Links := requestLinks f.inputs f.inputs.length 3 req1.Links }

/-! ## `pkg/utils/validation.go` -/

/-- Go `strings.HasSuffix`. -/
def HasSuffix (s suf : GoString) : Bool :=
  suf.isSuffixOf s

/-- The pattern `usernameRegex`, `^[a-zA-Z0-9_-]+$`: one or more characters,
each a letter, a digit, `_` or `-`. -/
def usernameRegexMatch (s : GoString) : Bool :=
  !s.isEmpty && s.all fun c =>
    ('a' ≤ c && c ≤ 'z') || ('A' ≤ c && c ≤ 'Z') || ('0' ≤ c && c ≤ '9') || c == '_' || c == '-'

/-- Function `ValidateUsername` of the storage-side validators. -/
def ValidateUsername (username : GoString) : Option String :=
  if username = [] then some "username cannot be empty"
  else if byteLen username < 2 then some "username must be at least 2 characters long"
  else if byteLen username > 50 then some "username cannot be longer than 50 characters"
  else if !usernameRegexMatch username then
    some "username can only contain letters, numbers, hyphens, and underscores"
  else if HasPrefix username "-".toList || HasSuffix username "-".toList ||
      HasPrefix username "_".toList || HasSuffix username "_".toList then
    some "username cannot start or end with hyphens or underscores"
  else none

/-- The fields of the Go `url.URL` that `ValidateURL` reads. -/
structure URL where
  Scheme : GoString
  Host : GoString
deriving DecidableEq, Repr

/-- Function `ValidateURL`. `Parse` is `url.Parse` of the Go library, a
parameter: `.error` is a parse error, `.ok` the parsed URL. -/
def ValidateURL (Parse : GoString → Except String URL) (linkURL : GoString) : Option String :=
  if linkURL = [] then some "URL cannot be empty"
  else if byteLen linkURL > 500 then some "URL cannot be longer than 500 characters"
  else
    match Parse linkURL with
    | .error err => some ("invalid URL format: " ++ err)
    | .ok parsedURL =>
      if parsedURL.Scheme ≠ "http".toList ∧ parsedURL.Scheme ≠ "https".toList then
        some "URL must start with http:// or https://"
      else if parsedURL.Host = [] then some "URL must have a valid host"
      else none

/-- What `url.Parse` answers on the URLs of `TestValidateURL` that reach it
(scheme and host); any other text is answered with an error here. -/
def testParse (rawURL : GoString) : Except String URL :=
  if rawURL = "http://example.com".toList then
    .ok { Scheme := "http".toList, Host := "example.com".toList }
  else if rawURL = "https://example.com".toList ∨ rawURL = "https://example.com/path".toList ∨
      rawURL = "https://example.com/path?query=1".toList then
    .ok { Scheme := "https".toList, Host := "example.com".toList }
  else if rawURL = "example.com".toList then .ok { Scheme := [], Host := [] }
  else if rawURL = "ftp://example.com".toList then
    .ok { Scheme := "ftp".toList, Host := "example.com".toList }
  else if rawURL = "https://".toList then .ok { Scheme := "https".toList, Host := [] }
  else .error "not a URL of the test"

/-- Function `ValidateFullName`. -/
def ValidateFullName (fullName : GoString) : Option String :=
  if TrimSpace fullName = [] then some "full name cannot be empty"
  else if byteLen fullName > 100 then some "full name cannot be longer than 100 characters"
  else none

/-- Function `ValidateLinkName`. -/
def ValidateLinkName (name : GoString) : Option String :=
  if TrimSpace name = [] then some "link name cannot be empty"
  else if byteLen name > 100 then some "link name cannot be longer than 100 characters"
  else none

/-- Go `strings.ReplaceAll(s, old, "")` for an `old` of one character: every
occurrence of the character is removed. -/
def removeAll (old : Char) (s : GoString) : GoString :=
  s.filter fun c => c != old

/-- Function `SanitizeInput`: trim, then remove the NUL characters, then the
carriage returns. -/
def SanitizeInput (input : GoString) : GoString :=
  let input1 := TrimSpace input
  let input2 := removeAll (Char.ofNat 0) input1
  removeAll '\r' input2

/-- Go `strings.NewReplacer(pairs...).Replace(s)` when every old text is one
character: each character that has a pair is replaced by the new text of its
first pair, the others are kept; what was put in is not looked at again. -/
def replaceChars (pairs : List (Char × GoString)) (s : GoString) : GoString :=
  s.flatMap fun c =>
    match pairs.lookup c with
    | some new => new
    | none => [c]

/-- Function `SanitizeHTML`. -/
def SanitizeHTML (input : GoString) : GoString :=
  replaceChars
    [ ('<', "&lt;".toList), ('>', "&gt;".toList), ('&', "&amp;".toList),
      (Char.ofNat 34, "&quot;".toList), (Char.ofNat 39, "&#39;".toList) ]
    input

/-- The escape of one character in the words of the claim: `<`, `>`, `&`, the
double quote and the single quote have one, every other character stands for
itself. -/
def escapeChar (c : Char) : GoString :=
  if c = '<' then "&lt;".toList
  else if c = '>' then "&gt;".toList
  else if c = '&' then "&amp;".toList
  else if c = Char.ofNat 34 then "&quot;".toList
  else if c = Char.ofNat 39 then "&#39;".toList
  else [c]

/-! ## `internal/database/database.go`

The SQL connection is outside the program. `GetUserBySSHKey` is embedded over
the outcome of its two queries; the other methods of `database.DB` are the
fields of `DB`, transformers of a storage state of any type.
-/

/-- The outcome of `conn.Get` for one row: the row, `sql.ErrNoRows`, or
another error. -/
inductive RowResult (α : Type) where
  | row (a : α)
  | ErrNoRows
  | fault (err : String)
deriving Repr

/-- The two queries that `GetUserBySSHKey` sends: the user row by key (without
links) and the link rows of a user id, ordered by position. -/
structure Conn where
  getUser : GoString → RowResult User
  selectLinks : GoString → Except String (List Link)

namespace database

/-- Method `GetUserLinks`; the pair is the Go result `([]models.Link, error)`. -/
def GetUserLinks (conn : Conn) (userID : GoString) : List Link × Option String :=
  match conn.selectLinks userID with
  | .error err => ([], some ("failed to get user links: " ++ err))
  | .ok links => (links, none)

/-- Method `GetUserBySSHKey`; the pair is the Go result `(*models.User, error)`:
`(none, none)` when no row matches, `(none, some err)` on any other failure. -/
def GetUserBySSHKey (conn : Conn) (sshPublicKey : GoString) : Option User × Option String :=
  match conn.getUser sshPublicKey with
  | .ErrNoRows => (none, none)
  | .fault err => (none, some ("failed to get user by SSH key: " ++ err))
  | .row user =>
    match GetUserLinks conn user.ID with
    | (_, some err) => (none, some ("failed to get user links: " ++ err))
    | (links, none) => (some { user with Links := links }, none)

end database

/-- The methods of `database.DB` that the session calls after its start, over
a storage state `σ`; results are the Go result tuples. -/
structure DB (σ : Type) where
  IsUsernameExists : GoString → σ → (Bool × Option String) × σ
  CreateUser : CreateUserRequest → σ → (Option User × Option String) × σ
  UpdateUser : GoString → UpdateUserRequest → σ → (Option User × Option String) × σ
  DeleteUser : GoString → σ → Option String × σ

/-- A call of a storage method, as recorded when a command runs. -/
inductive DBCall where
  | IsUsernameExists (username : GoString)
  | CreateUser (req : CreateUserRequest)
  | UpdateUser (userID : GoString) (req : UpdateUserRequest)
  | DeleteUser (userID : GoString)
deriving DecidableEq, Repr

/-! ## `cmd/tui/tui.go` and `cmd/tui/handlers.go` -/

/-- A message `tea.Msg` delivered to `Update`: a window size, a key, one of
the three message types of `tui.go`, the quit message of the runtime, or any
other message. -/
inductive Msg where
  | WindowSizeMsg (Width Height : Int)
  | key (msg : KeyMsg)
  | profileCreatedMsg (user : Option User)
  | profileUpdatedMsg (user : Option User)
  | errorMsg (err : Option String)
  | QuitMsg
  | other
deriving DecidableEq, Repr

/-- A command `tea.Cmd` that the session returns: `tea.Quit`, or one of the
function literals of `handlers.go` with the values it captured. -/
inductive Cmd where
  | quit
  | fail (err : String)
  | create (req : CreateUserRequest)
  | save (req : UpdateUserRequest) (userID currentUsername : GoString)
  | delete (userID : GoString)
deriving DecidableEq, Repr

/-- What running a command gives: its one message, the storage state after
it, and the storage calls it made, in order. -/
structure Outcome (σ : Type) where
  msg : Msg
  store : σ
  calls : List DBCall

/-- Running a command: the bodies of the function literals in `createProfile`,
`saveProfile` and `deleteProfile`, and `tea.Quit`. -/
def Cmd.run {σ : Type} (db : DB σ) (s : σ) : Cmd → Outcome σ
  | .quit => { msg := .QuitMsg, store := s, calls := [] }
  | .fail err => { msg := .errorMsg (some err), store := s, calls := [] }
  | .create req =>
    match db.IsUsernameExists req.Username s with
    | ((_, some err), s1) =>
      { msg := .errorMsg (some err), store := s1, calls := [.IsUsernameExists req.Username] }
    | ((true, none), s1) =>
      { msg := .errorMsg (some ("Username '" ++ String.mk req.Username ++ "' already exists")),
        store := s1, calls := [.IsUsernameExists req.Username] }
    | ((false, none), s1) =>
      match db.CreateUser req s1 with
      | ((_, some err), s2) =>
        { msg := .errorMsg (some err), store := s2,
          calls := [.IsUsernameExists req.Username, .CreateUser req] }
      | ((user, none), s2) =>
        { msg := .profileCreatedMsg user, store := s2,
          calls := [.IsUsernameExists req.Username, .CreateUser req] }
  | .save req userID currentUsername =>
    let update (s1 : σ) (before : List DBCall) : Outcome σ :=
      match db.UpdateUser userID req s1 with
      | ((_, some err), s2) =>
        { msg := .errorMsg (some err), store := s2, calls := before ++ [.UpdateUser userID req] }
      | ((user, none), s2) =>
        { msg := .profileUpdatedMsg user, store := s2,
          calls := before ++ [.UpdateUser userID req] }
    if req.Username ≠ currentUsername then
      match db.IsUsernameExists req.Username s with
      | ((_, some err), s1) =>
        { msg := .errorMsg (some err), store := s1, calls := [.IsUsernameExists req.Username] }
      | ((true, none), s1) =>
        { msg := .errorMsg (some ("Username '" ++ String.mk req.Username ++ "' already exists")),
          store := s1, calls := [.IsUsernameExists req.Username] }
      | ((false, none), s1) => update s1 [.IsUsernameExists req.Username]
    else update s []
  | .delete userID =>
    match db.DeleteUser userID s with
    | (some err, s1) => { msg := .errorMsg (some err), store := s1, calls := [.DeleteUser userID] }
    | (none, s1) => { msg := .QuitMsg, store := s1, calls := [.DeleteUser userID] }

/-- The public key of an SSH session: its type name (`Type()`) and its wire
encoding (`Marshal()`). -/
structure PublicKey where
  keyType : GoString
  Marshal : List Nat
deriving DecidableEq, Repr

/-- The session: `type tuiModel struct`. The SSH session handle and the
database handle are not state of the machine; `form` is a pointer, `none`
when nil. -/
structure tuiModel where
  user : Option User
  sshKey : GoString
  state : AppState
  form : Option formModel
  width : Int
  height : Int
  message : String
  err : Option String
deriving DecidableEq, Repr

/-- Constructor `newTUIModel`. `digestHex` is the hexadecimal SHA-256 digest of
the key encoding and `GetUserBySSHKey` the lookup `db.GetUserBySSHKey`; the
debug lines it prints are left out. -/
def newTUIModel (digestHex : List Nat → GoString) (publicKey : Option PublicKey)
    (GetUserBySSHKey : GoString → Option User × Option String) : tuiModel :=
  match publicKey with
  | none =>
    { user := none, sshKey := [], state := .StateError, form := none, width := 0, height := 0,
      message := "",
      err := some
        "No SSH public key found - please ensure you're connecting with a valid SSH key" }
  | some publicKey =>
    let sshKey := publicKey.keyType ++ ":".toList ++ digestHex publicKey.Marshal
    let user := (GetUserBySSHKey sshKey).1
    let state : AppState :=
      if user ≠ none then .StateProfileView else .StateProfileCreate
    { user := user, sshKey := sshKey, state := state, form := some newFormModel, width := 0,
      height := 0, message := "", err := none }

/-- A call of a form method through the pointer `m.form`; `none` is the panic
of a nil pointer or of the method itself. -/
def tuiModel.withForm (m : tuiModel) (op : formModel → Option formModel) :
    Option (tuiModel × Option Cmd) :=
  match m.form with
  | none => none
  | some form =>
    match op form with
    | none => none
    | some form1 => some ({ m with form := some form1 }, none)

/-- Method `createProfile`. -/
def tuiModel.createProfile (m : tuiModel) : Option (tuiModel × Option Cmd) :=
  match m.form with
  | none => none
  | some form =>
    match form.validate with
    | some err => some (m, some (.fail err))
    | none => some (m, some (.create (form.toCreateRequest m.sshKey)))

/-- Method `saveProfile`. -/
def tuiModel.saveProfile (m : tuiModel) : Option (tuiModel × Option Cmd) :=
  match m.user with
  | none => some (m, some (.fail "No user to save"))
  | some user =>
    match m.form with
    | none => none
    | some form =>
      match form.validate with
      | some err => some (m, some (.fail err))
      | none => some (m, some (.save form.toUpdateRequest user.ID user.Username))

/-- Method `deleteProfile`. -/
def tuiModel.deleteProfile (m : tuiModel) : Option (tuiModel × Option Cmd) :=
  match m.user with
  | none => some (m, some (.fail "No user to delete"))
  | some user => some (m, some (.delete user.ID))

/-- Method `handleProfileViewKeys`. -/
def tuiModel.handleProfileViewKeys (m : tuiModel) (msg : KeyMsg) :
    Option (tuiModel × Option Cmd) :=
  if msg.name = "ctrl+c" then some (m, some .quit)
  else if msg.name = "ctrl+e" then
    let form :=
      match m.user with
      | some user => newFormModel.populateFromUser user
      | none => newFormModel
    some ({ m with state := .StateProfileEdit, form := some form }, none)
  else if msg.name = "ctrl+d" then some ({ m with state := .StateConfirmDelete }, none)
  else some (m, none)

/-- Method `handleProfileEditKeys`. -/
def tuiModel.handleProfileEditKeys (edit : KeyEdit) (m : tuiModel) (msg : KeyMsg) :
    Option (tuiModel × Option Cmd) :=
  if msg.name = "esc" then some ({ m with state := .StateProfileView }, none)
  else if msg.name = "ctrl+s" then m.saveProfile
  else if msg.name = "tab" then m.withForm formModel.nextField
  else if msg.name = "shift+tab" then m.withForm formModel.prevField
  else if msg.name = "ctrl+n" then m.withForm fun form => some (form.addLink [] [])
  else if msg.name = "ctrl+d" then m.withForm formModel.deleteCurrentLink
  else m.withForm fun form => some (form.Update edit msg)

/-- Method `handleProfileCreateKeys`. -/
def tuiModel.handleProfileCreateKeys (edit : KeyEdit) (m : tuiModel) (msg : KeyMsg) :
    Option (tuiModel × Option Cmd) :=
  if msg.name = "esc" then some (m, some .quit)
  else if msg.name = "ctrl+s" then m.createProfile
  else if msg.name = "tab" then m.withForm formModel.nextField
  else if msg.name = "shift+tab" then m.withForm formModel.prevField
  else if msg.name = "ctrl+n" then m.withForm fun form => some (form.addLink [] [])
  else if msg.name = "ctrl+d" then m.withForm formModel.deleteCurrentLink
  else m.withForm fun form => some (form.Update edit msg)

/-- Method `handleConfirmDeleteKeys`. -/
def tuiModel.handleConfirmDeleteKeys (m : tuiModel) (msg : KeyMsg) :
    Option (tuiModel × Option Cmd) :=
  if msg.name = "y" ∨ msg.name = "Y" then m.deleteProfile
  else if msg.name = "n" ∨ msg.name = "N" ∨ msg.name = "esc" then
    some ({ m with state := .StateProfileView }, none)
  else some (m, none)

/-- Method `handleKeyPress`. -/
def tuiModel.handleKeyPress (edit : KeyEdit) (m : tuiModel) (msg : KeyMsg) :
    Option (tuiModel × Option Cmd) :=
  match m.state with
  | .StateProfileView => m.handleProfileViewKeys msg
  | .StateProfileEdit => m.handleProfileEditKeys edit msg
  | .StateProfileCreate => m.handleProfileCreateKeys edit msg
  | .StateConfirmDelete => m.handleConfirmDeleteKeys msg
  | _ => some (m, none)

/-- Method `tuiModel.Update`: the session after the message and the command
it returns (`none` for a nil command); the outer `none` is a panic. -/
def tuiModel.Update (edit : KeyEdit) (m : tuiModel) : Msg → Option (tuiModel × Option Cmd)
  | .WindowSizeMsg w h => some ({ m with width := w, height := h }, none)
  | .key msg =>
    if msg.name = "ctrl+c" ∧
        (m.state = .StateProfileView ∨ m.state = .StateProfileCreate ∨ m.state = .StateError) then
      some (m, some .quit)
    else m.handleKeyPress edit msg
  | .profileCreatedMsg user =>
    some ({ m with user := user, state := .StateProfileView,
                   message := "Profile created successfully!" }, none)
  | .profileUpdatedMsg user =>
    some ({ m with user := user, state := .StateProfileView,
                   message := "Profile updated successfully!" }, none)
  | .errorMsg err => some ({ m with err := err }, none)
  | _ => some (m, none)

/-- A run of the session over a list of messages: the session after the last
one and the commands returned on the way, in order. -/
def tuiModel.run (edit : KeyEdit) : tuiModel → List Msg → Option (tuiModel × List Cmd)
  | m, [] => some (m, [])
  | m, msg :: rest =>
    match m.Update edit msg with
    | none => none
    | some (m1, cmd) =>
      match tuiModel.run edit m1 rest with
      | none => none
      | some (m2, cmds) => some (m2, cmd.toList ++ cmds)

/-! ## The views of `tui.go` and `form.go`

A rendered screen is the list of the pieces that the view concatenates; a
piece styled by `lipgloss` is kept as the style and the text handed to
`Render`. The views have pointer receivers: they return the screen and the
session they leave behind. -/

/-- The styles declared at the top of `tui.go`. -/
inductive Style where
  | titleStyle
  | errorStyle
  | successStyle
  | helpStyle
  | asciiStyle
deriving DecidableEq, Repr

/-- A piece of a rendered screen. -/
inductive Fragment where
  | text (s : String)
  | render (style : Style) (s : String)
  | art
  | profile (user : User)
  | form (inputs : List textinput.Model) (focusIndex : Int)
deriving DecidableEq, Repr

/-- The first loop of `formModel.View`, over the fixed fields: from index `i`
in steps of one while `i < 3 && i < len(f.inputs)`, focus the field at the
focus index and blur the others. -/
def viewFixedFields (focusIndex : Int) :
    Nat → Nat → List textinput.Model → List textinput.Model
  | 0, _, inputs => inputs
  | fuel + 1, i, inputs =>
    if i < 3 ∧ i < inputs.length then
      let inputs1 :=
        if (i : Int) = focusIndex then inputs.modify textinput.Model.Focus i
        else inputs.modify textinput.Model.Blur i
      viewFixedFields focusIndex fuel (i + 1) inputs1
    else inputs

/-- The second loop of `formModel.View`, over the link pairs: from index `i`
in steps of two, stop at a field without partner; focus the field at the
focus index and blur the others. -/
def viewLinkFields (focusIndex : Int) :
    Nat → Nat → List textinput.Model → List textinput.Model
  | 0, _, inputs => inputs
  | fuel + 1, i, inputs =>
    if i < inputs.length then
      if i + 1 ≥ inputs.length then inputs
      else
        let inputs1 :=
          if (i : Int) = focusIndex then inputs.modify textinput.Model.Focus i
          else inputs.modify textinput.Model.Blur i
        let inputs2 :=
          if (i : Int) + 1 = focusIndex then inputs1.modify textinput.Model.Focus (i + 1)
          else inputs1.modify textinput.Model.Blur (i + 1)
        viewLinkFields focusIndex fuel (i + 2) inputs2
    else inputs

/-- Method `formModel.View`: the form it leaves behind (the focus flags it
sets); its text is the piece `Fragment.form` of that form. -/
def formModel.View (f : formModel) : formModel :=
  { f with inputs :=
      viewLinkFields f.focusIndex f.inputs.length 3 (viewFixedFields f.focusIndex 3 0 f.inputs) }

/-- Method `loadingView`. -/
def tuiModel.loadingView (m : tuiModel) : List Fragment × tuiModel :=
  ([.text "Loading..."], m)

/-- Method `errorView`. -/
def tuiModel.errorView (m : tuiModel) : List Fragment × tuiModel :=
  let content : List Fragment :=
    [.art, .text "\n\n", .render .errorStyle "Authentication Error", .text "\n\n"]
  let content1 : List Fragment :=
    match m.err with
    | some err => content ++ [.text ("Error: " ++ err ++ "\n\n")]
    | none => content
  (content1 ++
    [.text "Please ensure you're connecting with a valid SSH key.\n",
     .text "Example: ssh -i ~/.ssh/id_rsa user@curltree.dev\n\n",
     .render .helpStyle "ctrl+c: exit"], m)

/-- Method `profileView`. The lines of the profile (header, about, links,
footer) are the piece `Fragment.profile`. -/
def tuiModel.profileView (m : tuiModel) : List Fragment × tuiModel :=
  match m.user with
  | none => ([.render .errorStyle "No user data available"], m)
  | some user =>
    let content : List Fragment := [.art, .text "\n\n", .profile user]
    let (content1, m1) : List Fragment × tuiModel :=
      if m.message ≠ "" then
        (content ++ [.render .successStyle m.message, .text "\n\n"], { m with message := "" })
      else (content, m)
    let (content2, m2) : List Fragment × tuiModel :=
      match m1.err with
      | some err =>
        (content1 ++ [.render .errorStyle ("Error: " ++ err), .text "\n\n"],
         { m1 with err := none })
      | none => (content1, m1)
    (content2 ++
      [.render .helpStyle "ctrl+e: edit \u2022 ctrl+d: delete \u2022 ctrl+c: exit"], m2)

/-- Method `editView`; `none` is the panic of `m.form.View()` on a nil form. -/
def tuiModel.editView (m : tuiModel) : Option (List Fragment × tuiModel) :=
  match m.form with
  | none => none
  | some form =>
    let form1 := form.View
    let content : List Fragment :=
      [.art, .text "\n\n", .render .titleStyle "Edit Profile", .text "\n\n",
       .form form1.inputs form1.focusIndex]
    let m1 : tuiModel := { m with form := some form1 }
    let (content1, m2) : List Fragment × tuiModel :=
      match m1.err with
      | some err =>
        (content ++ [.text "\n", .render .errorStyle ("Error: " ++ err)], { m1 with err := none })
      | none => (content, m1)
    some (content1 ++
      [.text "\n\n",
       .render .helpStyle
         ("tab/shift+tab: navigate \u2022 ctrl+n: add link \u2022 ctrl+d: delete link \u2022 " ++
          "ctrl+s: save \u2022 esc: cancel")], m2)

/-- Method `createView`; `none` is the panic of `m.form.View()` on a nil form. -/
def tuiModel.createView (m : tuiModel) : Option (List Fragment × tuiModel) :=
  match m.form with
  | none => none
  | some form =>
    let form1 := form.View
    let content : List Fragment :=
      [.art, .text "\n\n", .text "Welcome! Let's create your profile.\n\n",
       .form form1.inputs form1.focusIndex]
    let m1 : tuiModel := { m with form := some form1 }
    let (content1, m2) : List Fragment × tuiModel :=
      match m1.err with
      | some err =>
        (content ++ [.text "\n", .render .errorStyle ("Error: " ++ err)], { m1 with err := none })
      | none => (content, m1)
    some (content1 ++
      [.text "\n\n",
       .render .helpStyle
         ("tab/shift+tab: navigate \u2022 ctrl+n: add link \u2022 ctrl+d: delete link \u2022 " ++
          "ctrl+s: create \u2022 esc: exit")], m2)

/-- Method `confirmDeleteView`. -/
def tuiModel.confirmDeleteView (m : tuiModel) : List Fragment × tuiModel :=
  ([.art, .text "\n\n",
    .render .errorStyle "Are you sure you want to delete your profile?", .text "\n",
    .text "This action cannot be undone.\n\n",
    .render .helpStyle "y: yes, delete \u2022 n: no, cancel"], m)

/-- Method `tuiModel.View`: the screen and the session left behind. -/
def tuiModel.View (m : tuiModel) : Option (List Fragment × tuiModel) :=
  match m.state with
  | .StateLoading => some m.loadingView
  | .StateError => some m.errorView
  | .StateProfileView => some m.profileView
  | .StateProfileEdit => m.editView
  | .StateProfileCreate => m.createView
  | .StateConfirmDelete => some m.confirmDeleteView

/-- A screen shows the pending error `err`: it has the piece that
`profileView`, `editView` and `createView` render for it, or the piece that
`errorView` renders for it. -/
def showsError (screen : List Fragment) (err : String) : Prop :=
  Fragment.render .errorStyle ("Error: " ++ err) ∈ screen ∨
    Fragment.text ("Error: " ++ err ++ "\n\n") ∈ screen

/-- A screen shows the pending success message `message`. -/
def showsMessage (screen : List Fragment) (message : String) : Prop :=
  Fragment.render .successStyle message ∈ screen

instance (screen : List Fragment) (err : String) : Decidable (showsError screen err) :=
  inferInstanceAs (Decidable (_ ∨ _))

instance (screen : List Fragment) (message : String) : Decidable (showsMessage screen message) :=
  inferInstanceAs (Decidable (_ ∈ _))

/-! ## The validation rule in the words of the specification -/

/-- The link pairs of a field tail, in field order: the trimmed values of each
name field and of the URL field after it; a last field without a partner is
no pair. -/
def linkPairs : List textinput.Model → List (GoString × GoString)
  | nameInput :: urlInput :: rest =>
    (TrimSpace nameInput.Value, TrimSpace urlInput.Value) :: linkPairs rest
  | _ => []

/-- The violations of one link pair, in the order missing name, missing URL,
bad URL prefix; a pair with both texts blank has none. -/
def pairViolations (pair : GoString × GoString) : List String :=
  if pair.1 = [] ∧ pair.2 = [] then []
  else
    (if pair.1 = [] then ["link name is required"] else []) ++
    (if pair.2 = [] then ["link URL is required"] else []) ++
    (if HasPrefix pair.2 "http://".toList ∨ HasPrefix pair.2 "https://".toList then []
     else ["URL must start with http:// or https://"])

/-- All violations of a form in field order: full name, then handle, then the
link pairs from the first to the last. -/
def specViolations (f : formModel) : List String :=
  (if TrimSpace (valueAt f.inputs 0) = [] then ["full name is required"] else []) ++
  (if TrimSpace (valueAt f.inputs 1) = [] then ["username is required"] else []) ++
  (if isValidUsername (TrimSpace (valueAt f.inputs 1)) then []
   else ["username must be alphanumeric with optional hyphens and underscores"]) ++
  (linkPairs (f.inputs.drop 3)).flatMap pairViolations

/-- A pair whose name and URL are both non-empty. -/
def bothFilled (pair : GoString × GoString) : Bool :=
  !pair.1.isEmpty && !pair.2.isEmpty

/-- The request entry of a pair. -/
def pairToLink (pair : GoString × GoString) : LinkInput :=
  { Name := pair.1, URL := pair.2 }

/-- Function `formatSSHKey` of `internal/auth`: the fingerprint of a key, the
same expression that `newTUIModel` computes. -/
def formatSSHKey (digestHex : List Nat → GoString) (key : PublicKey) : GoString :=
  key.keyType ++ ":".toList ++ digestHex key.Marshal

/-- An example key: type `ssh-ed25519`, three bytes of encoding. -/
def exampleKey : PublicKey :=
  { keyType := "ssh-ed25519".toList, Marshal := [1, 2, 3] }

/-- An example digest function: a fixed text for every encoding. -/
def exampleDigest : List Nat → GoString := fun _ => "ab12".toList

/-- A connection whose user query fails with a storage fault. -/
def faultyConn : Conn :=
  { getUser := fun _ => .fault "database is locked", selectLinks := fun _ => .ok [] }

/-- A connection that holds one user, looked up by any key, with one link. -/
def connWith (user : User) (links : List Link) : Conn :=
  { getUser := fun _ => .row user, selectLinks := fun _ => .ok links }

/-- A connection that holds no user. -/
def emptyConn : Conn :=
  { getUser := fun _ => .ErrNoRows, selectLinks := fun _ => .ok [] }

/-- A session in the given state with the given profile and form, no message
pending. -/
def sessionOf (state : AppState) (user : Option User) (form : Option formModel) : tuiModel :=
  { user := user, sshKey := "ssh-ed25519:ab12".toList, state := state, form := form,
    width := 80, height := 24, message := "", err := none }

/-- An example storage: the state is the list of the handles in use; checks
and writes succeed, except that deleting the id `locked` fails. -/
def exampleDB : DB (List GoString) :=
  { IsUsernameExists := fun username s => ((decide (username ∈ s), none), s),
    CreateUser := fun req s =>
      ((some { ID := "id-1".toList, SSHPublicKey := req.SSHPublicKey, FullName := req.FullName,
               Username := req.Username, About := req.About, CreatedAt := 0, UpdatedAt := 0,
               Links := [] }, none), req.Username :: s),
    UpdateUser := fun userID req s =>
      ((some { ID := userID, SSHPublicKey := [], FullName := req.FullName,
               Username := req.Username, About := req.About, CreatedAt := 0, UpdatedAt := 0,
               Links := [] }, none), req.Username :: s),
    DeleteUser := fun userID s =>
      if userID = "locked".toList then (some "failed to delete user: database is locked", s)
      else (none, []) }

/-- Forms reachable from `newFormModel` by the operations of the form; an
operation that panics has no successor. -/
inductive Reachable (edit : KeyEdit) : formModel → Prop
  | init : Reachable edit newFormModel
  | populateFromUser {f : formModel} (user : User) :
      Reachable edit f → Reachable edit (f.populateFromUser user)
  | addLink {f : formModel} (name url : GoString) :
      Reachable edit f → Reachable edit (f.addLink name url)
  | deleteCurrentLink {f g : formModel} :
      Reachable edit f → f.deleteCurrentLink = some g → Reachable edit g
  | clearLinks {f : formModel} : Reachable edit f → Reachable edit f.clearLinks
  | nextField {f g : formModel} : Reachable edit f → f.nextField = some g → Reachable edit g
  | prevField {f g : formModel} : Reachable edit f → f.prevField = some g → Reachable edit g
  | Update {f : formModel} (msg : KeyMsg) :
      Reachable edit f → Reachable edit (f.Update edit msg)

/-- A key edit used in examples: append the name of the key to the value. -/
def appendKey : KeyEdit := fun msg m => { m with value := m.value ++ msg.name.toList }

/-- A form whose fields hold the given values, none focused, no limits. -/
def formOf (values : List String) (focusIndex : Int) : formModel :=
  { inputs := values.map fun v => { textinput.New with value := v.toList },
    focusIndex := focusIndex, width := 0 }

/-- A profile with the given texts and links (name, URL), other columns empty. -/
def profileOf (fullName username about : String) (links : List (String × String)) : User :=
  { ID := "id-1".toList, SSHPublicKey := [], FullName := fullName.toList,
    Username := username.toList, About := about.toList, CreatedAt := 0, UpdatedAt := 0,
    Links := links.map fun l =>
      { ID := [], UserID := "id-1".toList, Name := l.1.toList, URL := l.2.toList,
        Position := 0 } }

/-- A profile with a tab in its full name and in the name of its link. -/
def profileWithTabs : User :=
  profileOf "Ada\tLovelace" "ada" "" [("my\tblog", "https://a.example")]

/-- A profile whose full name has 101 characters. -/
def profileLongName : User :=
  { profileOf "" "ada" "" [] with FullName := List.replicate 101 'a' }

/-- The focus flags agree with the focus index: the index is in range, and a
field is focused exactly when it is the field at the focus index. -/
def FocusAt (f : formModel) : Prop :=
  0 ≤ f.focusIndex ∧ f.focusIndex < (f.inputs.length : Int) ∧
    ∀ p ∈ f.inputs.enum, (p.2.focus = true ↔ (p.1 : Int) = f.focusIndex)

instance (f : formModel) : Decidable (FocusAt f) := by
  unfold FocusAt
  exact inferInstance

/-- Forms reachable from `newFormModel` by `addLink`, `nextField` and
`prevField`, and by `populateFromUser` and `deleteCurrentLink` applied while
the focus is on one of the three fixed fields. -/
inductive FocusKept : formModel → Prop
  | init : FocusKept newFormModel
  | addLink {f : formModel} (name url : GoString) :
      FocusKept f → FocusKept (f.addLink name url)
  | nextField {f g : formModel} : FocusKept f → f.nextField = some g → FocusKept g
  | prevField {f g : formModel} : FocusKept f → f.prevField = some g → FocusKept g
  | populateFromUser {f : formModel} (user : User) :
      FocusKept f → f.focusIndex < 3 → FocusKept (f.populateFromUser user)
  | deleteCurrentLink {f g : formModel} :
      FocusKept f → f.focusIndex < 3 → f.deleteCurrentLink = some g → FocusKept g

/-- In a list of fields, the focused ones are exactly those at index `k`. -/
def FlagsAt (l : List textinput.Model) (k : Int) : Prop :=
  ∀ (j : Nat) (m : textinput.Model), l[j]? = some m → (m.focus = true ↔ (j : Int) = k)

/-- What the loops of `formModel.View` do to the field at index `j`: `Focus()`
when `j` is the focus index, `Blur()` otherwise. -/
def viewFlag (focusIndex : Int) (j : Nat) (m : textinput.Model) : textinput.Model :=
  if (j : Int) = focusIndex then m.Focus else m.Blur

/-- The form after `newFormModel()` and three times `nextField()`: the focus
is on the name field of the only link pair. -/
def formOnLink : formModel :=
  ((newFormModel.nextField.bind formModel.nextField).bind formModel.nextField).getD
    newFormModel

/-- The calls `newFormModel()`, three times `nextField()` (the focus is then
on the name field of the only link pair) and `deleteCurrentLink()`. -/
def stepsToDelete : Option formModel :=
  ((newFormModel.nextField.bind formModel.nextField).bind formModel.nextField).bind
    formModel.deleteCurrentLink

/-- The form that `stepsToDelete` leaves. -/
def formAfterDelete : formModel := stepsToDelete.getD newFormModel

/-- The calls `newFormModel()`, three times `nextField()` and
`populateFromUser` of a profile with one link. -/
def stepsToPopulate : Option formModel :=
  ((newFormModel.nextField.bind formModel.nextField).bind formModel.nextField).map
    fun f => f.populateFromUser (profileOf "Ada" "ada" "" [("web", "https://a.io")])

/-- The form that `stepsToPopulate` leaves. -/
def formAfterPopulate : formModel := stepsToPopulate.getD newFormModel

/-! ## Go `net/url`: `Parse`

`url.Parse` of the Go library as far as the scheme and the host go: the cut at
`#`, the control-character test, `getScheme`, the lower-casing of the scheme,
the cut at `?`, and the rule that an authority (and so a host) is read only
after `//`. The parsers of the authority, of the path and of the fragment are
parameters; an error carries its cause, not the full text Go prints.
-/

namespace url

/-- The helpers of `net/url` that are parameters here: `parseAuthority` (its
host result), `setPath` and `setFragment` (their error). -/
structure Helpers where
  parseAuthority : GoString → Except String GoString
  setPath : GoString → Option String
  setFragment : GoString → Option String

/-- Go `stringContainsCTLByte`: a byte below `0x20` or the byte `0x7f`. -/
def stringContainsCTLByte (s : GoString) : Bool :=
  s.any fun c => c.toNat < 0x20 || c.toNat == 0x7f

/-- The loop of Go `getScheme` from index `i`, `cs` being the text from `i`
on: the scheme and the text after its colon, `("", rawURL)` when the text has
no scheme. -/
def getSchemeFrom (rawURL : GoString) : Nat → List Char → Except String (GoString × GoString)
  | _, [] => .ok ([], rawURL)
  | i, c :: cs =>
    if ('a' ≤ c ∧ c ≤ 'z') ∨ ('A' ≤ c ∧ c ≤ 'Z') then getSchemeFrom rawURL (i + 1) cs
    else if ('0' ≤ c ∧ c ≤ '9') ∨ c = '+' ∨ c = '-' ∨ c = '.' then
      if i = 0 then .ok ([], rawURL) else getSchemeFrom rawURL (i + 1) cs
    else if c = ':' then
      if i = 0 then .error "missing protocol scheme"
      else .ok (rawURL.take i, rawURL.drop (i + 1))
    else .ok ([], rawURL)

/-- Go `getScheme`. -/
def getScheme (rawURL : GoString) : Except String (GoString × GoString) :=
  getSchemeFrom rawURL 0 rawURL

/-- Go `parse(rawURL, false)`: scheme and host of the URL. -/
def parse (h : Helpers) (rawURL : GoString) : Except String URL :=
  if stringContainsCTLByte rawURL then .error "net/url: invalid control character in URL"
  else if rawURL = "*".toList then .ok { Scheme := [], Host := [] }
  else
    match getScheme rawURL with
    | .error err => .error err
    | .ok (scheme0, rest0) =>
      let scheme := scheme0.map Char.toLower
      let rest := rest0.takeWhile fun c => c != '?'
      if HasPrefix rest "/".toList = false ∧ scheme ≠ [] then
        .ok { Scheme := scheme, Host := [] }
      else if HasPrefix rest "/".toList = false ∧
          Contains (rest.takeWhile fun c => c != '/') ":".toList then
        .error "first path segment in URL cannot contain colon"
      else if (scheme ≠ [] ∨ HasPrefix rest "///".toList = false) ∧
          HasPrefix rest "//".toList then
        let authority0 := rest.drop 2
        let authority := authority0.takeWhile fun c => c != '/'
        let rest1 := authority0.dropWhile fun c => c != '/'
        match h.parseAuthority authority with
        | .error err => .error err
        | .ok host =>
          match h.setPath rest1 with
          | some err => .error err
          | none => .ok { Scheme := scheme, Host := host }
      else
        match h.setPath rest with
        | some err => .error err
        | none => .ok { Scheme := scheme, Host := [] }

/-- Go `url.Parse`. -/
def Parse (h : Helpers) (rawURL : GoString) : Except String URL :=
  let u := rawURL.takeWhile fun c => c != '#'
  let frag := (rawURL.dropWhile fun c => c != '#').drop 1
  match parse h u with
  | .error err => .error err
  | .ok url =>
    if frag = [] then .ok url
    else
      match h.setFragment frag with
      | some err => .error err
      | none => .ok url

/-- Helpers that accept every path and fragment and take the whole authority
as the host: what Go answers on an authority that is a plain host name and on
paths and fragments without escapes. -/
def plainHelpers : Helpers :=
  { parseAuthority := fun authority => .ok authority,
    setPath := fun _ => none,
    setFragment := fun _ => none }

end url

/-! ## `internal/handlers/handlers.go`: `GetProfile` and `renderPlainText` -/

/-- Go `strings.Fields`: the maximal runs of characters that are not white
space. -/
def Fields (s : GoString) : List GoString :=
  (s.splitOnP isSpace).filter fun w => !w.isEmpty

/-- The record `models.PublicProfile`. -/
structure PublicProfile where
  FullName : GoString
  Username : GoString
  About : GoString
  Links : List Link
deriving DecidableEq, Repr

/-- The word loop of the about section of `renderPlainText`, from word
number `i`: `w` is the text written so far, `currentLine` the line being
filled. It returns both at the end of the loop. -/
def wrapWords (linePrefix : GoString) (maxLineLength : Nat) :
    Nat → List GoString → GoString → GoString → GoString × GoString
  | _, [], currentLine, w => (w, currentLine)
  | i, word :: rest, currentLine, w =>
    let testLine :=
      if i > 0 then currentLine ++ " ".toList ++ word else currentLine ++ word
    if byteLen testLine > maxLineLength ∧ currentLine ≠ [] then
      wrapWords linePrefix maxLineLength (i + 1) rest word
        (w ++ (currentLine ++ "\n".toList ++ linePrefix))
    else
      let currentLine1 := if i > 0 then currentLine ++ " ".toList else currentLine
      wrapWords linePrefix maxLineLength (i + 1) rest (currentLine1 ++ word) w

/-- The about section of `renderPlainText`: the text it writes. -/
def renderAbout (about : GoString) : GoString :=
  if about ≠ [] then
    let w0 := "├─ About:\n".toList ++ "│  ├─ ".toList
    let words := Fields about
    let linePrefix := "│     ".toList
    let maxLineLength := 60
    let loop := wrapWords linePrefix maxLineLength 0 words [] w0
    let w1 := if loop.2 ≠ [] then loop.1 ++ (loop.2 ++ "\n".toList) else loop.1
    w1 ++ "│\n".toList
  else []

/-- The links section of `renderPlainText`: the text it writes. -/
def renderLinks (links : List Link) : GoString :=
  if links.length > 0 then
    "├─ Links\n".toList ++
      (links.enum.flatMap fun p =>
        if p.1 = links.length - 1 then
          "│  └─ 🔗 ".toList ++ p.2.Name ++ ": ".toList ++ p.2.URL ++ "\n".toList
        else
          "│  ├─ 🔗 ".toList ++ p.2.Name ++ ": ".toList ++ p.2.URL ++ "\n".toList) ++
      "│\n".toList
  else []

/-- Method `renderPlainText`: the text it writes. -/
def renderPlainText (profile : PublicProfile) : GoString :=
  "┌─ ".toList ++ profile.FullName ++ " (@".toList ++ profile.Username ++ ")\n".toList ++
    "│\n".toList ++
    renderAbout profile.About ++
    renderLinks profile.Links ++
    "└─ Powered by curltree.dev\n".toList

/-- The words of a line with single spaces between them. -/
def joinWords : List GoString → GoString
  | [] => []
  | [w] => w
  | w :: rest => w ++ " ".toList ++ joinWords rest

/-- The text of the lines of the about section: every line ends with a line
break, and every line but the first follows the tree prefix. -/
def linesText (linePrefix : GoString) : List GoString → GoString
  | [] => []
  | [l] => l ++ "\n".toList
  | l :: rest => l ++ "\n".toList ++ linePrefix ++ linesText linePrefix rest

/-- A line of words is within the limit: it is at most `maxLineLength` bytes
long, unless it consists of a single word that is longer. -/
def LineOK (maxLineLength : Nat) (g : List GoString) : Prop :=
  byteLen (joinWords g) ≤ maxLineLength ∨ ∃ w, g = [w] ∧ byteLen w > maxLineLength

/-- A profile whose about text needs two lines and has irregular spacing. -/
def profileTwoLines : PublicProfile :=
  { FullName := "Ada".toList, Username := "ada".toList,
    About :=
      "one two  three four five six seven eight nine ten eleven twelve thirteen ".toList,
    Links := [] }

namespace config

/-- The record `RateLimitConfig`. -/
structure RateLimitConfig where
  RequestsPerMinute : Int
  Burst : Int
deriving DecidableEq, Repr

/-- The record `ServerConfig`. -/
structure ServerConfig where
  Host : String
  Port : Int
  ReadTimeout : Int
  WriteTimeout : Int
  RateLimit : RateLimitConfig
deriving DecidableEq, Repr

/-- The record `SSHConfig`. -/
structure SSHConfig where
  Host : String
  Port : Int
  HostKeyPath : String
deriving DecidableEq, Repr

/-- The record `DatabaseConfig` (`Type_` is its field `Type`). -/
structure DatabaseConfig where
  Type_ : String
  Path : String
  Host : String
  Port : Int
  Name : String
  User : String
  Password : String
  SSLMode : String
  MaxOpenConns : Int
  MaxIdleConns : Int
deriving DecidableEq, Repr

/-- The record `LoggingConfig`. -/
structure LoggingConfig where
  Level : String
  Format : String
  Output : String
  OutputFile : String
deriving DecidableEq, Repr

/-- The record `Config`. -/
structure Config where
  Server : ServerConfig
  SSH : SSHConfig
  Database : DatabaseConfig
  Logging : LoggingConfig
deriving DecidableEq, Repr

/-- Function `defaultConfig` (durations in nanoseconds). -/
def defaultConfig : Config :=
  { Server :=
      { Host := "localhost", Port := 8080, ReadTimeout := 30 * 1000000000,
        WriteTimeout := 30 * 1000000000,
        RateLimit := { RequestsPerMinute := 60, Burst := 10 } },
    SSH := { Host := "localhost", Port := 23234, HostKeyPath := ".ssh/curltree_host_key" },
    Database :=
      { Type_ := "sqlite", Path := "./curltree.db", Host := "", Port := 0, Name := "",
        User := "", Password := "", SSLMode := "", MaxOpenConns := 10, MaxIdleConns := 5 },
    Logging := { Level := "info", Format := "text", Output := "stdout", OutputFile := "" } }

/-- Go `strconv.Atoi`: an optional sign and decimal digits, within the range
of a 64-bit `int`; `none` is the error. -/
def Atoi (s : String) : Option Int :=
  let cs := s.toList
  let neg := cs.head? = some '-'
  let ds := if cs.head? = some '-' ∨ cs.head? = some '+' then cs.drop 1 else cs
  if ds = [] ∨ ds.all Char.isDigit = false then none
  else
    let n : Int := ds.foldl (fun a c => 10 * a + ((c.toNat - 48 : Nat) : Int)) 0
    let v : Int := if neg then -n else n
    if v < -9223372036854775808 ∨ v > 9223372036854775807 then none else some v

/-- Function `loadFromEnv`; `Getenv` is the environment (`""` for a variable
that is not set). -/
def loadFromEnv (Getenv : String → String) (c0 : Config) : Config :=
  let str (key : String) (old : String) : String :=
    if Getenv key ≠ "" then Getenv key else old
  let num (key : String) (old : Int) : Int :=
    if Getenv key ≠ "" then
      match Atoi (Getenv key) with
      | some p => p
      | none => old
    else old
  { Server :=
      { c0.Server with
        Host := str "SERVER_HOST" c0.Server.Host,
        Port := num "SERVER_PORT" c0.Server.Port,
        RateLimit :=
          { RequestsPerMinute :=
              num "RATE_LIMIT_PER_MINUTE" c0.Server.RateLimit.RequestsPerMinute,
            Burst := num "RATE_LIMIT_BURST" c0.Server.RateLimit.Burst } },
    SSH :=
      { Host := str "SSH_HOST" c0.SSH.Host,
        Port := num "SSH_PORT" c0.SSH.Port,
        HostKeyPath := str "HOST_KEY_PATH" c0.SSH.HostKeyPath },
    Database :=
      { c0.Database with
        Type_ := str "DB_TYPE" c0.Database.Type_,
        Path := str "DB_PATH" c0.Database.Path,
        Host := str "DB_HOST" c0.Database.Host,
        Port := num "DB_PORT" c0.Database.Port,
        Name := str "DB_NAME" c0.Database.Name,
        User := str "DB_USER" c0.Database.User,
        Password := str "DB_PASSWORD" c0.Database.Password,
        SSLMode := str "DB_SSL_MODE" c0.Database.SSLMode },
    Logging :=
      { Level := str "LOG_LEVEL" c0.Logging.Level,
        Format := str "LOG_FORMAT" c0.Logging.Format,
        Output := str "LOG_OUTPUT" c0.Logging.Output,
        OutputFile := str "LOG_OUTPUT_FILE" c0.Logging.OutputFile } }

/-- Method `validate`; `none` is the `nil` error. -/
def Config.validate (c : Config) : Option String :=
  if c.Server.Port < 1 ∨ c.Server.Port > 65535 then
    some ("invalid server port: " ++ toString c.Server.Port)
  else if c.SSH.Port < 1 ∨ c.SSH.Port > 65535 then
    some ("invalid SSH port: " ++ toString c.SSH.Port)
  else if c.Database.Type_ ≠ "sqlite" ∧ c.Database.Type_ ≠ "postgres" then
    some ("unsupported database type: " ++ c.Database.Type_)
  else if c.Database.Type_ = "sqlite" ∧ c.Database.Path = "" then
    some "database path is required for SQLite"
  else if c.Database.Type_ = "postgres" ∧ c.Database.Host = "" then
    some "database host is required for PostgreSQL"
  else if c.Database.Type_ = "postgres" ∧ c.Database.Name = "" then
    some "database name is required for PostgreSQL"
  else if c.Database.Type_ = "postgres" ∧ c.Database.User = "" then
    some "database user is required for PostgreSQL"
  else if c.Logging.Level ≠ "debug" ∧ c.Logging.Level ≠ "info" ∧
      c.Logging.Level ≠ "warn" ∧ c.Logging.Level ≠ "error" then
    some ("invalid log level: " ++ c.Logging.Level)
  else if c.Logging.Format ≠ "json" ∧ c.Logging.Format ≠ "text" then
    some ("invalid log format: " ++ c.Logging.Format)
  else if c.Logging.Output ≠ "stdout" ∧ c.Logging.Output ≠ "stderr" ∧
      c.Logging.Output ≠ "file" then
    some ("invalid log output: " ++ c.Logging.Output)
  else if c.Logging.Output = "file" ∧ c.Logging.OutputFile = "" then
    some "log output file is required when output is \x27file\x27"
  else none

/-- Function `Load`; `loadFromFile` (the file system and the JSON decoder) is
a parameter. -/
def Load (Getenv : String → String)
    (loadFromFile : Config → String → Except String Config) : Except String Config :=
  let fromFile : Except String Config :=
    if Getenv "CONFIG_PATH" ≠ "" then
      match loadFromFile defaultConfig (Getenv "CONFIG_PATH") with
      | .error err => .error ("failed to load config from file: " ++ err)
      | .ok c => .ok c
    else .ok defaultConfig
  match fromFile with
  | .error err => .error err
  | .ok c0 =>
    let c := loadFromEnv Getenv c0
    match c.validate with
    | some err => .error ("invalid configuration: " ++ err)
    | none => .ok c

end config

/-! ## `internal/handlers/ratelimit.go` -/

/-- What `NewRateLimiter` computes for the record `RateLimiter`: the duration
handed to `rate.Every` and the burst. -/
structure RateLimiter where
  every : Int
  burst : Int
deriving DecidableEq, Repr

/-- The constant `time.Minute`, in nanoseconds. -/
def time.Minute : Int := 60 * 1000000000

/-- Function `NewRateLimiter`; `none` is the run-time panic `integer divide by
zero` of `time.Minute / time.Duration(requestsPerMinute)`. -/
def NewRateLimiter (requestsPerMinute : Int) (burst : Int) : Option RateLimiter :=
  if requestsPerMinute = 0 then none
  else some { every := Int.tdiv time.Minute requestsPerMinute, burst := burst }

/-- An environment that sets `RATE_LIMIT_PER_MINUTE` to `0` and nothing else. -/
def envZeroRate : String → String :=
  fun key => if key = "RATE_LIMIT_PER_MINUTE" then "0" else ""

/-- A file loader that always fails (not called when `CONFIG_PATH` is empty). -/
def noConfigFile : config.Config → String → Except String config.Config :=
  fun _ _ => .error "failed to read config file"

/-! ## Lengths -/

theorem addLink_inputs (f : formModel) (name url : GoString) :
    (f.addLink name url).inputs = f.inputs ++
      [ ({ textinput.New with
            Placeholder := "Link name".toList, CharLimit := 100, Width := 23 }).SetValue name,
        ({ textinput.New with
            Placeholder := "https://example.com".toList, CharLimit := 500,
            Width := 23 }).SetValue url ] := rfl

theorem addLink_length (f : formModel) (name url : GoString) :
    (f.addLink name url).inputs.length = f.inputs.length + 2 := by
  simp [addLink_inputs]

theorem addLink_focusIndex (f : formModel) (name url : GoString) :
    (f.addLink name url).focusIndex = f.focusIndex := rfl

theorem clearLinks_inputs (f : formModel) : f.clearLinks.inputs = f.inputs.take 3 := by
  unfold formModel.clearLinks
  dsimp only
  split_ifs with h1 h2
  · rfl
  · rfl
  · rw [List.take_of_length_le (by omega)]

theorem clearLinks_length (f : formModel) (h : 3 ≤ f.inputs.length) :
    f.clearLinks.inputs.length = 3 := by
  rw [clearLinks_inputs, List.length_take]; omega

theorem foldl_addLink_inputs (links : List Link) (g : formModel) :
    (links.foldl (fun g link => g.addLink link.Name link.URL) g).inputs =
      g.inputs ++ links.flatMap fun link =>
        [ ({ textinput.New with
              Placeholder := "Link name".toList, CharLimit := 100,
              Width := 23 }).SetValue link.Name,
          ({ textinput.New with
              Placeholder := "https://example.com".toList, CharLimit := 500,
              Width := 23 }).SetValue link.URL ] := by
  induction links generalizing g with
  | nil => simp
  | cons l ls ih => simp [List.foldl_cons, ih, addLink_inputs]

theorem length_flatMap_pair {α β : Type} (xs : List α) (a b : α → β) :
    (xs.flatMap fun x => [a x, b x]).length = 2 * xs.length := by
  induction xs with
  | nil => simp
  | cons x xs ih => simp [List.flatMap_cons, ih]; omega

theorem populateFromUser_length (f : formModel) (user : User) (h : 3 ≤ f.inputs.length) :
    (f.populateFromUser user).inputs.length = 3 + 2 * user.Links.length := by
  unfold formModel.populateFromUser
  simp only [foldl_addLink_inputs, List.length_append, length_flatMap_pair]
  rw [clearLinks_length]
  simp only [ge_iff_le, h, if_true, List.length_modify]

theorem Update_length (edit : KeyEdit) (f : formModel) (msg : KeyMsg) :
    (f.Update edit msg).inputs.length = f.inputs.length := by
  simp [formModel.Update]

theorem Update_focusIndex (edit : KeyEdit) (f : formModel) (msg : KeyMsg) :
    (f.Update edit msg).focusIndex = f.focusIndex := rfl

theorem nextField_length (f g : formModel) (h : f.nextField = some g) :
    g.inputs.length = f.inputs.length := by
  unfold formModel.nextField at h
  split_ifs at h <;> simp at h <;> subst h <;> simp

theorem prevField_length (f g : formModel) (h : f.prevField = some g) :
    g.inputs.length = f.inputs.length := by
  unfold formModel.prevField at h
  split_ifs at h <;> simp at h <;> subst h <;> simp

/-! ## The search loop of `deleteCurrentLink` -/

/-- What the loop returns: `-1`, or an index in range at which the focus test
succeeds. -/
theorem scanLinkIndex_cases (len : Nat) (focusIndex : Int) (fuel i : Nat) :
    scanLinkIndex len focusIndex fuel i = -1 ∨
      ∃ r : Nat, scanLinkIndex len focusIndex fuel i = (r : Int) ∧ (∃ m, r = i + 2 * m) ∧
        r < len ∧ (focusIndex = (r : Int) ∨ focusIndex = (r : Int) + 1) := by
  induction fuel generalizing i with
  | zero => left; rfl
  | succ fuel ih =>
    unfold scanLinkIndex
    split_ifs with h1 h2
    · right; exact ⟨i, rfl, ⟨0, rfl⟩, h1, h2⟩
    · rcases ih (i + 2) with h | ⟨r, hr, ⟨m, h3⟩, h4, h5⟩
      · left; exact h
      · right; exact ⟨r, hr, ⟨m + 1, by omega⟩, h4, h5⟩
    · left; rfl

/-- The loop finds nothing when the focus lies before its start index. -/
theorem scanLinkIndex_of_lt (len : Nat) (focusIndex : Int) (fuel i : Nat)
    (h : focusIndex < (i : Int)) : scanLinkIndex len focusIndex fuel i = -1 := by
  induction fuel generalizing i with
  | zero => rfl
  | succ fuel ih =>
    unfold scanLinkIndex
    split_ifs with h1 h2
    · omega
    · exact ih (i + 2) (by push_cast; omega)
    · rfl

/-- The loop returns the start of the pair that holds the focus, given a
budget of at least the number of pairs still to visit. -/
theorem scanLinkIndex_pair (len : Nat) (focusIndex : Int) (fuel i j : Nat)
    (hfuel : j < fuel) (hlen : i + 2 * j < len)
    (hfocus : focusIndex = ((i + 2 * j : Nat) : Int) ∨ focusIndex = ((i + 2 * j : Nat) : Int) + 1) :
    scanLinkIndex len focusIndex fuel i = ((i + 2 * j : Nat) : Int) := by
  induction fuel generalizing i j with
  | zero => omega
  | succ fuel ih =>
    unfold scanLinkIndex
    cases j with
    | zero =>
      simp only [Nat.mul_zero, Nat.add_zero] at hlen hfocus ⊢
      rw [if_pos hlen, if_pos hfocus]
    | succ j =>
      rw [if_pos (by omega), if_neg (by push_cast at hfocus ⊢; omega)]
      have := ih (i + 2) j (by omega) (by omega) (by
        have e : i + 2 + 2 * j = i + 2 * (j + 1) := by omega
        rw [e]; exact hfocus)
      rw [this]
      congr 1
      omega

/-- The budget `len` that `deleteCurrentLink` hands to its loop is never
exhausted: once the budget covers the fields from `i` on, a larger one gives
the same answer. -/
theorem scanLinkIndex_fuel (len : Nat) (focusIndex : Int) (fuel extra i : Nat)
    (hfuel : len ≤ i + 2 * fuel) :
    scanLinkIndex len focusIndex (fuel + extra) i = scanLinkIndex len focusIndex fuel i := by
  induction fuel generalizing i with
  | zero =>
    have hi : ¬ i < len := by omega
    cases extra with
    | zero => rfl
    | succ e =>
      rw [Nat.zero_add]
      unfold scanLinkIndex
      rw [if_neg hi]
  | succ fuel ih =>
    have e : fuel + 1 + extra = (fuel + extra) + 1 := by omega
    rw [e]
    unfold scanLinkIndex
    rw [ih (i + 2) (by omega)]

theorem deleteCurrentLink_length (f g : formModel) (h : f.deleteCurrentLink = some g) :
    g.inputs.length = f.inputs.length ∨
      (3 < f.inputs.length ∧ g.inputs.length + 2 = f.inputs.length) := by
  unfold formModel.deleteCurrentLink at h
  dsimp only at h
  split_ifs at h with h1 h2 h3 h4
  · simp at h; subst h; left; rfl
  · rcases scanLinkIndex_cases f.inputs.length f.focusIndex f.inputs.length 3 with
      e | ⟨r, e, -, hr, -⟩
    · exact absurd e h2
    · simp only [e] at h h3
      simp at h; subst h
      right
      simp only [List.length_append, List.length_take, List.length_drop]
      omega
  · rcases scanLinkIndex_cases f.inputs.length f.focusIndex f.inputs.length 3 with
      e | ⟨r, e, -, hr, -⟩
    · exact absurd e h2
    · simp only [e] at h h3
      simp at h; subst h
      right
      simp only [List.length_append, List.length_take, List.length_drop]
      omega
  · simp at h; subst h; left; rfl

/-! ## Focus index -/

theorem foldl_addLink_focusIndex (links : List Link) (g : formModel) :
    (links.foldl (fun g link => g.addLink link.Name link.URL) g).focusIndex = g.focusIndex := by
  induction links generalizing g with
  | nil => rfl
  | cons l ls ih => simp [List.foldl_cons, ih, addLink_focusIndex]

theorem clearLinks_focusIndex (f : formModel) (h3 : 3 ≤ f.inputs.length)
    (h0 : 0 ≤ f.focusIndex) (h1 : f.focusIndex < (f.inputs.length : Int)) :
    0 ≤ f.clearLinks.focusIndex ∧ f.clearLinks.focusIndex < 3 := by
  unfold formModel.clearLinks
  dsimp only
  split_ifs with h4 h5
  · simp only [List.length_take]; omega
  · simp only [List.length_take] at h5; dsimp only; omega
  · omega

theorem populateFromUser_focusIndex (f : formModel) (user : User) (h3 : 3 ≤ f.inputs.length)
    (h0 : 0 ≤ f.focusIndex) (h1 : f.focusIndex < (f.inputs.length : Int)) :
    0 ≤ (f.populateFromUser user).focusIndex ∧ (f.populateFromUser user).focusIndex < 3 := by
  unfold formModel.populateFromUser
  rw [foldl_addLink_focusIndex]
  apply clearLinks_focusIndex
  · simp only [ge_iff_le, h3, if_true, List.length_modify]
  · simp only [ge_iff_le, h3, if_true]; exact h0
  · simp only [ge_iff_le, h3, if_true, List.length_modify]; exact h1

theorem deleteCurrentLink_focusIndex (f g : formModel) (h : f.deleteCurrentLink = some g)
    (h3 : 3 ≤ g.inputs.length)
    (h0 : 0 ≤ f.focusIndex) (h1 : f.focusIndex < (f.inputs.length : Int)) :
    0 ≤ g.focusIndex ∧ g.focusIndex < (g.inputs.length : Int) := by
  unfold formModel.deleteCurrentLink at h
  dsimp only at h
  split_ifs at h with h2 h4 h5 h6
  · cases h; exact ⟨h0, h1⟩
  · cases h; dsimp only at h3 ⊢; omega
  · cases h; dsimp only at h3 ⊢; omega
  · cases h; exact ⟨h0, h1⟩

theorem nextField_focusIndex (f g : formModel) (h : f.nextField = some g)
    (h0 : 0 ≤ f.focusIndex) (h1 : f.focusIndex < (f.inputs.length : Int)) :
    0 ≤ g.focusIndex ∧ g.focusIndex < (g.inputs.length : Int) := by
  have hl := nextField_length f g h
  unfold formModel.nextField at h
  dsimp only at h
  split_ifs at h with h2
  · simp at h; subst h; dsimp only; rw [hl]; omega
  · simp at h; subst h; exact ⟨h0, h1⟩

theorem prevField_focusIndex (f g : formModel) (h : f.prevField = some g)
    (h0 : 0 ≤ f.focusIndex) (h1 : f.focusIndex < (f.inputs.length : Int)) :
    0 ≤ g.focusIndex ∧ g.focusIndex < (g.inputs.length : Int) := by
  have hl := prevField_length f g h
  unfold formModel.prevField at h
  dsimp only at h
  split_ifs at h with h2
  · simp at h; subst h; dsimp only; rw [hl]; omega
  · simp at h; subst h; exact ⟨h0, h1⟩

/-! ## The invariant of reachable forms -/

/-- Reachable forms have `3 + 2k` fields and a focus index in range. -/
theorem reachable_invariant (edit : KeyEdit) (f : formModel) (h : Reachable edit f) :
    (∃ k, f.inputs.length = 3 + 2 * k) ∧
      0 ≤ f.focusIndex ∧ f.focusIndex < (f.inputs.length : Int) := by
  induction h with
  | init => exact ⟨⟨1, rfl⟩, by decide, by decide⟩
  | @populateFromUser f user _ ih =>
    obtain ⟨⟨k, hk⟩, h0, h1⟩ := ih
    have h3 : 3 ≤ f.inputs.length := Nat.le.intro hk.symm
    have hl := populateFromUser_length f user h3
    have hf := populateFromUser_focusIndex f user h3 h0 h1
    exact ⟨⟨_, hl⟩, hf.1, by omega⟩
  | @addLink f name url _ ih =>
    obtain ⟨⟨k, hk⟩, h0, h1⟩ := ih
    have hl := addLink_length f name url
    refine ⟨⟨k + 1, by omega⟩, h0, ?_⟩
    rw [addLink_focusIndex]; omega
  | @deleteCurrentLink f g _ hg ih =>
    obtain ⟨⟨k, hk⟩, h0, h1⟩ := ih
    have hk2 : ∃ k2, g.inputs.length = 3 + 2 * k2 := by
      rcases deleteCurrentLink_length f g hg with e | ⟨e3, e⟩
      · exact ⟨k, by omega⟩
      · exact ⟨k - 1, by omega⟩
    obtain ⟨k2, hk2⟩ := hk2
    exact ⟨⟨k2, hk2⟩, deleteCurrentLink_focusIndex f g hg (by omega) h0 h1⟩
  | @clearLinks f _ ih =>
    obtain ⟨⟨k, hk⟩, h0, h1⟩ := ih
    have h3 : 3 ≤ f.inputs.length := Nat.le.intro hk.symm
    have hl := clearLinks_length f h3
    have hf := clearLinks_focusIndex f h3 h0 h1
    exact ⟨⟨0, by omega⟩, hf.1, by omega⟩
  | @nextField f g _ hg ih =>
    obtain ⟨⟨k, hk⟩, h0, h1⟩ := ih
    exact ⟨⟨k, by rw [nextField_length f g hg, hk]⟩, nextField_focusIndex f g hg h0 h1⟩
  | @prevField f g _ hg ih =>
    obtain ⟨⟨k, hk⟩, h0, h1⟩ := ih
    exact ⟨⟨k, by rw [prevField_length f g hg, hk]⟩, prevField_focusIndex f g hg h0 h1⟩
  | @Update f msg _ ih =>
    obtain ⟨⟨k, hk⟩, h0, h1⟩ := ih
    refine ⟨⟨k, by rw [Update_length, hk]⟩, ?_, ?_⟩
    · rw [Update_focusIndex]; exact h0
    · rw [Update_focusIndex, Update_length]; exact h1

/-- No operation panics on a form with `3 + 2k` fields and a focus index in
range, so every sequence of operations from `newFormModel` is defined. -/
theorem operations_defined (f : formModel) (k : Nat) (hk : f.inputs.length = 3 + 2 * k)
    (h0 : 0 ≤ f.focusIndex) (h1 : f.focusIndex < (f.inputs.length : Int)) :
    (∃ g, f.deleteCurrentLink = some g) ∧ (∃ g, f.nextField = some g) ∧
      (∃ g, f.prevField = some g) := by
  refine ⟨?_, ?_, ?_⟩
  · unfold formModel.deleteCurrentLink
    dsimp only
    split_ifs with h2 h3 h4 h5
    · exact ⟨_, rfl⟩
    · exfalso
      rcases scanLinkIndex_cases f.inputs.length f.focusIndex f.inputs.length 3 with
        e | ⟨r, e, ⟨m, hm⟩, hr, hfr⟩
      · exact h3 e
      · rw [e] at h4
        omega
    · exact ⟨_, rfl⟩
    · exact ⟨_, rfl⟩
    · exact ⟨_, rfl⟩
  · unfold formModel.nextField
    dsimp only
    split_ifs with h2
    · exact ⟨_, rfl⟩
    · exact ⟨_, rfl⟩
  · unfold formModel.prevField
    dsimp only
    split_ifs with h2
    · exact ⟨_, rfl⟩
    · exact ⟨_, rfl⟩

/-! ## C1 -/

/-- C1: every form reachable from `newFormModel` by `populateFromUser`,
`addLink`, `deleteCurrentLink`, `clearLinks`, `nextField`, `prevField` and
`Update` has `3 + 2k` fields for some `k`. -/
theorem C1_reachable_field_count (edit : KeyEdit) (f : formModel) (h : Reachable edit f) :
    ∃ k, f.inputs.length = 3 + 2 * k :=
  (reachable_invariant edit f h).1

/-- C1 at a concrete form: a fresh form, one link appended, a key typed. -/
theorem C1_reachable_field_count_witness :
    Reachable appendKey ((newFormModel.addLink [] []).Update appendKey ⟨"a"⟩) ∧
      ∃ k, ((newFormModel.addLink [] []).Update appendKey ⟨"a"⟩).inputs.length = 3 + 2 * k :=
  ⟨Reachable.Update _ (Reachable.addLink _ _ Reachable.init),
   C1_reachable_field_count appendKey _
     (Reachable.Update _ (Reachable.addLink _ _ Reachable.init))⟩

/-! ## C2 -/

/-- C2: on a form with `3 + 2k` fields whose focus is on the name or the URL
field of pair `j < k`, `deleteCurrentLink` removes exactly the fields
`3 + 2j` and `4 + 2j`: the fields before them keep their index, the fields
after them move down by two, the count drops by two, and the focus index
becomes the minimum of the old focus index and the new last index. -/
theorem C2_deleteCurrentLink_removes_pair (f : formModel) (k j : Nat)
    (hlen : f.inputs.length = 3 + 2 * k) (hj : j < k)
    (hfocus : f.focusIndex = ((3 + 2 * j : Nat) : Int) ∨
      f.focusIndex = ((4 + 2 * j : Nat) : Int)) :
    ∃ g, f.deleteCurrentLink = some g ∧
      g.inputs = f.inputs.take (3 + 2 * j) ++ f.inputs.drop (5 + 2 * j) ∧
      g.inputs.length = 3 + 2 * (k - 1) ∧
      (∀ i : Nat, g.inputs[i]? = if i < 3 + 2 * j then f.inputs[i]? else f.inputs[i + 2]?) ∧
      g.focusIndex = min f.focusIndex ((g.inputs.length : Int) - 1) ∧
      g.width = f.width := by
  have hscan : scanLinkIndex f.inputs.length f.focusIndex f.inputs.length 3 =
      ((3 + 2 * j : Nat) : Int) :=
    scanLinkIndex_pair f.inputs.length f.focusIndex f.inputs.length 3 j (by omega) (by omega)
      (by rcases hfocus with h | h
          · left; exact h
          · right; rw [h]; push_cast; ring)
  have hlen2 : (f.inputs.take (3 + 2 * j) ++ f.inputs.drop (5 + 2 * j)).length =
      3 + 2 * (k - 1) := by
    simp only [List.length_append, List.length_take, List.length_drop]; omega
  have hidx : ∀ i : Nat, (f.inputs.take (3 + 2 * j) ++ f.inputs.drop (5 + 2 * j))[i]? =
      if i < 3 + 2 * j then f.inputs[i]? else f.inputs[i + 2]? := by
    intro i
    have htl : (f.inputs.take (3 + 2 * j)).length = 3 + 2 * j := by
      rw [List.length_take]; omega
    split_ifs with hi
    · rw [List.getElem?_append_left (by omega), List.getElem?_take_of_lt hi]
    · rw [List.getElem?_append_right (by omega), List.getElem?_drop, htl]
      congr 1; omega
  have e1 : ((3 + 2 * j : Nat) : Int).toNat = 3 + 2 * j := Int.toNat_natCast _
  have e2 : (((3 + 2 * j : Nat) : Int) + 2).toNat = 5 + 2 * j := by omega
  unfold formModel.deleteCurrentLink
  simp only [hscan, e1, e2]
  rw [if_neg (by omega), if_pos (by omega), if_neg (by omega)]
  split_ifs with h5
  · refine ⟨_, rfl, rfl, hlen2, hidx, ?_, rfl⟩
    dsimp only
    rw [hlen2] at h5 ⊢
    omega
  · refine ⟨_, rfl, rfl, hlen2, hidx, ?_, rfl⟩
    dsimp only
    rw [hlen2] at h5 ⊢
    omega

/-- C2 on the scenario of the specification: seven fields, focus on index 4
(the URL of the first pair); five fields remain and the former second pair
sits at indices 3 and 4. -/
theorem C2_deleteCurrentLink_removes_pair_witness :
    (formOf ["n", "h", "b", "n1", "u1", "n2", "u2"] 4).deleteCurrentLink =
        some (formOf ["n", "h", "b", "n2", "u2"] 4) ∧
      ∃ g, (formOf ["n", "h", "b", "n1", "u1", "n2", "u2"] 4).deleteCurrentLink = some g ∧
        g.inputs = (formOf ["n", "h", "b", "n1", "u1", "n2", "u2"] 4).inputs.take (3 + 2 * 0) ++
          (formOf ["n", "h", "b", "n1", "u1", "n2", "u2"] 4).inputs.drop (5 + 2 * 0) ∧
        g.inputs.length = 3 + 2 * (2 - 1) ∧
        (∀ i : Nat, g.inputs[i]? =
          if i < 3 + 2 * 0 then (formOf ["n", "h", "b", "n1", "u1", "n2", "u2"] 4).inputs[i]?
          else (formOf ["n", "h", "b", "n1", "u1", "n2", "u2"] 4).inputs[i + 2]?) ∧
        g.focusIndex =
          min (formOf ["n", "h", "b", "n1", "u1", "n2", "u2"] 4).focusIndex
            ((g.inputs.length : Int) - 1) ∧
        g.width = (formOf ["n", "h", "b", "n1", "u1", "n2", "u2"] 4).width :=
  ⟨by decide,
   C2_deleteCurrentLink_removes_pair (formOf ["n", "h", "b", "n1", "u1", "n2", "u2"] 4) 2 0
     (by decide) (by decide) (by decide)⟩

/-! ## C3 -/

/-- C3: with the focus on a fixed field (index 0, 1 or 2), or with no link
field at all, `deleteCurrentLink` returns the form unchanged; applying it
twice is the same as applying it once. -/
theorem C3_deleteCurrentLink_noop (f : formModel)
    (h : (f.focusIndex = 0 ∨ f.focusIndex = 1 ∨ f.focusIndex = 2) ∨ f.inputs.length ≤ 3) :
    f.deleteCurrentLink = some f ∧
      f.deleteCurrentLink.bind formModel.deleteCurrentLink = f.deleteCurrentLink := by
  have key : f.deleteCurrentLink = some f := by
    unfold formModel.deleteCurrentLink
    dsimp only
    by_cases h3 : f.inputs.length ≤ 3
    · rw [if_pos h3]
    · rw [if_neg h3]
      have hfocus : f.focusIndex < ((3 : Nat) : Int) := by
        rcases h with (h | h | h) | h
        · rw [h]; decide
        · rw [h]; decide
        · rw [h]; decide
        · exact absurd h h3
      rw [scanLinkIndex_of_lt _ _ _ 3 hfocus]
      simp
  exact ⟨key, by rw [key]; exact key⟩

/-- C3 at concrete forms: five fields with the focus on the handle, and a
form of the three fixed fields with the focus on the last one. -/
theorem C3_deleteCurrentLink_noop_witness :
    ((formOf ["n", "h", "b", "n1", "u1"] 1).deleteCurrentLink =
        some (formOf ["n", "h", "b", "n1", "u1"] 1) ∧
      (formOf ["n", "h", "b", "n1", "u1"] 1).deleteCurrentLink.bind formModel.deleteCurrentLink =
        (formOf ["n", "h", "b", "n1", "u1"] 1).deleteCurrentLink) ∧
    ((formOf ["n", "h", "b"] 2).deleteCurrentLink = some (formOf ["n", "h", "b"] 2) ∧
      (formOf ["n", "h", "b"] 2).deleteCurrentLink.bind formModel.deleteCurrentLink =
        (formOf ["n", "h", "b"] 2).deleteCurrentLink) :=
  ⟨C3_deleteCurrentLink_noop (formOf ["n", "h", "b", "n1", "u1"] 1) (Or.inl (by decide)),
   C3_deleteCurrentLink_noop (formOf ["n", "h", "b"] 2) (Or.inr (by decide))⟩

/-! ## C4 -/

/-- C4: `addLink("", "")` appends exactly two fields, a name field (limit 100)
and a URL field (limit 500), both empty and not focused; the fields that were
there keep their index and content, and the focus index and width are
unchanged. -/
theorem C4_addLink_empty (f : formModel) :
    ∃ nameInput urlInput : textinput.Model,
      (f.addLink [] []).inputs = f.inputs ++ [nameInput, urlInput] ∧
      (f.addLink [] []).inputs.length = f.inputs.length + 2 ∧
      (f.addLink [] []).inputs.take f.inputs.length = f.inputs ∧
      nameInput.Value = [] ∧ nameInput.CharLimit = 100 ∧
      urlInput.Value = [] ∧ urlInput.CharLimit = 500 ∧
      (f.addLink [] []).focusIndex = f.focusIndex ∧ (f.addLink [] []).width = f.width := by
  refine ⟨_, _, addLink_inputs f [] [], addLink_length f [] [], ?_, rfl, rfl, rfl, rfl, rfl, rfl⟩
  rw [addLink_inputs, List.take_left]

/-! ## C5 -/

theorem map_Value_modify (l : List textinput.Model) (g : textinput.Model → textinput.Model)
    (n : Nat) (hg : ∀ m, (g m).Value = m.Value) :
    (l.modify g n).map textinput.Model.Value = l.map textinput.Model.Value := by
  apply List.ext_getElem?
  intro i
  simp only [List.getElem?_map, List.getElem?_modify]
  cases l[i]? with
  | none => rfl
  | some a =>
    simp only [Option.map_eq_map, Option.map_some']
    split_ifs
    · rw [hg]
    · rfl

/-- Fields, focus index and values after a focus move from index `i` to index `j`. -/
theorem focus_move (l : List textinput.Model) (i j : Nat) (hij : i ≠ j)
    (hi : i < l.length) (hj : j < l.length) :
    ((l.modify textinput.Model.Blur i).modify textinput.Model.Focus j).length = l.length ∧
    (((l.modify textinput.Model.Blur i).modify textinput.Model.Focus j).map
        textinput.Model.Value = l.map textinput.Model.Value) ∧
    (((l.modify textinput.Model.Blur i).modify textinput.Model.Focus j)[i]?.map
        fun m => m.focus) = some false ∧
    (((l.modify textinput.Model.Blur i).modify textinput.Model.Focus j)[j]?.map
        fun m => m.focus) = some true ∧
    ∀ n : Nat, n ≠ i → n ≠ j →
      ((l.modify textinput.Model.Blur i).modify textinput.Model.Focus j)[n]? = l[n]? := by
  refine ⟨by simp, ?_, ?_, ?_, ?_⟩
  · rw [map_Value_modify _ textinput.Model.Focus _ (fun _ => rfl),
      map_Value_modify _ textinput.Model.Blur _ (fun _ => rfl)]
  · rw [List.getElem?_modify_ne _ _ (Ne.symm hij), List.getElem?_modify_eq,
      List.getElem?_eq_getElem hi]
    rfl
  · rw [List.getElem?_modify_eq, List.getElem?_modify_ne _ _ hij, List.getElem?_eq_getElem hj]
    rfl
  · intro n hni hnj
    rw [List.getElem?_modify_ne _ _ (Ne.symm hnj), List.getElem?_modify_ne _ _ (Ne.symm hni)]

/-- C5: on a form whose focus index `i` is in range, `nextField` moves the
focus to `i + 1` unless `i` is the last index, and `prevField` moves it to
`i - 1` unless `i` is `0` (no wrap-around). When the focus moves, the field
at the old index is blurred, the field at the new index is focused and every
other field is untouched; when it does not move the form is unchanged. Field
count and field values never change. -/
theorem C5_nextField_prevField (f : formModel)
    (h0 : 0 ≤ f.focusIndex) (h1 : f.focusIndex < (f.inputs.length : Int)) :
    (∃ g, f.nextField = some g ∧
      g.focusIndex =
        (if f.focusIndex < (f.inputs.length : Int) - 1 then f.focusIndex + 1
         else f.focusIndex) ∧
      g.inputs.length = f.inputs.length ∧
      g.inputs.map textinput.Model.Value = f.inputs.map textinput.Model.Value ∧
      (f.focusIndex < (f.inputs.length : Int) - 1 →
        (goIndex g.inputs f.focusIndex).map (fun m => m.focus) = some false ∧
        (goIndex g.inputs g.focusIndex).map (fun m => m.focus) = some true ∧
        ∀ n : Nat, (n : Int) ≠ f.focusIndex → (n : Int) ≠ g.focusIndex →
          g.inputs[n]? = f.inputs[n]?) ∧
      (¬ f.focusIndex < (f.inputs.length : Int) - 1 → g = f)) ∧
    (∃ g, f.prevField = some g ∧
      g.focusIndex = (if f.focusIndex > 0 then f.focusIndex - 1 else 0) ∧
      g.inputs.length = f.inputs.length ∧
      g.inputs.map textinput.Model.Value = f.inputs.map textinput.Model.Value ∧
      (f.focusIndex > 0 →
        (goIndex g.inputs f.focusIndex).map (fun m => m.focus) = some false ∧
        (goIndex g.inputs g.focusIndex).map (fun m => m.focus) = some true ∧
        ∀ n : Nat, (n : Int) ≠ f.focusIndex → (n : Int) ≠ g.focusIndex →
          g.inputs[n]? = f.inputs[n]?) ∧
      (¬ f.focusIndex > 0 → g = f)) := by
  obtain ⟨i, hi⟩ : ∃ i : Nat, f.focusIndex = (i : Int) := ⟨f.focusIndex.toNat, by omega⟩
  have hil : i < f.inputs.length := by omega
  constructor
  · unfold formModel.nextField
    dsimp only
    by_cases hmove : f.focusIndex < (f.inputs.length : Int) - 1
    · rw [if_pos hmove, if_pos h0, if_pos hmove]
      have e1 : f.focusIndex.toNat = i := by omega
      have e2 : (f.focusIndex + 1).toNat = i + 1 := by omega
      obtain ⟨m1, m2, m3, m4, m5⟩ :=
        focus_move f.inputs i (i + 1) (by omega) hil (by omega)
      refine ⟨_, rfl, rfl, ?_, ?_, ?_, fun h => absurd hmove h⟩
      · dsimp only; rw [e1, e2]; exact m1
      · dsimp only; rw [e1, e2]; exact m2
      · intro _
        dsimp only
        rw [e1, e2]
        refine ⟨?_, ?_, ?_⟩
        · rw [goIndex, if_pos h0, e1]; exact m3
        · rw [goIndex, if_pos (by omega), e2]; exact m4
        · intro n hn1 hn2
          exact m5 n (by omega) (by omega)
    · rw [if_neg hmove, if_neg hmove]
      exact ⟨f, rfl, rfl, rfl, rfl, fun h => absurd h hmove, fun _ => rfl⟩
  · unfold formModel.prevField
    dsimp only
    by_cases hmove : f.focusIndex > 0
    · rw [if_pos hmove, if_pos h1, if_pos hmove]
      have e1 : f.focusIndex.toNat = i := by omega
      have e2 : (f.focusIndex - 1).toNat = i - 1 := by omega
      obtain ⟨m1, m2, m3, m4, m5⟩ :=
        focus_move f.inputs i (i - 1) (by omega) hil (by omega)
      refine ⟨_, rfl, rfl, ?_, ?_, ?_, fun h => absurd hmove h⟩
      · dsimp only; rw [e1, e2]; exact m1
      · dsimp only; rw [e1, e2]; exact m2
      · intro _
        dsimp only
        rw [e1, e2]
        refine ⟨?_, ?_, ?_⟩
        · rw [goIndex, if_pos h0, e1]; exact m3
        · rw [goIndex, if_pos (by omega), e2]; exact m4
        · intro n hn1 hn2
          exact m5 n (by omega) (by omega)
    · rw [if_neg hmove, if_neg hmove]
      have hz : f.focusIndex = 0 := by omega
      exact ⟨f, rfl, hz, rfl, rfl, fun h => absurd h hmove, fun _ => rfl⟩

/-- C5 at a concrete form of five fields: from index 1 the focus moves to 2
and back to 0; at the last index `nextField` changes nothing. -/
theorem C5_nextField_prevField_witness :
    ((0 : Int) ≤ (formOf ["n", "h", "b", "n1", "u1"] 1).focusIndex ∧
      (formOf ["n", "h", "b", "n1", "u1"] 1).focusIndex <
        ((formOf ["n", "h", "b", "n1", "u1"] 1).inputs.length : Int)) ∧
    (∃ g, (formOf ["n", "h", "b", "n1", "u1"] 1).nextField = some g ∧ g.focusIndex = 2 ∧
      g.inputs.map textinput.Model.Value =
        (formOf ["n", "h", "b", "n1", "u1"] 1).inputs.map textinput.Model.Value) ∧
    (∃ g, (formOf ["n", "h", "b", "n1", "u1"] 1).prevField = some g ∧ g.focusIndex = 0) ∧
    (formOf ["n", "h", "b", "n1", "u1"] 4).nextField =
      some (formOf ["n", "h", "b", "n1", "u1"] 4) :=
  ⟨⟨by decide, by decide⟩,
   (C5_nextField_prevField (formOf ["n", "h", "b", "n1", "u1"] 1) (by decide) (by decide)).1.elim
     fun g hg => ⟨g, hg.1, hg.2.1.trans (by decide), hg.2.2.2.1⟩,
   (C5_nextField_prevField (formOf ["n", "h", "b", "n1", "u1"] 1) (by decide) (by decide)).2.elim
     fun g hg => ⟨g, hg.1, hg.2.1.trans (by decide)⟩,
   (C5_nextField_prevField (formOf ["n", "h", "b", "n1", "u1"] 4) (by decide) (by decide)).1.elim
     fun g hg => hg.1.trans (congrArg some (hg.2.2.2.2.2 (by decide)))⟩

/-! ## C6 -/

/-- C6: `formModel.Update` leaves the field count, the focus index and the
width alone, leaves every field whose index is not the focus index exactly
as it was, and hands the event to the field at the focus index. -/
theorem C6_Update_frame (edit : KeyEdit) (f : formModel) (msg : KeyMsg) :
    (f.Update edit msg).inputs.length = f.inputs.length ∧
    (f.Update edit msg).focusIndex = f.focusIndex ∧
    (f.Update edit msg).width = f.width ∧
    (∀ i : Nat, (i : Int) ≠ f.focusIndex → (f.Update edit msg).inputs[i]? = f.inputs[i]?) ∧
    (∀ i : Nat, (i : Int) = f.focusIndex →
      (f.Update edit msg).inputs[i]? = f.inputs[i]?.map fun m => m.Update edit msg) := by
  refine ⟨Update_length edit f msg, rfl, rfl, ?_, ?_⟩
  · intro i hi
    simp only [formModel.Update, List.getElem?_map, List.getElem?_enum]
    cases f.inputs[i]? with
    | none => rfl
    | some a => simp [hi]
  · intro i hi
    simp only [formModel.Update, List.getElem?_map, List.getElem?_enum]
    cases f.inputs[i]? with
    | none => rfl
    | some a => simp [hi]

/-- C6 at a fresh form: typing a key changes the focused full-name field and
leaves the handle field at index 1 as it was. -/
theorem C6_Update_frame_witness :
    ((1 : Nat) : Int) ≠ newFormModel.focusIndex ∧
    (newFormModel.Update appendKey ⟨"a"⟩).inputs[1]? = newFormModel.inputs[1]? ∧
    ((newFormModel.Update appendKey ⟨"a"⟩).inputs[0]?.map textinput.Model.Value) =
      some "a".toList :=
  ⟨by decide,
   (C6_Update_frame appendKey newFormModel ⟨"a"⟩).2.2.2.1 1 (by decide),
   by rw [(C6_Update_frame appendKey newFormModel ⟨"a"⟩).2.2.2.2 0 (by decide)]; decide⟩

/-! ## C7 -/

theorem SetValue_Value (m : textinput.Model) (s : GoString) :
    (m.SetValue s).Value = textinput.stored m.CharLimit s := by
  unfold textinput.Model.SetValue textinput.stored textinput.Model.Value
  dsimp only
  split_ifs <;> rfl

theorem SetValue_CharLimit (m : textinput.Model) (s : GoString) :
    (m.SetValue s).CharLimit = m.CharLimit := by
  unfold textinput.Model.SetValue
  dsimp only
  split_ifs <;> rfl

theorem Sanitize_length_le (s : GoString) : (textinput.Sanitize s).length ≤ s.length := by
  induction s with
  | nil => simp [textinput.Sanitize]
  | cons c cs ih =>
    unfold textinput.Sanitize
    split_ifs <;> simp <;> omega

theorem Sanitize_eq_self (s : GoString)
    (h : ∀ c ∈ s, c.toNat ≠ 0xFFFD ∧ textinput.isControl c = false) :
    textinput.Sanitize s = s := by
  induction s with
  | nil => rfl
  | cons c cs ih =>
    have hc := h c (List.mem_cons_self c cs)
    have hcs := ih fun d hd => h d (List.mem_cons_of_mem c hd)
    unfold textinput.Sanitize
    have h1 : ¬ (c = '\r' ∨ c = '\n') := by
      rintro (e | e) <;> · subst e; exact absurd hc.2 (by decide)
    have h2 : ¬ c = '\t' := by
      intro e; subst e; exact absurd hc.2 (by decide)
    rw [if_neg hc.1, if_neg h1, if_neg h2, hc.2, hcs]
    simp

theorem stored_eq_self (limit : Nat) (s : GoString) (h : textinput.Verbatim limit s) :
    textinput.stored limit s = s := by
  unfold textinput.stored
  rw [Sanitize_eq_self s h.1]
  rw [if_neg]
  rcases h.2 with h0 | h1 <;> omega

theorem stored_length_le (limit : Nat) (s : GoString) (h : 0 < limit) :
    (textinput.stored limit s).length ≤ limit := by
  unfold textinput.stored
  split_ifs with h1
  · rw [List.length_take]; omega
  · omega

theorem valueAt_eq (inputs : List textinput.Model) (i : Nat) :
    valueAt inputs i = (inputs[i]?.map textinput.Model.Value).getD [] := by
  unfold valueAt
  cases inputs[i]? <;> rfl

theorem getElem?_flatMap_pair {α β : Type} (xs : List α) (a b : α → β) (j : Nat) :
    (xs.flatMap fun x => [a x, b x])[2 * j]? = xs[j]?.map a ∧
      (xs.flatMap fun x => [a x, b x])[2 * j + 1]? = xs[j]?.map b := by
  induction xs generalizing j with
  | nil => simp
  | cons x xs ih =>
    cases j with
    | zero => simp [List.flatMap_cons]
    | succ j =>
      have e1 : 2 * (j + 1) = 2 * j + 1 + 1 := by omega
      rw [e1]
      simpa [List.flatMap_cons] using ih j

/-- The fields of a form after `populateFromUser`: the three fixed fields with
their value set from the profile, then one fresh name field and one fresh URL
field per link, in stored order. -/
theorem populateFromUser_inputs (f : formModel) (user : User) (h3 : 3 ≤ f.inputs.length) :
    (f.populateFromUser user).inputs =
      (((f.inputs.modify (fun m => m.SetValue user.FullName) 0).modify
          (fun m => m.SetValue user.Username) 1).modify
          (fun m => m.SetValue user.About) 2).take 3 ++
        user.Links.flatMap fun link =>
          [ ({ textinput.New with
                Placeholder := "Link name".toList, CharLimit := 100,
                Width := 23 }).SetValue link.Name,
            ({ textinput.New with
                Placeholder := "https://example.com".toList, CharLimit := 500,
                Width := 23 }).SetValue link.URL ] := by
  unfold formModel.populateFromUser
  rw [foldl_addLink_inputs, clearLinks_inputs]
  simp only [ge_iff_le, h3, if_true]

/-- The values of the fields after `populateFromUser`, field by field. -/
theorem populateFromUser_values (f : formModel) (user : User) (h3 : 3 ≤ f.inputs.length) :
    valueAt (f.populateFromUser user).inputs 0 =
        textinput.stored (limitAt f.inputs 0) user.FullName ∧
    valueAt (f.populateFromUser user).inputs 1 =
        textinput.stored (limitAt f.inputs 1) user.Username ∧
    valueAt (f.populateFromUser user).inputs 2 =
        textinput.stored (limitAt f.inputs 2) user.About ∧
    ∀ (j : Nat) (link : Link), user.Links[j]? = some link →
      valueAt (f.populateFromUser user).inputs (3 + 2 * j) = textinput.stored 100 link.Name ∧
      valueAt (f.populateFromUser user).inputs (4 + 2 * j) = textinput.stored 500 link.URL := by
  have hfix : ∀ (i : Nat) (m : textinput.Model), i < 3 → f.inputs[i]? = some m →
      ∀ g : textinput.Model → textinput.Model,
        (((f.inputs.modify (fun m => m.SetValue user.FullName) 0).modify
            (fun m => m.SetValue user.Username) 1).modify
            (fun m => m.SetValue user.About) 2)[i]? = some (g m) →
        valueAt (f.populateFromUser user).inputs i = (g m).Value := by
    intro i m hi _ g hg
    rw [valueAt_eq, populateFromUser_inputs f user h3,
      List.getElem?_append_left (by rw [List.length_take]; simp; omega),
      List.getElem?_take_of_lt hi, hg]
    rfl
  obtain ⟨m0, hm0⟩ : ∃ m, f.inputs[0]? = some m :=
    ⟨_, List.getElem?_eq_getElem (by omega)⟩
  obtain ⟨m1, hm1⟩ : ∃ m, f.inputs[1]? = some m :=
    ⟨_, List.getElem?_eq_getElem (by omega)⟩
  obtain ⟨m2, hm2⟩ : ∃ m, f.inputs[2]? = some m :=
    ⟨_, List.getElem?_eq_getElem (by omega)⟩
  refine ⟨?_, ?_, ?_, ?_⟩
  · rw [hfix 0 m0 (by omega) hm0 (fun m => m.SetValue user.FullName)
      (by simp [List.getElem?_modify, hm0]), SetValue_Value]
    simp [limitAt, hm0]
  · rw [hfix 1 m1 (by omega) hm1 (fun m => m.SetValue user.Username)
      (by simp [List.getElem?_modify, hm1]), SetValue_Value]
    simp [limitAt, hm1]
  · rw [hfix 2 m2 (by omega) hm2 (fun m => m.SetValue user.About)
      (by simp [List.getElem?_modify, hm2]), SetValue_Value]
    simp [limitAt, hm2]
  · intro j link hj
    have hpair := getElem?_flatMap_pair user.Links
      (fun link => ({ textinput.New with
          Placeholder := "Link name".toList, CharLimit := 100,
          Width := 23 }).SetValue link.Name)
      (fun link => ({ textinput.New with
          Placeholder := "https://example.com".toList, CharLimit := 500,
          Width := 23 }).SetValue link.URL) j
    have htl : ((((f.inputs.modify (fun m => m.SetValue user.FullName) 0).modify
          (fun m => m.SetValue user.Username) 1).modify
          (fun m => m.SetValue user.About) 2).take 3).length = 3 := by
      rw [List.length_take]; simp; omega
    constructor
    · rw [valueAt_eq, populateFromUser_inputs f user h3,
        List.getElem?_append_right (by omega), htl]
      have e : 3 + 2 * j - 3 = 2 * j := by omega
      rw [e, hpair.1, hj]
      exact SetValue_Value _ _
    · rw [valueAt_eq, populateFromUser_inputs f user h3,
        List.getElem?_append_right (by omega), htl]
      have e : 4 + 2 * j - 3 = 2 * j + 1 := by omega
      rw [e, hpair.2, hj]
      exact SetValue_Value _ _

/-- C7, as the code has it: on a form with at least three fields,
`populateFromUser(p)` yields exactly `3 + 2n` fields for the `n` links of `p`
(the link fields the form had are gone). Fields 0, 1, 2 hold what `SetValue`
stores of the full name, the handle and the bio of `p`, and fields `3 + 2j`,
`4 + 2j` hold what `SetValue` stores of the name and the URL of the `j`-th
link, in stored order: the text with control characters and U+FFFD removed
(tabs and line breaks turned into a space) and cut to the character limit of
the field.
A text without such characters that fits the limit is held as it is. -/
theorem C7_populateFromUser_fields (f : formModel) (p : User) (h3 : 3 ≤ f.inputs.length) :
    (f.populateFromUser p).inputs.length = 3 + 2 * p.Links.length ∧
    (valueAt (f.populateFromUser p).inputs 0 =
        textinput.stored (limitAt f.inputs 0) p.FullName ∧
      valueAt (f.populateFromUser p).inputs 1 =
        textinput.stored (limitAt f.inputs 1) p.Username ∧
      valueAt (f.populateFromUser p).inputs 2 =
        textinput.stored (limitAt f.inputs 2) p.About ∧
      ∀ (j : Nat) (link : Link), p.Links[j]? = some link →
        valueAt (f.populateFromUser p).inputs (3 + 2 * j) = textinput.stored 100 link.Name ∧
        valueAt (f.populateFromUser p).inputs (4 + 2 * j) = textinput.stored 500 link.URL) ∧
    ((textinput.Verbatim (limitAt f.inputs 0) p.FullName →
        valueAt (f.populateFromUser p).inputs 0 = p.FullName) ∧
      (textinput.Verbatim (limitAt f.inputs 1) p.Username →
        valueAt (f.populateFromUser p).inputs 1 = p.Username) ∧
      (textinput.Verbatim (limitAt f.inputs 2) p.About →
        valueAt (f.populateFromUser p).inputs 2 = p.About) ∧
      ∀ (j : Nat) (link : Link), p.Links[j]? = some link →
        (textinput.Verbatim 100 link.Name →
          valueAt (f.populateFromUser p).inputs (3 + 2 * j) = link.Name) ∧
        (textinput.Verbatim 500 link.URL →
          valueAt (f.populateFromUser p).inputs (4 + 2 * j) = link.URL)) := by
  obtain ⟨v0, v1, v2, vl⟩ := populateFromUser_values f p h3
  refine ⟨populateFromUser_length f p h3, ⟨v0, v1, v2, vl⟩, ?_, ?_, ?_, ?_⟩
  · intro h; rw [v0, stored_eq_self _ _ h]
  · intro h; rw [v1, stored_eq_self _ _ h]
  · intro h; rw [v2, stored_eq_self _ _ h]
  · intro j link hj
    exact ⟨fun h => by rw [(vl j link hj).1, stored_eq_self _ _ h],
           fun h => by rw [(vl j link hj).2, stored_eq_self _ _ h]⟩

/-- C7 at a concrete input: a form with one old link pair, loaded from a
profile with two links. -/
theorem C7_populateFromUser_fields_witness :
    3 ≤ (formOf ["x", "y", "z", "old", "http://old"] 4).inputs.length ∧
    ((formOf ["x", "y", "z", "old", "http://old"] 4).populateFromUser
      (profileOf "Ada Lovelace" "ada" "maths"
        [("blog", "https://a.example"), ("code", "https://b.example")])).inputs.length =
        3 + 2 * 2 ∧
    valueAt ((formOf ["x", "y", "z", "old", "http://old"] 4).populateFromUser
      (profileOf "Ada Lovelace" "ada" "maths"
        [("blog", "https://a.example"), ("code", "https://b.example")])).inputs 0 =
        "Ada Lovelace".toList ∧
    valueAt ((formOf ["x", "y", "z", "old", "http://old"] 4).populateFromUser
      (profileOf "Ada Lovelace" "ada" "maths"
        [("blog", "https://a.example"), ("code", "https://b.example")])).inputs (4 + 2 * 1) =
        "https://b.example".toList :=
  ⟨by decide,
   (C7_populateFromUser_fields (formOf ["x", "y", "z", "old", "http://old"] 4)
      (profileOf "Ada Lovelace" "ada" "maths"
        [("blog", "https://a.example"), ("code", "https://b.example")]) (by decide)).1,
   (C7_populateFromUser_fields (formOf ["x", "y", "z", "old", "http://old"] 4)
      (profileOf "Ada Lovelace" "ada" "maths"
        [("blog", "https://a.example"), ("code", "https://b.example")])
      (by decide)).2.1.1.trans (by decide),
   ((C7_populateFromUser_fields (formOf ["x", "y", "z", "old", "http://old"] 4)
      (profileOf "Ada Lovelace" "ada" "maths"
        [("blog", "https://a.example"), ("code", "https://b.example")])
      (by decide)).2.1.2.2.2 1
        { ID := [], UserID := "id-1".toList, Name := "code".toList,
          URL := "https://b.example".toList, Position := 0 } (by decide)).2.trans (by decide)⟩

/-- C7 fails as stated: loaded into a fresh form, a full name of 101
characters is held cut to the limit of 100, and a full name with a tab is held
with a space in its place; neither field holds the full name of the profile. -/
theorem C7_populateFromUser_counterexample :
    3 ≤ newFormModel.inputs.length ∧
    (valueAt (newFormModel.populateFromUser profileLongName).inputs 0 =
        List.replicate 100 'a' ∧
      valueAt (newFormModel.populateFromUser profileLongName).inputs 0 ≠
        profileLongName.FullName) ∧
    (valueAt (newFormModel.populateFromUser (profileOf "Ada\tLovelace" "ada" "" [])).inputs 0 =
        "Ada Lovelace".toList ∧
      valueAt (newFormModel.populateFromUser (profileOf "Ada\tLovelace" "ada" "" [])).inputs 0 ≠
        (profileOf "Ada\tLovelace" "ada" "" []).FullName) := by
  refine ⟨by decide, ⟨?_, ?_⟩, by decide, by decide⟩
  · decide
  · decide

/-! ## The link loop of `validate` -/

theorem valueAt_of_getElem? (inputs : List textinput.Model) (i : Nat) (m : textinput.Model)
    (h : inputs[i]? = some m) : valueAt inputs i = m.Value := by
  unfold valueAt
  rw [h]

/-- With a budget that covers the fields from `i` on, the link loop returns
the first violation of the link pairs from `i` on. -/
theorem validateLinks_eq (inputs : List textinput.Model) (fuel i : Nat)
    (hfuel : inputs.length ≤ i + 2 * fuel) :
    validateLinks inputs fuel i =
      ((linkPairs (inputs.drop i)).flatMap pairViolations).head? := by
  induction fuel generalizing i with
  | zero =>
    rw [List.drop_eq_nil_of_le (by omega)]
    rfl
  | succ fuel ih =>
    unfold validateLinks
    by_cases h1 : i < inputs.length
    · rw [if_pos h1]
      by_cases h2 : i + 1 ≥ inputs.length
      · rw [if_pos h2, ih (i + 2) (by omega), List.drop_eq_nil_of_le (by omega),
          List.drop_eq_getElem_cons h1, List.drop_eq_nil_of_le (by omega)]
        rfl
      · rw [if_neg h2]
        have h2lt : i + 1 < inputs.length := by omega
        rw [List.drop_eq_getElem_cons h1, List.drop_eq_getElem_cons h2lt]
        rw [valueAt_of_getElem? inputs i _ (List.getElem?_eq_getElem h1),
          valueAt_of_getElem? inputs (i + 1) _ (List.getElem?_eq_getElem h2lt)]
        simp only [linkPairs, List.flatMap_cons, List.head?_append]
        rw [← ih (i + 2) (by omega)]
        generalize TrimSpace inputs[i].Value = name
        generalize TrimSpace inputs[i + 1].Value = url
        unfold pairViolations
        generalize HasPrefix url "http://".toList = p
        generalize HasPrefix url "https://".toList = q
        by_cases hn : name = [] <;> by_cases hu : url = [] <;> cases p <;> cases q <;>
          simp [hn, hu]
    · rw [if_neg h1, List.drop_eq_nil_of_le (by omega)]
      rfl

/-- The pair at position `j` of a field tail. -/
theorem linkPairs_getElem? (l : List textinput.Model) (j : Nat) (a b : textinput.Model)
    (ha : l[2 * j]? = some a) (hb : l[2 * j + 1]? = some b) :
    (linkPairs l)[j]? = some (TrimSpace a.Value, TrimSpace b.Value) := by
  induction j generalizing l with
  | zero =>
    match l, ha, hb with
    | x :: y :: rest, ha, hb =>
      simp at ha hb
      subst ha; subst hb
      simp [linkPairs]
  | succ j ih =>
    match l, ha, hb with
    | x :: y :: rest, ha, hb =>
      have e1 : 2 * (j + 1) = 2 * j + 1 + 1 := by omega
      rw [e1] at ha hb
      simp only [List.getElem?_cons_succ] at ha hb
      simp only [linkPairs, List.getElem?_cons_succ]
      exact ih rest ha hb

/-- Every pair of a field tail sits at some position `j`. -/
theorem linkPairs_mem (l : List textinput.Model) (pair : GoString × GoString)
    (h : pair ∈ linkPairs l) :
    ∃ (j : Nat) (a b : textinput.Model), l[2 * j]? = some a ∧ l[2 * j + 1]? = some b ∧
      pair = (TrimSpace a.Value, TrimSpace b.Value) := by
  induction l using linkPairs.induct with
  | case1 x y rest ih =>
    simp only [linkPairs, List.mem_cons] at h
    rcases h with h | h
    · exact ⟨0, x, y, by simp, by simp, h⟩
    · obtain ⟨j, a, b, ha, hb, hp⟩ := ih h
      refine ⟨j + 1, a, b, ?_, ?_, hp⟩
      · have e1 : 2 * (j + 1) = 2 * j + 1 + 1 := by omega
        rw [e1]; simpa using ha
      · have e1 : 2 * (j + 1) + 1 = 2 * j + 1 + 1 + 1 := by omega
        rw [e1]; simpa using hb
  | case2 l hl =>
    unfold linkPairs at h
    split at h
    · exact absurd rfl (hl _ _ _)
    · simp at h

/-- On a form with its three fixed fields, `validate` returns the first entry
of the list of violations in field order. -/
theorem validate_eq_head (f : formModel) (h3 : 3 ≤ f.inputs.length) :
    f.validate = (specViolations f).head? := by
  unfold formModel.validate specViolations
  dsimp only
  rw [if_neg (by omega), validateLinks_eq f.inputs f.inputs.length 3 (by omega)]
  generalize (linkPairs (f.inputs.drop 3)).flatMap pairViolations = rest
  generalize TrimSpace (valueAt f.inputs 0) = fullName
  generalize TrimSpace (valueAt f.inputs 1) = username
  by_cases hn : fullName = []
  · simp [hn]
  · by_cases hu : username = []
    · simp [hn, hu]
    · cases hv : isValidUsername username <;> simp [hn, hu]

theorem isValidUsername_nil : isValidUsername [] = false := by decide

/-- With a valid full name and handle, the answer of `validate` is the first
violation of the link pairs. -/
theorem validate_links_only (f : formModel) (h3 : 3 ≤ f.inputs.length)
    (hname : TrimSpace (valueAt f.inputs 0) ≠ [])
    (huser : isValidUsername (TrimSpace (valueAt f.inputs 1)) = true) :
    f.validate = ((linkPairs (f.inputs.drop 3)).flatMap pairViolations).head? := by
  have hu : TrimSpace (valueAt f.inputs 1) ≠ [] := by
    intro e
    rw [e, isValidUsername_nil] at huser
    exact absurd huser (by decide)
  rw [validate_eq_head f h3]
  unfold specViolations
  simp [hname, hu, huser]

/-! ## C8 -/

/-- C8: on a form whose full name and handle are valid, `validate` returns an
error when some link pair has a non-blank name and a blank URL or a blank
name and a non-blank URL, and it returns no error when every link pair has
both texts blank. -/
theorem C8_validate_link_pairs (f : formModel) (h3 : 3 ≤ f.inputs.length)
    (hname : TrimSpace (valueAt f.inputs 0) ≠ [])
    (huser : isValidUsername (TrimSpace (valueAt f.inputs 1)) = true) :
    (∀ (j : Nat) (nameInput urlInput : textinput.Model),
      f.inputs[3 + 2 * j]? = some nameInput → f.inputs[4 + 2 * j]? = some urlInput →
      (TrimSpace nameInput.Value ≠ [] ∧ TrimSpace urlInput.Value = [] ∨
        TrimSpace nameInput.Value = [] ∧ TrimSpace urlInput.Value ≠ []) →
      f.validate ≠ none) ∧
    ((∀ (j : Nat) (nameInput urlInput : textinput.Model),
      f.inputs[3 + 2 * j]? = some nameInput → f.inputs[4 + 2 * j]? = some urlInput →
      TrimSpace nameInput.Value = [] ∧ TrimSpace urlInput.Value = []) →
      f.validate = none) := by
  rw [validate_links_only f h3 hname huser]
  constructor
  · intro j a b ha hb hpart
    have hmem : (TrimSpace a.Value, TrimSpace b.Value) ∈ linkPairs (f.inputs.drop 3) := by
      apply List.mem_iff_getElem?.mpr
      refine ⟨j, linkPairs_getElem? _ j a b ?_ ?_⟩
      · rw [List.getElem?_drop]; exact ha
      · rw [List.getElem?_drop]
        have e : 3 + (2 * j + 1) = 4 + 2 * j := by omega
        rw [e]; exact hb
    have hne : pairViolations (TrimSpace a.Value, TrimSpace b.Value) ≠ [] := by
      unfold pairViolations
      rcases hpart with ⟨h1, h2⟩ | ⟨h1, h2⟩ <;> simp [h1, h2]
    intro hnone
    rw [List.head?_eq_none_iff, List.flatMap_eq_nil_iff] at hnone
    exact hne (hnone _ hmem)
  · intro hblank
    rw [List.head?_eq_none_iff, List.flatMap_eq_nil_iff]
    intro pair hpair
    obtain ⟨j, a, b, ha, hb, hp⟩ := linkPairs_mem _ pair hpair
    rw [List.getElem?_drop] at ha hb
    have e : 3 + (2 * j + 1) = 4 + 2 * j := by omega
    rw [e] at hb
    obtain ⟨h1, h2⟩ := hblank j a b ha hb
    subst hp
    unfold pairViolations
    simp [h1, h2]

/-- C8 at concrete forms: a name without URL and a URL without name are
rejected; blank pairs (also of white space only) are accepted. -/
theorem C8_validate_link_pairs_witness :
    (formOf ["Ada", "ada", "", "blog", " "] 0).validate ≠ none ∧
    (formOf ["Ada", "ada", "", "", "https://a.example"] 0).validate ≠ none ∧
    (formOf ["Ada", "ada", "", "", "", " ", "\t"] 0).validate = none :=
  ⟨(C8_validate_link_pairs (formOf ["Ada", "ada", "", "blog", " "] 0)
      (by decide) (by decide) (by decide)).1 0
      { textinput.New with value := "blog".toList } { textinput.New with value := " ".toList }
      (by decide) (by decide) (Or.inl (by decide)),
   (C8_validate_link_pairs (formOf ["Ada", "ada", "", "", "https://a.example"] 0)
      (by decide) (by decide) (by decide)).1 0
      { textinput.New with value := [] }
      { textinput.New with value := "https://a.example".toList }
      (by decide) (by decide) (Or.inr (by decide)),
   (C8_validate_link_pairs (formOf ["Ada", "ada", "", "", "", " ", "\t"] 0)
      (by decide) (by decide) (by decide)).2 (by
        intro j a b ha hb
        obtain ⟨hlt, -⟩ := List.getElem?_eq_some_iff.mp hb
        have hlen : (formOf ["Ada", "ada", "", "", "", " ", "\t"] 0).inputs.length = 7 := rfl
        have hj : j < 2 := by omega
        interval_cases j
        · cases ha; cases hb; exact ⟨by decide, by decide⟩
        · cases ha; cases hb; exact ⟨by decide, by decide⟩)⟩

/-! ## C9 -/

/-- C9: on a form with its three fixed fields, `validate` returns the first
violation in field order (blank full name, then blank or ill-formed handle,
then for each link pair from the first to the last: missing name, missing URL,
bad URL prefix), and it returns no error exactly when there is no violation. -/
theorem C9_validate_first_violation (f : formModel) (h3 : 3 ≤ f.inputs.length) :
    f.validate = (specViolations f).head? ∧
    (f.validate = none ↔ specViolations f = []) ∧
    (TrimSpace (valueAt f.inputs 0) = [] → f.validate = some "full name is required") ∧
    (TrimSpace (valueAt f.inputs 0) ≠ [] → TrimSpace (valueAt f.inputs 1) = [] →
      f.validate = some "username is required") ∧
    (TrimSpace (valueAt f.inputs 0) ≠ [] → TrimSpace (valueAt f.inputs 1) ≠ [] →
      isValidUsername (TrimSpace (valueAt f.inputs 1)) = false →
      f.validate =
        some "username must be alphanumeric with optional hyphens and underscores") := by
  have key := validate_eq_head f h3
  refine ⟨key, ?_, ?_, ?_, ?_⟩
  · rw [key, List.head?_eq_none_iff]
  · intro h
    rw [key]; unfold specViolations; simp [h]
  · intro h1 h2
    rw [key]; unfold specViolations; simp [h1, h2]
  · intro h1 h2 h4
    rw [key]; unfold specViolations; simp [h1, h2, h4]

/-- C9 at concrete forms: the first of several violations is the one
reported, and a form without violation is accepted. -/
theorem C9_validate_first_violation_witness :
    3 ≤ (formOf [" ", "a b", "", "n", ""] 0).inputs.length ∧
    (formOf [" ", "a b", "", "n", ""] 0).validate = some "full name is required" ∧
    (formOf ["Ada", "ada", "", "", "", "", "u", "n", "ftp://x"] 0).validate =
      some "link name is required" ∧
    (formOf ["Ada", "ada", "", "n", "https://a.example"] 0).validate = none :=
  ⟨by decide,
   (C9_validate_first_violation (formOf [" ", "a b", "", "n", ""] 0) (by decide)).2.2.1
     (by decide),
   (C9_validate_first_violation
     (formOf ["Ada", "ada", "", "", "", "", "u", "n", "ftp://x"] 0) (by decide)).1.trans
     (by decide),
   (C9_validate_first_violation
     (formOf ["Ada", "ada", "", "n", "https://a.example"] 0) (by decide)).2.1.mpr
     (by decide)⟩

/-! ## C10 -/

theorem length_le_byteLen (s : GoString) : s.length ≤ byteLen s := by
  induction s with
  | nil => exact Nat.le_refl _
  | cons c cs ih =>
    have hc := Char.utf8Size_pos c
    simp only [byteLen, List.map_cons, List.sum_cons, List.length_cons] at ih ⊢
    omega

/-- What `validate` does ensure of an accepted handle: it is not empty, has
at most 50 characters, and every character is a letter, a digit, `-` or `_`. -/
theorem validate_accepted_handle (f : formModel) (h : f.validate = none) :
    TrimSpace (valueAt f.inputs 1) ≠ [] ∧
    (TrimSpace (valueAt f.inputs 1)).length ≤ 50 ∧
    ∀ c ∈ TrimSpace (valueAt f.inputs 1),
      ('a' ≤ c ∧ c ≤ 'z') ∨ ('A' ≤ c ∧ c ≤ 'Z') ∨ ('0' ≤ c ∧ c ≤ '9') ∨ c = '-' ∨ c = '_' := by
  unfold formModel.validate at h
  dsimp only at h
  split_ifs at h with h1 h2 h3 h4
  have hv : isValidUsername (TrimSpace (valueAt f.inputs 1)) = true := by
    simpa using h4
  unfold isValidUsername at hv
  split_ifs at hv with h5
  have hlen := length_le_byteLen (TrimSpace (valueAt f.inputs 1))
  refine ⟨h3, by omega, ?_⟩
  intro c hc
  have := List.all_eq_true.mp hv c hc
  simpa [or_assoc] using this

/-- C10 fails on the code: `validate` accepts a form whose handle is `-ada_`,
which starts with `-` and ends with `_`, while the storage-side
`ValidateUsername` rejects that handle; it also accepts the one-character
handle `_`. -/
theorem C10_validate_accepts_edge_hyphen :
    (formOf ["Ada Lovelace", "-ada_", "", "", ""] 1).validate = none ∧
    TrimSpace (valueAt (formOf ["Ada Lovelace", "-ada_", "", "", ""] 1).inputs 1) =
      "-ada_".toList ∧
    HasPrefix "-ada_".toList "-".toList = true ∧
    HasSuffix "-ada_".toList "_".toList = true ∧
    ValidateUsername "-ada_".toList =
      some "username cannot start or end with hyphens or underscores" ∧
    (formOf ["Ada Lovelace", "_", "", "", ""] 1).validate = none := by
  refine ⟨by decide, by decide, by decide, by decide, by decide, by decide⟩

/-! ## The link loop of the request builders -/

/-- With a budget that covers the fields from `i` on, the request loop appends
the pairs from `i` on whose name and URL are both non-empty. -/
theorem requestLinks_eq (inputs : List textinput.Model) (fuel i : Nat) (links : List LinkInput)
    (hfuel : inputs.length ≤ i + 2 * fuel) :
    requestLinks inputs fuel i links =
      links ++ ((linkPairs (inputs.drop i)).filter bothFilled).map pairToLink := by
  induction fuel generalizing i links with
  | zero =>
    rw [List.drop_eq_nil_of_le (by omega)]
    simp [requestLinks, linkPairs]
  | succ fuel ih =>
    unfold requestLinks
    by_cases h1 : i < inputs.length
    · rw [if_pos h1]
      by_cases h2 : i + 1 < inputs.length
      · rw [if_pos h2]
        rw [List.drop_eq_getElem_cons h1, List.drop_eq_getElem_cons h2]
        rw [valueAt_of_getElem? inputs i _ (List.getElem?_eq_getElem h1),
          valueAt_of_getElem? inputs (i + 1) _ (List.getElem?_eq_getElem h2)]
        simp only [linkPairs]
        generalize TrimSpace inputs[i].Value = name
        generalize TrimSpace inputs[i + 1].Value = url
        by_cases hn : name = [] <;> by_cases hu : url = [] <;>
          simp [hn, hu, ih (i + 2) _ (by omega), bothFilled, pairToLink, List.filter_cons]
      · rw [if_neg h2, ih (i + 2) _ (by omega), List.drop_eq_nil_of_le (by omega),
          List.drop_eq_getElem_cons h1, List.drop_eq_nil_of_le (by omega)]
        rfl
    · rw [if_neg h1, List.drop_eq_nil_of_le (by omega)]
      simp [linkPairs]

theorem toCreateRequest_Links (f : formModel) (sshKey : GoString) :
    (f.toCreateRequest sshKey).Links =
      ((linkPairs (f.inputs.drop 3)).filter bothFilled).map pairToLink := by
  unfold formModel.toCreateRequest
  dsimp only
  rw [requestLinks_eq f.inputs f.inputs.length 3 _ (by omega)]
  split_ifs <;> rfl

theorem toUpdateRequest_Links (f : formModel) :
    f.toUpdateRequest.Links =
      ((linkPairs (f.inputs.drop 3)).filter bothFilled).map pairToLink := by
  unfold formModel.toUpdateRequest
  dsimp only
  rw [requestLinks_eq f.inputs f.inputs.length 3 _ (by omega)]
  split_ifs <;> rfl

/-- Trimming a trimmed text changes nothing. -/
theorem TrimSpace_idem (s : GoString) : TrimSpace (TrimSpace s) = TrimSpace s := by
  unfold TrimSpace
  have hd : List.dropWhile isSpace ((s.dropWhile isSpace).rdropWhile isSpace) =
      (s.dropWhile isSpace).rdropWhile isSpace := by
    obtain ⟨r, hr⟩ := List.rdropWhile_prefix isSpace (l := s.dropWhile isSpace)
    have hnot := List.head?_dropWhile_not isSpace s
    cases ht : (s.dropWhile isSpace).rdropWhile isSpace with
    | nil => rfl
    | cons a t =>
      rw [ht] at hr
      rw [← hr] at hnot
      simp only [List.cons_append, List.head?_cons] at hnot
      rw [List.dropWhile_cons_of_neg (by simp [hnot])]
  rw [hd, List.rdropWhile_idempotent]

theorem mem_linkPairs_trimmed (l : List textinput.Model) (pair : GoString × GoString)
    (h : pair ∈ linkPairs l) : TrimSpace pair.1 = pair.1 ∧ TrimSpace pair.2 = pair.2 := by
  obtain ⟨j, a, b, -, -, hp⟩ := linkPairs_mem l pair h
  subst hp
  exact ⟨TrimSpace_idem _, TrimSpace_idem _⟩

/-- Every entry of the link list both request builders compute has a name and
a URL that are non-empty and stay so when trimmed. -/
theorem request_links_filled (l : List textinput.Model) (link : LinkInput)
    (h : link ∈ ((linkPairs l).filter bothFilled).map pairToLink) :
    (link.Name ≠ [] ∧ link.URL ≠ []) ∧ TrimSpace link.Name ≠ [] ∧ TrimSpace link.URL ≠ [] := by
  obtain ⟨pair, hpair, rfl⟩ := List.mem_map.mp h
  obtain ⟨hmem, hfilled⟩ := List.mem_filter.mp hpair
  obtain ⟨t1, t2⟩ := mem_linkPairs_trimmed l pair hmem
  have hne : pair.1 ≠ [] ∧ pair.2 ≠ [] := by
    simpa [bothFilled] using hfilled
  refine ⟨hne, ?_, ?_⟩
  · show TrimSpace pair.1 ≠ []
    rw [t1]; exact hne.1
  · show TrimSpace pair.2 ≠ []
    rw [t2]; exact hne.2

/-! ## C11 -/

/-- C11: for every form and every fingerprint, every link in the payload of
`toCreateRequest` and of `toUpdateRequest` has a non-blank name and a
non-blank URL (non-empty, also after trimming). -/
theorem C11_request_links_filled (f : formModel) (sshKey : GoString) :
    (∀ link ∈ (f.toCreateRequest sshKey).Links,
      (link.Name ≠ [] ∧ link.URL ≠ []) ∧ TrimSpace link.Name ≠ [] ∧ TrimSpace link.URL ≠ []) ∧
    (∀ link ∈ f.toUpdateRequest.Links,
      (link.Name ≠ [] ∧ link.URL ≠ []) ∧ TrimSpace link.Name ≠ [] ∧ TrimSpace link.URL ≠ []) := by
  constructor
  · intro link h
    rw [toCreateRequest_Links] at h
    exact request_links_filled _ link h
  · intro link h
    rw [toUpdateRequest_Links] at h
    exact request_links_filled _ link h

/-- C11 at a form that `validate` rejects, with a blank pair, a pair without
URL, a pair without name and a full pair: only the full pair is in the
payload. -/
theorem C11_request_links_filled_witness :
    (formOf ["Ada", "ada", "", " ", "", "blog", " ", "", "https://b.example",
        " code ", "https://c.example"] 0).toUpdateRequest.Links =
      [{ Name := "code".toList, URL := "https://c.example".toList }] ∧
    ∀ link ∈ (formOf ["Ada", "ada", "", " ", "", "blog", " ", "", "https://b.example",
        " code ", "https://c.example"] 0).toUpdateRequest.Links,
      (link.Name ≠ [] ∧ link.URL ≠ []) ∧ TrimSpace link.Name ≠ [] ∧ TrimSpace link.URL ≠ [] :=
  ⟨by decide,
   (C11_request_links_filled (formOf ["Ada", "ada", "", " ", "", "blog", " ", "",
      "https://b.example", " code ", "https://c.example"] 0) []).2⟩

/-! ## C12 -/

/-- On a form that `validate` accepts, a link pair has an empty name or an
empty URL only when both are empty. -/
theorem validated_pairs (f : formModel) (h : f.validate = none)
    (pair : GoString × GoString) (hpair : pair ∈ linkPairs (f.inputs.drop 3)) :
    bothFilled pair = false ↔ pair.1 = [] ∧ pair.2 = [] := by
  have h3 : 3 ≤ f.inputs.length := by
    by_contra hlt
    unfold formModel.validate at h
    rw [if_pos (by omega)] at h
    exact absurd h (by simp)
  have hv := validate_eq_head f h3
  rw [h] at hv
  have hnil : specViolations f = [] := List.head?_eq_none_iff.mp hv.symm
  unfold specViolations at hnil
  have hflat := (List.append_eq_nil.mp hnil).2
  have hp : pairViolations pair = [] := List.flatMap_eq_nil_iff.mp hflat pair hpair
  unfold pairViolations at hp
  unfold bothFilled
  by_cases hn : pair.1 = [] <;> by_cases hu : pair.2 = [] <;> simp [hn, hu] at hp ⊢

/-- C12, as the code has it: on a form with at least three fields, both
request builders return the trimmed values of fields 0, 1, 2 as full name,
handle and bio (`toCreateRequest` also the fingerprint it was given), and as
link list, in field order, the trimmed (name, URL) of every link pair whose
name and URL are both non-blank: a pair is omitted if and only if its name or
its URL is blank. On a form that `validate` accepts that is the case if and
only if both are blank. -/
theorem C12_request_payload (f : formModel) (sshKey : GoString) (h3 : 3 ≤ f.inputs.length) :
    ((f.toCreateRequest sshKey).SSHPublicKey = sshKey ∧
      (f.toCreateRequest sshKey).FullName = TrimSpace (valueAt f.inputs 0) ∧
      (f.toCreateRequest sshKey).Username = TrimSpace (valueAt f.inputs 1) ∧
      (f.toCreateRequest sshKey).About = TrimSpace (valueAt f.inputs 2) ∧
      (f.toCreateRequest sshKey).Links =
        ((linkPairs (f.inputs.drop 3)).filter bothFilled).map pairToLink) ∧
    (f.toUpdateRequest.FullName = TrimSpace (valueAt f.inputs 0) ∧
      f.toUpdateRequest.Username = TrimSpace (valueAt f.inputs 1) ∧
      f.toUpdateRequest.About = TrimSpace (valueAt f.inputs 2) ∧
      f.toUpdateRequest.Links =
        ((linkPairs (f.inputs.drop 3)).filter bothFilled).map pairToLink) ∧
    (∀ pair : GoString × GoString, bothFilled pair = false ↔ pair.1 = [] ∨ pair.2 = []) ∧
    (f.validate = none → ∀ pair ∈ linkPairs (f.inputs.drop 3),
      (bothFilled pair = false ↔ pair.1 = [] ∧ pair.2 = [])) := by
  refine ⟨⟨?_, ?_, ?_, ?_, toCreateRequest_Links f sshKey⟩,
    ⟨?_, ?_, ?_, toUpdateRequest_Links f⟩, ?_, fun h pair hp => validated_pairs f h pair hp⟩
  · unfold formModel.toCreateRequest; dsimp only; split_ifs <;> rfl
  · unfold formModel.toCreateRequest; dsimp only; rw [if_pos h3]
  · unfold formModel.toCreateRequest; dsimp only; rw [if_pos h3]
  · unfold formModel.toCreateRequest; dsimp only; rw [if_pos h3]
  · unfold formModel.toUpdateRequest; dsimp only; rw [if_pos h3]
  · unfold formModel.toUpdateRequest; dsimp only; rw [if_pos h3]
  · unfold formModel.toUpdateRequest; dsimp only; rw [if_pos h3]
  · intro pair
    unfold bothFilled
    by_cases hn : pair.1 = [] <;> by_cases hu : pair.2 = [] <;> simp [hn, hu]

/-- C12 at a concrete form with a blank pair and a full pair. -/
theorem C12_request_payload_witness :
    3 ≤ (formOf [" Ada ", "ada", " x", "", " ", "blog ", "https://a.example"] 0).inputs.length ∧
    (formOf [" Ada ", "ada", " x", "", " ", "blog ", "https://a.example"] 0).toCreateRequest
        "ssh-ed25519:ab12".toList =
      { SSHPublicKey := "ssh-ed25519:ab12".toList, FullName := "Ada".toList,
        Username := "ada".toList, About := "x".toList,
        Links := [{ Name := "blog".toList, URL := "https://a.example".toList }] } ∧
    (formOf [" Ada ", "ada", " x", "", " ", "blog ", "https://a.example"] 0).toUpdateRequest.Links =
      ((linkPairs ((formOf [" Ada ", "ada", " x", "", " ", "blog ",
        "https://a.example"] 0).inputs.drop 3)).filter bothFilled).map pairToLink :=
  ⟨by decide, by decide,
   (C12_request_payload (formOf [" Ada ", "ada", " x", "", " ", "blog ", "https://a.example"] 0)
      [] (by decide)).2.1.2.2.2⟩

/-- C12 fails as stated: the pair (`blog`, blank URL) does not have both texts
blank, yet both request builders omit it. -/
theorem C12_request_payload_counterexample :
    3 ≤ (formOf ["Ada", "ada", "", "blog", ""] 0).inputs.length ∧
    linkPairs ((formOf ["Ada", "ada", "", "blog", ""] 0).inputs.drop 3) =
      [("blog".toList, [])] ∧
    ¬ (("blog".toList, ([] : GoString)).1 = [] ∧ ("blog".toList, ([] : GoString)).2 = []) ∧
    ((formOf ["Ada", "ada", "", "blog", ""] 0).toCreateRequest
      "ssh-ed25519:ab12".toList).Links = [] ∧
    (formOf ["Ada", "ada", "", "blog", ""] 0).toUpdateRequest.Links = [] := by
  refine ⟨by decide, by decide, by decide, by decide, by decide⟩

/-! ## C13 -/

theorem linkPairs_flatMap (links : List Link) (a b : Link → textinput.Model) :
    linkPairs (links.flatMap fun link => [a link, b link]) =
      links.map fun link => (TrimSpace (a link).Value, TrimSpace (b link).Value) := by
  induction links with
  | nil => rfl
  | cons l ls ih =>
    rw [List.flatMap_cons, List.map_cons, ← ih]
    rfl

/-- The link pairs of a form just loaded from a profile. -/
theorem populateFromUser_linkPairs (f : formModel) (p : User) (h3 : 3 ≤ f.inputs.length) :
    linkPairs ((f.populateFromUser p).inputs.drop 3) =
      p.Links.map fun link =>
        (TrimSpace (textinput.stored 100 link.Name), TrimSpace (textinput.stored 500 link.URL)) := by
  rw [populateFromUser_inputs f p h3, List.drop_left' (by rw [List.length_take]; simp; omega),
    linkPairs_flatMap]
  apply List.map_congr_left
  intro link _
  rw [SetValue_Value, SetValue_Value]

/-- C13, as the code has it: loading a profile into a fresh form and building
the update request at once gives, in stored order, the links of the profile
with name and URL as the text field stores them (control characters and
U+FFFD removed, tabs and line breaks turned into a space, cut to 100 and 500
characters) and trimmed, keeping the links whose name and
URL are then both non-empty. When every link name and URL of the profile is
stored as it is and has no white space at its ends, that is the list of the
links of the profile whose name and URL are both non-empty. -/
theorem C13_load_then_request (p : User) :
    (newFormModel.populateFromUser p).toUpdateRequest.Links =
      ((p.Links.map fun link =>
          (TrimSpace (textinput.stored 100 link.Name),
           TrimSpace (textinput.stored 500 link.URL))).filter bothFilled).map pairToLink ∧
    ((∀ link ∈ p.Links,
        textinput.Verbatim 100 link.Name ∧ textinput.Verbatim 500 link.URL ∧
        TrimSpace link.Name = link.Name ∧ TrimSpace link.URL = link.URL) →
      (newFormModel.populateFromUser p).toUpdateRequest.Links =
        ((p.Links.map fun link => (link.Name, link.URL)).filter bothFilled).map pairToLink) := by
  have key := populateFromUser_linkPairs newFormModel p (by decide)
  have h1 : (newFormModel.populateFromUser p).toUpdateRequest.Links =
      ((p.Links.map fun link =>
          (TrimSpace (textinput.stored 100 link.Name),
           TrimSpace (textinput.stored 500 link.URL))).filter bothFilled).map pairToLink := by
    rw [toUpdateRequest_Links, key]
  refine ⟨h1, fun hall => ?_⟩
  rw [h1]
  congr 2
  apply List.map_congr_left
  intro link hl
  obtain ⟨v1, v2, t1, t2⟩ := hall link hl
  rw [stored_eq_self _ _ v1, stored_eq_self _ _ v2, t1, t2]

/-- C13 at a concrete profile: a full link, a link with empty URL, a full link. -/
theorem C13_load_then_request_witness :
    (newFormModel.populateFromUser
        (profileOf "Ada" "ada" ""
          [("blog", "https://a.example"), ("x", ""), ("code", "https://b.example")])
      ).toUpdateRequest.Links =
      [{ Name := "blog".toList, URL := "https://a.example".toList },
       { Name := "code".toList, URL := "https://b.example".toList }] :=
  (C13_load_then_request
    (profileOf "Ada" "ada" ""
      [("blog", "https://a.example"), ("x", ""), ("code", "https://b.example")])).1.trans
    (by decide)

/-- C13 fails as stated: a stored link whose name has white space at its ends
comes back trimmed, and a stored link whose name has a tab inside comes back
with a space in its place; in both cases the link list of the request is not
the list of the links of the profile, although the link has a non-blank name
and a non-blank URL. -/
theorem C13_load_then_request_counterexample :
    ((newFormModel.populateFromUser
        (profileOf "Ada" "ada" "" [(" blog ", "https://a.example")])).toUpdateRequest.Links =
      [{ Name := "blog".toList, URL := "https://a.example".toList }] ∧
    (newFormModel.populateFromUser
        (profileOf "Ada" "ada" "" [(" blog ", "https://a.example")])).toUpdateRequest.Links ≠
      (profileOf "Ada" "ada" "" [(" blog ", "https://a.example")]).Links.map
        (fun link => { Name := link.Name, URL := link.URL }) ∧
    ∀ link ∈ (profileOf "Ada" "ada" "" [(" blog ", "https://a.example")]).Links,
      TrimSpace link.Name ≠ [] ∧ TrimSpace link.URL ≠ []) ∧
    ((newFormModel.populateFromUser
        (profileOf "Ada" "ada" "" [("my\tblog", "https://a.example")])).toUpdateRequest.Links =
      [{ Name := "my blog".toList, URL := "https://a.example".toList }] ∧
    (newFormModel.populateFromUser
        (profileOf "Ada" "ada" "" [("my\tblog", "https://a.example")])).toUpdateRequest.Links ≠
      (profileOf "Ada" "ada" "" [("my\tblog", "https://a.example")]).Links.map
        (fun link => { Name := link.Name, URL := link.URL }) ∧
    ∀ link ∈ (profileOf "Ada" "ada" "" [("my\tblog", "https://a.example")]).Links,
      TrimSpace link.Name ≠ [] ∧ TrimSpace link.URL ≠ []) := by
  refine ⟨⟨by decide, by decide, by decide⟩, ⟨by decide, by decide, by decide⟩⟩

/-! ## C14 -/

theorem newTUIModel_some (digestHex : List Nat → GoString) (key : PublicKey)
    (GetUserBySSHKey : GoString → Option User × Option String) :
    newTUIModel digestHex (some key) GetUserBySSHKey =
      { user := (GetUserBySSHKey (formatSSHKey digestHex key)).1,
        sshKey := formatSSHKey digestHex key,
        state :=
          if (GetUserBySSHKey (formatSSHKey digestHex key)).1 ≠ none then .StateProfileView
          else .StateProfileCreate,
        form := some newFormModel, width := 0, height := 0, message := "", err := none } := rfl

/-- C14: `newTUIModel` starts in state Error, with an error set and no
profile, when the connection presented no public key; in ProfileView holding
the profile when the lookup by fingerprint returns one; in ProfileCreate with
no profile when the lookup reports that there is none. With a key the session
holds the fingerprint and a fresh form. -/
theorem C14_newTUIModel_initial_state (digestHex : List Nat → GoString)
    (GetUserBySSHKey : GoString → Option User × Option String) :
    ((newTUIModel digestHex none GetUserBySSHKey).state = .StateError ∧
      (newTUIModel digestHex none GetUserBySSHKey).err ≠ none ∧
      (newTUIModel digestHex none GetUserBySSHKey).user = none) ∧
    (∀ (key : PublicKey) (p : User),
      GetUserBySSHKey (formatSSHKey digestHex key) = (some p, none) →
      (newTUIModel digestHex (some key) GetUserBySSHKey).state = .StateProfileView ∧
      (newTUIModel digestHex (some key) GetUserBySSHKey).user = some p ∧
      (newTUIModel digestHex (some key) GetUserBySSHKey).sshKey = formatSSHKey digestHex key ∧
      (newTUIModel digestHex (some key) GetUserBySSHKey).form = some newFormModel) ∧
    (∀ key : PublicKey,
      GetUserBySSHKey (formatSSHKey digestHex key) = (none, none) →
      (newTUIModel digestHex (some key) GetUserBySSHKey).state = .StateProfileCreate ∧
      (newTUIModel digestHex (some key) GetUserBySSHKey).user = none ∧
      (newTUIModel digestHex (some key) GetUserBySSHKey).sshKey = formatSSHKey digestHex key ∧
      (newTUIModel digestHex (some key) GetUserBySSHKey).form = some newFormModel) := by
  refine ⟨⟨rfl, by simp [newTUIModel], rfl⟩, ?_, ?_⟩
  · intro key p h
    rw [newTUIModel_some, h]
    exact ⟨rfl, rfl, rfl, rfl⟩
  · intro key h
    rw [newTUIModel_some, h]
    exact ⟨rfl, rfl, rfl, rfl⟩

/-- C14 on the queries of `GetUserBySSHKey`: a connection that holds the
profile gives ProfileView with the profile and its links; a connection
without a matching row gives ProfileCreate. -/
theorem C14_newTUIModel_initial_state_witness :
    ((newTUIModel exampleDigest (some exampleKey)
        (database.GetUserBySSHKey (connWith (profileOf "Ada" "ada" "" []) []))).state =
        .StateProfileView ∧
      (newTUIModel exampleDigest (some exampleKey)
        (database.GetUserBySSHKey (connWith (profileOf "Ada" "ada" "" []) []))).user =
        some (profileOf "Ada" "ada" "" [])) ∧
    ((newTUIModel exampleDigest (some exampleKey)
        (database.GetUserBySSHKey emptyConn)).state = .StateProfileCreate ∧
      (newTUIModel exampleDigest (some exampleKey)
        (database.GetUserBySSHKey emptyConn)).user = none) :=
  ⟨(fun h => ⟨h.1, h.2.1⟩)
      ((C14_newTUIModel_initial_state exampleDigest
        (database.GetUserBySSHKey (connWith (profileOf "Ada" "ada" "" []) []))).2.1
        exampleKey (profileOf "Ada" "ada" "" []) (by decide)),
   (fun h => ⟨h.1, h.2.1⟩)
      ((C14_newTUIModel_initial_state exampleDigest
        (database.GetUserBySSHKey emptyConn)).2.2 exampleKey (by decide))⟩

/-! ## C15 -/

/-- C15 fails on the code: with a key presented and a user query that fails
with a storage fault, `GetUserBySSHKey` returns an error and no user, and
`newTUIModel` starts the session in ProfileCreate with no error set, not in
the Error state. -/
theorem C15_lookup_fault_starts_create :
    database.GetUserBySSHKey faultyConn (formatSSHKey exampleDigest exampleKey) =
      (none, some "failed to get user by SSH key: database is locked") ∧
    (newTUIModel exampleDigest (some exampleKey)
      (database.GetUserBySSHKey faultyConn)).state = .StateProfileCreate ∧
    (newTUIModel exampleDigest (some exampleKey)
      (database.GetUserBySSHKey faultyConn)).state ≠ .StateError ∧
    (newTUIModel exampleDigest (some exampleKey)
      (database.GetUserBySSHKey faultyConn)).err = none := by
  refine ⟨by decide, by decide, by decide, by decide⟩

/-- The start state never depends on the error of the lookup: whatever error
comes with no user, the session starts in ProfileCreate. -/
theorem newTUIModel_ignores_lookup_error (digestHex : List Nat → GoString) (key : PublicKey)
    (GetUserBySSHKey : GoString → Option User × Option String) (err : Option String)
    (h : GetUserBySSHKey (formatSSHKey digestHex key) = (none, err)) :
    (newTUIModel digestHex (some key) GetUserBySSHKey).state = .StateProfileCreate ∧
    (newTUIModel digestHex (some key) GetUserBySSHKey).err = none := by
  rw [newTUIModel_some, h]
  exact ⟨rfl, rfl⟩

/-! ## Key handling, state by state -/

theorem Update_key_ProfileView (edit : KeyEdit) (m : tuiModel) (msg : KeyMsg)
    (h : m.state = .StateProfileView) :
    m.Update edit (.key msg) = m.handleProfileViewKeys msg := by
  unfold tuiModel.Update tuiModel.handleKeyPress
  rw [h]
  by_cases hc : msg.name = "ctrl+c"
  · simp [hc, tuiModel.handleProfileViewKeys]
  · simp [hc]

theorem Update_key_ProfileEdit (edit : KeyEdit) (m : tuiModel) (msg : KeyMsg)
    (h : m.state = .StateProfileEdit) :
    m.Update edit (.key msg) = m.handleProfileEditKeys edit msg := by
  unfold tuiModel.Update tuiModel.handleKeyPress
  rw [h]
  simp

theorem Update_key_ProfileCreate (edit : KeyEdit) (m : tuiModel) (msg : KeyMsg)
    (h : m.state = .StateProfileCreate) (hc : msg.name ≠ "ctrl+c") :
    m.Update edit (.key msg) = m.handleProfileCreateKeys edit msg := by
  unfold tuiModel.Update tuiModel.handleKeyPress
  rw [h]
  simp [hc]

theorem Update_key_ConfirmDelete (edit : KeyEdit) (m : tuiModel) (msg : KeyMsg)
    (h : m.state = .StateConfirmDelete) :
    m.Update edit (.key msg) = m.handleConfirmDeleteKeys msg := by
  unfold tuiModel.Update tuiModel.handleKeyPress
  rw [h]
  simp

theorem withForm_some (m : tuiModel) (op : formModel → Option formModel) (f g : formModel)
    (hf : m.form = some f) (hg : op f = some g) :
    m.withForm op = some ({ m with form := some g }, none) := by
  unfold tuiModel.withForm
  rw [hf]
  dsimp only
  rw [hg]

/-! ## C16 -/

/-- C16, as the code has it: in ProfileView, ProfileCreate and Error the key
`ctrl+c` yields the quit command at once and leaves the session as it is. In
ProfileEdit the key is handed to the form like a text key and no command is
returned; in ConfirmDelete the key is ignored and no command is returned. -/
theorem C16_hard_interrupt (edit : KeyEdit) (m : tuiModel) :
    ((m.state = .StateProfileView ∨ m.state = .StateProfileCreate ∨ m.state = .StateError) →
      m.Update edit (.key ⟨"ctrl+c"⟩) = some (m, some .quit)) ∧
    (m.state = .StateProfileEdit → ∀ f : formModel, m.form = some f →
      m.Update edit (.key ⟨"ctrl+c"⟩) =
        some ({ m with form := some (f.Update edit ⟨"ctrl+c"⟩) }, none)) ∧
    (m.state = .StateConfirmDelete → m.Update edit (.key ⟨"ctrl+c"⟩) = some (m, none)) := by
  refine ⟨?_, ?_, ?_⟩
  · intro h
    unfold tuiModel.Update
    dsimp only
    exact if_pos ⟨rfl, h⟩
  · intro h f hf
    rw [Update_key_ProfileEdit edit m _ h]
    unfold tuiModel.handleProfileEditKeys
    simp only [String.reduceEq, if_false]
    exact withForm_some m _ f _ hf rfl
  · intro h
    rw [Update_key_ConfirmDelete edit m _ h]
    unfold tuiModel.handleConfirmDeleteKeys
    simp

/-- C16 at concrete sessions, one for each of the five states. -/
theorem C16_hard_interrupt_witness :
    ((sessionOf .StateProfileView (some (profileOf "Ada" "ada" "" [])) (some newFormModel)).Update
        appendKey (.key ⟨"ctrl+c"⟩) =
      some (sessionOf .StateProfileView (some (profileOf "Ada" "ada" "" [])) (some newFormModel),
        some .quit)) ∧
    ((sessionOf .StateProfileCreate none (some newFormModel)).Update appendKey
        (.key ⟨"ctrl+c"⟩) =
      some (sessionOf .StateProfileCreate none (some newFormModel), some .quit)) ∧
    ((sessionOf .StateError none none).Update appendKey (.key ⟨"ctrl+c"⟩) =
      some (sessionOf .StateError none none, some .quit)) ∧
    ((sessionOf .StateProfileEdit (some (profileOf "Ada" "ada" "" [])) (some newFormModel)).Update
        appendKey (.key ⟨"ctrl+c"⟩) =
      some ({ sessionOf .StateProfileEdit (some (profileOf "Ada" "ada" "" []))
                (some newFormModel) with
              form := some (newFormModel.Update appendKey ⟨"ctrl+c"⟩) }, none)) ∧
    ((sessionOf .StateConfirmDelete (some (profileOf "Ada" "ada" "" []))
        (some newFormModel)).Update appendKey (.key ⟨"ctrl+c"⟩) =
      some (sessionOf .StateConfirmDelete (some (profileOf "Ada" "ada" "" []))
        (some newFormModel), none)) :=
  ⟨(C16_hard_interrupt appendKey _).1 (Or.inl rfl),
   (C16_hard_interrupt appendKey _).1 (Or.inr (Or.inl rfl)),
   (C16_hard_interrupt appendKey _).1 (Or.inr (Or.inr rfl)),
   (C16_hard_interrupt appendKey _).2.1 rfl newFormModel rfl,
   (C16_hard_interrupt appendKey _).2.2 rfl⟩

/-- C16 fails as stated: in ProfileEdit and in ConfirmDelete the key `ctrl+c`
returns no command at all, so no quit command. -/
theorem C16_hard_interrupt_counterexample :
    (((sessionOf .StateProfileEdit (some (profileOf "Ada" "ada" "" []))
        (some newFormModel)).Update appendKey (.key ⟨"ctrl+c"⟩)).map Prod.snd = some none) ∧
    (((sessionOf .StateConfirmDelete (some (profileOf "Ada" "ada" "" []))
        (some newFormModel)).Update appendKey (.key ⟨"ctrl+c"⟩)).map Prod.snd = some none) ∧
    (some (none : Option Cmd) ≠ some (some Cmd.quit)) := by
  refine ⟨by decide, by decide, by decide⟩

/-! ## C18 -/

/-- No key changes the loaded profile or the fingerprint of the session. -/
theorem Update_key_user (edit : KeyEdit) (m m1 : tuiModel) (msg : KeyMsg) (cmd : Option Cmd)
    (h : m.Update edit (.key msg) = some (m1, cmd)) :
    m1.user = m.user ∧ m1.sshKey = m.sshKey := by
  have hwith : ∀ op : formModel → Option formModel,
      m.withForm op = some (m1, cmd) → m1.user = m.user ∧ m1.sshKey = m.sshKey := by
    intro op hop
    unfold tuiModel.withForm at hop
    split at hop
    · exact absurd hop (by simp)
    · split at hop
      · exact absurd hop (by simp)
      · cases hop; exact ⟨rfl, rfl⟩
  unfold tuiModel.Update at h
  dsimp only at h
  split_ifs at h with hq
  · cases h; exact ⟨rfl, rfl⟩
  · unfold tuiModel.handleKeyPress at h
    split at h
    · unfold tuiModel.handleProfileViewKeys at h
      split_ifs at h <;> cases h <;> exact ⟨rfl, rfl⟩
    · unfold tuiModel.handleProfileEditKeys at h
      split_ifs at h
      · cases h; exact ⟨rfl, rfl⟩
      · unfold tuiModel.saveProfile at h
        split at h
        · cases h; exact ⟨rfl, rfl⟩
        · split at h
          · exact absurd h (by simp)
          · split at h <;> cases h <;> exact ⟨rfl, rfl⟩
      all_goals exact hwith _ h
    · unfold tuiModel.handleProfileCreateKeys at h
      split_ifs at h
      · cases h; exact ⟨rfl, rfl⟩
      · unfold tuiModel.createProfile at h
        split at h
        · exact absurd h (by simp)
        · split at h <;> cases h <;> exact ⟨rfl, rfl⟩
      all_goals exact hwith _ h
    · unfold tuiModel.handleConfirmDeleteKeys at h
      split_ifs at h
      · unfold tuiModel.deleteProfile at h
        split at h <;> cases h <;> exact ⟨rfl, rfl⟩
      · cases h; exact ⟨rfl, rfl⟩
      · cases h; exact ⟨rfl, rfl⟩
    · cases h; exact ⟨rfl, rfl⟩

/-- One key other than cancel and save in ProfileEdit: only the form changes,
to a reachable form, and no command is returned. -/
theorem edit_key_step (edit : KeyEdit) (m : tuiModel) (f : formModel) (msg : KeyMsg)
    (hstate : m.state = .StateProfileEdit) (hform : m.form = some f) (hf : Reachable edit f)
    (hkey : msg.name ≠ "esc" ∧ msg.name ≠ "ctrl+s") :
    ∃ g, m.Update edit (.key msg) = some ({ m with form := some g }, none) ∧
      Reachable edit g := by
  obtain ⟨⟨k, hk⟩, h0, h1⟩ := reachable_invariant edit f hf
  obtain ⟨⟨gd, hgd⟩, ⟨gn, hgn⟩, ⟨gp, hgp⟩⟩ := operations_defined f k hk h0 h1
  rw [Update_key_ProfileEdit edit m msg hstate]
  unfold tuiModel.handleProfileEditKeys
  rw [if_neg hkey.1, if_neg hkey.2]
  split_ifs
  · exact ⟨gn, withForm_some m _ f gn hform hgn, Reachable.nextField hf hgn⟩
  · exact ⟨gp, withForm_some m _ f gp hform hgp, Reachable.prevField hf hgp⟩
  · exact ⟨_, withForm_some m _ f _ hform rfl, Reachable.addLink [] [] hf⟩
  · exact ⟨gd, withForm_some m _ f gd hform hgd, Reachable.deleteCurrentLink hf hgd⟩
  · exact ⟨_, withForm_some m _ f _ hform rfl, Reachable.Update msg hf⟩

/-- A sequence of such keys in ProfileEdit: only the form changes and no
command is returned. -/
theorem edit_keys_run (edit : KeyEdit) (keys : List KeyMsg) (m : tuiModel) (f : formModel)
    (hstate : m.state = .StateProfileEdit) (hform : m.form = some f) (hf : Reachable edit f)
    (hkeys : ∀ msg ∈ keys, msg.name ≠ "esc" ∧ msg.name ≠ "ctrl+s") :
    ∃ g, m.run edit (keys.map Msg.key) = some ({ m with form := some g }, []) ∧
      Reachable edit g := by
  induction keys generalizing m f with
  | nil =>
    refine ⟨f, ?_, hf⟩
    simp only [List.map_nil, tuiModel.run]
    rw [← hform]
  | cons msg rest ih =>
    obtain ⟨g, hg, hgr⟩ :=
      edit_key_step edit m f msg hstate hform hf (hkeys msg (List.mem_cons_self _ _))
    obtain ⟨g2, hg2, hg2r⟩ := ih { m with form := some g } g hstate rfl hgr
      (fun k hk => hkeys k (List.mem_cons_of_mem _ hk))
    refine ⟨g2, ?_, hg2r⟩
    simp only [List.map_cons, tuiModel.run, hg, hg2]
    rfl

theorem run_append (edit : KeyEdit) (l1 l2 : List Msg) (m m1 : tuiModel) (c1 : List Cmd)
    (h : m.run edit l1 = some (m1, c1)) :
    m.run edit (l1 ++ l2) = (m1.run edit l2).map fun r => (r.1, c1 ++ r.2) := by
  induction l1 generalizing m c1 with
  | nil =>
    simp only [tuiModel.run] at h
    cases h
    rw [List.nil_append]
    cases tuiModel.run edit m1 l2 <;> simp
  | cons msg rest ih =>
    simp only [tuiModel.run] at h
    simp only [List.cons_append, tuiModel.run]
    cases hu : m.Update edit msg with
    | none => rw [hu] at h; exact absurd h (by simp)
    | some r =>
      obtain ⟨ma, cmd⟩ := r
      rw [hu] at h
      dsimp only at h ⊢
      cases hrest : tuiModel.run edit ma rest with
      | none => rw [hrest] at h; exact absurd h (by simp)
      | some r2 =>
        obtain ⟨mb, cs⟩ := r2
        rw [hrest] at h
        cases h
        simp only [List.append_eq]
        rw [ih ma cs hrest]
        cases tuiModel.run edit m1 l2 <;> simp [List.append_assoc]

/-- C18: in ProfileEdit with a loaded profile `p`, any sequence of keys other
than cancel and save (navigation, structural and text keys) followed by the
cancel key `esc` ends in ProfileView with `p` as loaded profile and no
command returned on the way; the edit key then shows a fresh form loaded from
`p`. No key ever changes the loaded profile. -/
theorem C18_cancel_discards_edits (edit : KeyEdit) (m : tuiModel) (p : User) (f : formModel)
    (keys : List KeyMsg)
    (hstate : m.state = .StateProfileEdit) (huser : m.user = some p)
    (hform : m.form = some f) (hf : Reachable edit f)
    (hkeys : ∀ msg ∈ keys, msg.name ≠ "esc" ∧ msg.name ≠ "ctrl+s") :
    (∃ m1, m.run edit (keys.map Msg.key ++ [Msg.key ⟨"esc"⟩]) = some (m1, []) ∧
      m1.state = .StateProfileView ∧ m1.user = some p ∧
      m1.Update edit (.key ⟨"ctrl+e"⟩) =
        some ({ m1 with state := .StateProfileEdit,
                        form := some (newFormModel.populateFromUser p) }, none)) ∧
    (∀ (m0 m2 : tuiModel) (msg : KeyMsg) (cmd : Option Cmd),
      m0.Update edit (.key msg) = some (m2, cmd) → m2.user = m0.user) := by
  refine ⟨?_, fun m0 m2 msg cmd h => (Update_key_user edit m0 m2 msg cmd h).1⟩
  obtain ⟨g, hg, -⟩ := edit_keys_run edit keys m f hstate hform hf hkeys
  have hesc : ({ m with form := some g } : tuiModel).run edit [Msg.key ⟨"esc"⟩] =
      some ({ m with form := some g, state := .StateProfileView }, []) := by
    simp only [tuiModel.run]
    rw [Update_key_ProfileEdit edit { m with form := some g } _ hstate]
    unfold tuiModel.handleProfileEditKeys
    simp
  refine ⟨{ m with form := some g, state := .StateProfileView }, ?_, rfl, huser, ?_⟩
  · rw [run_append edit _ _ m _ [] hg, hesc]
    rfl
  · rw [Update_key_ProfileView edit
      { m with form := some g, state := .StateProfileView } _ rfl]
    unfold tuiModel.handleProfileViewKeys
    simp [huser]

/-- C18 at a concrete session: the profile is loaded, a letter is typed into
the full name, the focus moves, a link pair is added and removed again, then
the edit is cancelled. -/
theorem C18_cancel_discards_edits_witness :
    ∃ m1, (sessionOf .StateProfileEdit (some (profileOf "Ada" "ada" "" []))
        (some (newFormModel.populateFromUser (profileOf "Ada" "ada" "" [])))).run appendKey
        ([⟨"x"⟩, ⟨"tab"⟩, ⟨"ctrl+n"⟩, ⟨"ctrl+d"⟩, ⟨"ctrl+c"⟩].map Msg.key ++
          [Msg.key ⟨"esc"⟩]) = some (m1, []) ∧
      m1.state = .StateProfileView ∧ m1.user = some (profileOf "Ada" "ada" "" []) ∧
      m1.Update appendKey (.key ⟨"ctrl+e"⟩) =
        some ({ m1 with state := .StateProfileEdit,
                        form := some (newFormModel.populateFromUser
                          (profileOf "Ada" "ada" "" [])) }, none) :=
  (C18_cancel_discards_edits appendKey
    (sessionOf .StateProfileEdit (some (profileOf "Ada" "ada" "" []))
      (some (newFormModel.populateFromUser (profileOf "Ada" "ada" "" []))))
    (profileOf "Ada" "ada" "" []) (newFormModel.populateFromUser (profileOf "Ada" "ada" "" []))
    [⟨"x"⟩, ⟨"tab"⟩, ⟨"ctrl+n"⟩, ⟨"ctrl+d"⟩, ⟨"ctrl+c"⟩] rfl rfl rfl
    (Reachable.populateFromUser _ Reachable.init) (by decide)).1

/-! ## C19 -/

/-- C19: in ProfileEdit with a loaded profile and in ProfileCreate, the save
key `ctrl+s` on a form that `validate` rejects with error `err` leaves the
session (state, form and all) as it is and returns the command that resolves
to the one event `errorMsg err`; running that command makes no storage call
and leaves the storage as it is; processing the event sets the error of the
session to `err` and nothing else. -/
theorem C19_save_invalid_form (edit : KeyEdit) (m : tuiModel) (f : formModel) (err : String)
    (hform : m.form = some f) (hval : f.validate = some err) :
    (m.state = .StateProfileEdit → m.user ≠ none →
      m.Update edit (.key ⟨"ctrl+s"⟩) = some (m, some (.fail err))) ∧
    (m.state = .StateProfileCreate →
      m.Update edit (.key ⟨"ctrl+s"⟩) = some (m, some (.fail err))) ∧
    (∀ (σ : Type) (db : DB σ) (s : σ),
      ((Cmd.fail err).run db s).msg = .errorMsg (some err) ∧
      ((Cmd.fail err).run db s).store = s ∧
      ((Cmd.fail err).run db s).calls = []) ∧
    (∀ m1 : tuiModel,
      m1.Update edit (.errorMsg (some err)) = some ({ m1 with err := some err }, none)) := by
  refine ⟨?_, ?_, fun σ db s => ⟨rfl, rfl, rfl⟩, fun m1 => rfl⟩
  · intro hstate huser
    rw [Update_key_ProfileEdit edit m _ hstate]
    unfold tuiModel.handleProfileEditKeys tuiModel.saveProfile
    simp only [String.reduceEq, if_false, if_true]
    cases hu : m.user with
    | none => exact absurd hu huser
    | some user =>
      dsimp only
      rw [hform]
      dsimp only
      rw [hval]
  · intro hstate
    rw [Update_key_ProfileCreate edit m _ hstate (by decide)]
    unfold tuiModel.handleProfileCreateKeys tuiModel.createProfile
    simp only [String.reduceEq, if_false, if_true]
    rw [hform]
    dsimp only
    rw [hval]

/-- C19 at concrete sessions: a form without handle, saved in ProfileEdit and
in ProfileCreate. -/
theorem C19_save_invalid_form_witness :
    ((sessionOf .StateProfileEdit (some (profileOf "Ada" "ada" "" []))
        (some (formOf ["Ada", " ", "", "", ""] 1))).Update appendKey (.key ⟨"ctrl+s"⟩) =
      some (sessionOf .StateProfileEdit (some (profileOf "Ada" "ada" "" []))
        (some (formOf ["Ada", " ", "", "", ""] 1)), some (.fail "username is required"))) ∧
    ((sessionOf .StateProfileCreate none
        (some (formOf ["Ada", " ", "", "", ""] 1))).Update appendKey (.key ⟨"ctrl+s"⟩) =
      some (sessionOf .StateProfileCreate none
        (some (formOf ["Ada", " ", "", "", ""] 1)), some (.fail "username is required"))) ∧
    ((Cmd.fail "username is required").run exampleDB ["ada".toList]).calls = [] :=
  ⟨(C19_save_invalid_form appendKey _ (formOf ["Ada", " ", "", "", ""] 1)
      "username is required" rfl (by decide)).1 rfl (by decide),
   (C19_save_invalid_form appendKey
      (sessionOf .StateProfileCreate none (some (formOf ["Ada", " ", "", "", ""] 1)))
      (formOf ["Ada", " ", "", "", ""] 1) "username is required" rfl (by decide)).2.1 rfl,
   ((C19_save_invalid_form appendKey
      (sessionOf .StateProfileCreate none (some (formOf ["Ada", " ", "", "", ""] 1)))
      (formOf ["Ada", " ", "", "", ""] 1) "username is required" rfl (by decide)).2.2.1
      (List GoString) exampleDB ["ada".toList]).2.2⟩

/-! ## C20 -/

/-- C20: in ConfirmDelete with a loaded profile `p`, the keys `y` and `Y`
leave the session as it is (state ConfirmDelete) and return the delete command
for the id of `p`; that command calls `DeleteUser` once with that id and
resolves to the quit message when the call succeeds and to an error event
with the error of the call otherwise; the keys `n`, `N` and `esc` move to
ProfileView and return no command; every other key leaves the session as it
is and returns no command. -/
theorem C20_confirm_delete (edit : KeyEdit) (m : tuiModel) (p : User)
    (hstate : m.state = .StateConfirmDelete) (huser : m.user = some p) :
    (∀ msg : KeyMsg, msg.name = "y" ∨ msg.name = "Y" →
      m.Update edit (.key msg) = some (m, some (.delete p.ID))) ∧
    (∀ (σ : Type) (db : DB σ) (s : σ),
      ((Cmd.delete p.ID).run db s).calls = [.DeleteUser p.ID] ∧
      ((Cmd.delete p.ID).run db s).store = (db.DeleteUser p.ID s).2 ∧
      ((db.DeleteUser p.ID s).1 = none → ((Cmd.delete p.ID).run db s).msg = .QuitMsg) ∧
      (∀ err, (db.DeleteUser p.ID s).1 = some err →
        ((Cmd.delete p.ID).run db s).msg = .errorMsg (some err))) ∧
    (∀ msg : KeyMsg, msg.name = "n" ∨ msg.name = "N" ∨ msg.name = "esc" →
      m.Update edit (.key msg) = some ({ m with state := .StateProfileView }, none)) ∧
    (∀ msg : KeyMsg, msg.name ≠ "y" → msg.name ≠ "Y" → msg.name ≠ "n" → msg.name ≠ "N" →
      msg.name ≠ "esc" → m.Update edit (.key msg) = some (m, none)) := by
  refine ⟨?_, ?_, ?_, ?_⟩
  · intro msg hk
    rw [Update_key_ConfirmDelete edit m msg hstate]
    unfold tuiModel.handleConfirmDeleteKeys tuiModel.deleteProfile
    rw [if_pos hk, huser]
  · intro σ db s
    unfold Cmd.run
    cases hd : db.DeleteUser p.ID s with
    | mk res s1 =>
      cases res with
      | none => simp [hd]
      | some e => simp [hd]
  · intro msg hk
    rw [Update_key_ConfirmDelete edit m msg hstate]
    unfold tuiModel.handleConfirmDeleteKeys
    have hny : ¬ (msg.name = "y" ∨ msg.name = "Y") := by
      rcases hk with h | h | h <;> rw [h] <;> decide
    rw [if_neg hny, if_pos hk]
  · intro msg h1 h2 h3 h4 h5
    rw [Update_key_ConfirmDelete edit m msg hstate]
    unfold tuiModel.handleConfirmDeleteKeys
    rw [if_neg (by simp [h1, h2]), if_neg (by simp [h3, h4, h5])]

/-- C20 at a concrete session: confirm, deny, and the key `ctrl+c`; the delete
command on a storage that accepts the call and on one that fails. -/
theorem C20_confirm_delete_witness :
    ((sessionOf .StateConfirmDelete (some (profileOf "Ada" "ada" "" [])) none).Update appendKey
        (.key ⟨"y"⟩) =
      some (sessionOf .StateConfirmDelete (some (profileOf "Ada" "ada" "" [])) none,
        some (.delete "id-1".toList))) ∧
    ((sessionOf .StateConfirmDelete (some (profileOf "Ada" "ada" "" [])) none).Update appendKey
        (.key ⟨"N"⟩) =
      some (sessionOf .StateProfileView (some (profileOf "Ada" "ada" "" [])) none, none)) ∧
    ((sessionOf .StateConfirmDelete (some (profileOf "Ada" "ada" "" [])) none).Update appendKey
        (.key ⟨"ctrl+c"⟩) =
      some (sessionOf .StateConfirmDelete (some (profileOf "Ada" "ada" "" [])) none, none)) ∧
    ((Cmd.delete "id-1".toList).run exampleDB ["ada".toList]).msg = .QuitMsg ∧
    ((Cmd.delete "locked".toList).run exampleDB ["ada".toList]).msg =
      .errorMsg (some "failed to delete user: database is locked") :=
  ⟨(C20_confirm_delete appendKey _ (profileOf "Ada" "ada" "" []) rfl rfl).1 ⟨"y"⟩ (Or.inl rfl),
   (C20_confirm_delete appendKey
      (sessionOf .StateConfirmDelete (some (profileOf "Ada" "ada" "" [])) none)
      (profileOf "Ada" "ada" "" []) rfl rfl).2.2.1 ⟨"N"⟩ (Or.inr (Or.inl rfl)),
   (C20_confirm_delete appendKey
      (sessionOf .StateConfirmDelete (some (profileOf "Ada" "ada" "" [])) none)
      (profileOf "Ada" "ada" "" []) rfl rfl).2.2.2 ⟨"ctrl+c"⟩
      (by decide) (by decide) (by decide) (by decide) (by decide),
   ((C20_confirm_delete appendKey
      (sessionOf .StateConfirmDelete (some (profileOf "Ada" "ada" "" [])) none)
      (profileOf "Ada" "ada" "" []) rfl rfl).2.1 (List GoString) exampleDB
      ["ada".toList]).2.2.1 (by decide),
   by decide⟩

/-! ## Save and confirm keys on a session that can dispatch -/

/-- The save key in ProfileEdit with a loaded profile and a form that
`validate` accepts: the session stays as it is and the update command with
the payload of the form is returned. -/
theorem save_key_ProfileEdit (edit : KeyEdit) (m : tuiModel) (p : User) (f : formModel)
    (hstate : m.state = .StateProfileEdit) (huser : m.user = some p)
    (hform : m.form = some f) (hval : f.validate = none) :
    m.Update edit (.key ⟨"ctrl+s"⟩) =
      some (m, some (.save f.toUpdateRequest p.ID p.Username)) := by
  rw [Update_key_ProfileEdit edit m _ hstate]
  unfold tuiModel.handleProfileEditKeys tuiModel.saveProfile
  simp only [String.reduceEq, if_false, if_true]
  rw [huser]
  dsimp only
  rw [hform]
  dsimp only
  rw [hval]

/-- The save key in ProfileCreate with a form that `validate` accepts. -/
theorem save_key_ProfileCreate (edit : KeyEdit) (m : tuiModel) (f : formModel)
    (hstate : m.state = .StateProfileCreate)
    (hform : m.form = some f) (hval : f.validate = none) :
    m.Update edit (.key ⟨"ctrl+s"⟩) =
      some (m, some (.create (f.toCreateRequest m.sshKey))) := by
  rw [Update_key_ProfileCreate edit m _ hstate (by decide)]
  unfold tuiModel.handleProfileCreateKeys tuiModel.createProfile
  simp only [String.reduceEq, if_false, if_true]
  rw [hform]
  dsimp only
  rw [hval]

/-- The confirm key in ConfirmDelete with a loaded profile. -/
theorem confirm_key_ConfirmDelete (edit : KeyEdit) (m : tuiModel) (p : User)
    (hstate : m.state = .StateConfirmDelete) (huser : m.user = some p) :
    m.Update edit (.key ⟨"y"⟩) = some (m, some (.delete p.ID)) := by
  rw [Update_key_ConfirmDelete edit m _ hstate]
  unfold tuiModel.handleConfirmDeleteKeys tuiModel.deleteProfile
  rw [if_pos (Or.inl rfl), huser]

/-- A message that leaves the session as it is and returns a command does so
again every time it is delivered. -/
theorem run_replicate (edit : KeyEdit) (m : tuiModel) (msg : Msg) (cmd : Cmd)
    (h : m.Update edit msg = some (m, some cmd)) (n : Nat) :
    m.run edit (List.replicate n msg) = some (m, List.replicate n cmd) := by
  induction n with
  | zero => rfl
  | succ n ih =>
    simp only [List.replicate_succ, tuiModel.run, h, ih]
    rfl

/-! ## C21 -/

/-- C21: in every session state, processing a create completion or an update
completion that carries the profile `u` sets the loaded profile to `u`, the
state to ProfileView and a non-empty success message, changes nothing else
and returns no command. In particular an update completion that arrives after
a save key and the cancel key is still applied. -/
theorem C21_completion_applied (edit : KeyEdit) (m : tuiModel) (u : User) :
    m.Update edit (.profileCreatedMsg (some u)) =
      some ({ m with user := some u, state := .StateProfileView,
                     message := "Profile created successfully!" }, none) ∧
    m.Update edit (.profileUpdatedMsg (some u)) =
      some ({ m with user := some u, state := .StateProfileView,
                     message := "Profile updated successfully!" }, none) ∧
    "Profile created successfully!" ≠ "" ∧ "Profile updated successfully!" ≠ "" ∧
    (∀ (p : User) (f : formModel), m.state = .StateProfileEdit → m.user = some p →
      m.form = some f → f.validate = none →
      m.run edit [.key ⟨"ctrl+s"⟩, .key ⟨"esc"⟩, .profileUpdatedMsg (some u)] =
        some ({ m with user := some u, state := .StateProfileView,
                       message := "Profile updated successfully!" },
              [.save f.toUpdateRequest p.ID p.Username])) := by
  refine ⟨rfl, rfl, by decide, by decide, ?_⟩
  intro p f hstate huser hform hval
  have hesc : m.Update edit (.key ⟨"esc"⟩) = some ({ m with state := .StateProfileView }, none) := by
    rw [Update_key_ProfileEdit edit m _ hstate]
    unfold tuiModel.handleProfileEditKeys
    simp
  simp only [tuiModel.run, save_key_ProfileEdit edit m p f hstate huser hform hval, hesc]
  rfl

/-- C21 at concrete sessions: a create completion in ProfileCreate, and an
update completion that arrives after save and cancel. -/
theorem C21_completion_applied_witness :
    (sessionOf .StateProfileCreate none (some newFormModel)).Update appendKey
        (.profileCreatedMsg (some (profileOf "Ada Lovelace" "ada" "" []))) =
      some ({ sessionOf .StateProfileView (some (profileOf "Ada Lovelace" "ada" "" []))
                (some newFormModel) with message := "Profile created successfully!" }, none) ∧
    (sessionOf .StateProfileEdit (some (profileOf "Ada" "ada" "" []))
        (some (formOf ["Ada L", "ada", "", "", ""] 0))).run appendKey
        [.key ⟨"ctrl+s"⟩, .key ⟨"esc"⟩, .profileUpdatedMsg (some (profileOf "Ada L" "ada" "" []))] =
      some ({ sessionOf .StateProfileView (some (profileOf "Ada L" "ada" "" []))
                (some (formOf ["Ada L", "ada", "", "", ""] 0)) with
              message := "Profile updated successfully!" },
            [.save (formOf ["Ada L", "ada", "", "", ""] 0).toUpdateRequest "id-1".toList
              "ada".toList]) :=
  ⟨(C21_completion_applied appendKey _ _).1,
   (C21_completion_applied appendKey
      (sessionOf .StateProfileEdit (some (profileOf "Ada" "ada" "" []))
        (some (formOf ["Ada L", "ada", "", "", ""] 0)))
      (profileOf "Ada L" "ada" "" [])).2.2.2.2
      (profileOf "Ada" "ada" "" []) (formOf ["Ada L", "ada", "", "", ""] 0)
      rfl rfl rfl (by decide)⟩

/-! ## C22 -/

/-- C22: in every session state, processing an error event sets the error of
the session to the error of the event and changes nothing else: state,
loaded profile, success message and the form with its fields, values and
focus index are as before; no command is returned. -/
theorem C22_error_event_frame (edit : KeyEdit) (m : tuiModel) (err : Option String) :
    ∃ m1, m.Update edit (.errorMsg err) = some (m1, none) ∧
      m1.err = err ∧ m1.state = m.state ∧ m1.user = m.user ∧ m1.message = m.message ∧
      m1.form = m.form ∧ m1.sshKey = m.sshKey ∧ m1.width = m.width ∧ m1.height = m.height :=
  ⟨{ m with err := err }, rfl, rfl, rfl, rfl, rfl, rfl, rfl, rfl, rfl⟩

/-- C22 on the duplicate-handle scenario: the create command for the handle
`ada`, run on a storage where `ada` is taken, resolves to an error event; in
ProfileCreate that event leaves the state and the form as they are. -/
theorem C22_error_event_frame_witness :
    ((Cmd.create ((formOf ["Ada Lovelace", "ada", "", "", ""] 1).toCreateRequest
        "ssh-ed25519:ab12".toList)).run exampleDB ["ada".toList]).msg =
      .errorMsg (some "Username 'ada' already exists") ∧
    ∃ m1, (sessionOf .StateProfileCreate none
        (some (formOf ["Ada Lovelace", "ada", "", "", ""] 1))).Update appendKey
        (.errorMsg (some "Username 'ada' already exists")) = some (m1, none) ∧
      m1.err = some "Username 'ada' already exists" ∧ m1.state = .StateProfileCreate ∧
      m1.form = some (formOf ["Ada Lovelace", "ada", "", "", ""] 1) :=
  ⟨by decide,
   (C22_error_event_frame appendKey
      (sessionOf .StateProfileCreate none (some (formOf ["Ada Lovelace", "ada", "", "", ""] 1)))
      (some "Username 'ada' already exists")).elim
      fun m1 h => ⟨m1, h.1, h.2.1, h.2.2.1, h.2.2.2.2.2.1⟩⟩

/-! ## C23 -/

/-- C23, as the code has it: the session keeps no record of a mutation that
is outstanding. A save key (in ProfileEdit with a loaded profile, or in
ProfileCreate, on a form that `validate` accepts) and a confirm key (in
ConfirmDelete with a loaded profile) leave the session as it is and dispatch
one mutation each time they are delivered: `n` such keys in a row, with no
completion event between them, dispatch `n` mutations. -/
theorem C23_no_single_flight (edit : KeyEdit) (m : tuiModel) (n : Nat) :
    (∀ (p : User) (f : formModel), m.state = .StateProfileEdit → m.user = some p →
      m.form = some f → f.validate = none →
      m.run edit (List.replicate n (.key ⟨"ctrl+s"⟩)) =
        some (m, List.replicate n (.save f.toUpdateRequest p.ID p.Username))) ∧
    (∀ f : formModel, m.state = .StateProfileCreate → m.form = some f → f.validate = none →
      m.run edit (List.replicate n (.key ⟨"ctrl+s"⟩)) =
        some (m, List.replicate n (.create (f.toCreateRequest m.sshKey)))) ∧
    (∀ p : User, m.state = .StateConfirmDelete → m.user = some p →
      m.run edit (List.replicate n (.key ⟨"y"⟩)) =
        some (m, List.replicate n (.delete p.ID))) := by
  refine ⟨?_, ?_, ?_⟩
  · intro p f hstate huser hform hval
    exact run_replicate edit m _ _ (save_key_ProfileEdit edit m p f hstate huser hform hval) n
  · intro f hstate hform hval
    exact run_replicate edit m _ _ (save_key_ProfileCreate edit m f hstate hform hval) n
  · intro p hstate huser
    exact run_replicate edit m _ _ (confirm_key_ConfirmDelete edit m p hstate huser) n

/-- C23 at a concrete session in ProfileCreate: three save keys, three create
commands. -/
theorem C23_no_single_flight_witness :
    (sessionOf .StateProfileCreate none
        (some (formOf ["Ada Lovelace", "ada", "", "", ""] 1))).run appendKey
        (List.replicate 3 (.key ⟨"ctrl+s"⟩)) =
      some (sessionOf .StateProfileCreate none
              (some (formOf ["Ada Lovelace", "ada", "", "", ""] 1)),
            List.replicate 3
              (.create ((formOf ["Ada Lovelace", "ada", "", "", ""] 1).toCreateRequest
                "ssh-ed25519:ab12".toList))) :=
  (C23_no_single_flight appendKey
    (sessionOf .StateProfileCreate none (some (formOf ["Ada Lovelace", "ada", "", "", ""] 1)))
    3).2.1 (formOf ["Ada Lovelace", "ada", "", "", ""] 1) rfl rfl (by decide)

/-- C23 fails as stated: in ProfileEdit two save keys in a row, with no
completion event processed between them, dispatch two update commands; in
ConfirmDelete two confirm keys dispatch two delete commands. -/
theorem C23_no_single_flight_counterexample :
    (sessionOf .StateProfileEdit (some (profileOf "Ada" "ada" "" []))
        (some (formOf ["Ada L", "ada", "", "", ""] 0))).run appendKey
        [.key ⟨"ctrl+s"⟩, .key ⟨"ctrl+s"⟩] =
      some (sessionOf .StateProfileEdit (some (profileOf "Ada" "ada" "" []))
              (some (formOf ["Ada L", "ada", "", "", ""] 0)),
            [.save (formOf ["Ada L", "ada", "", "", ""] 0).toUpdateRequest "id-1".toList
               "ada".toList,
             .save (formOf ["Ada L", "ada", "", "", ""] 0).toUpdateRequest "id-1".toList
               "ada".toList]) ∧
    (sessionOf .StateConfirmDelete (some (profileOf "Ada" "ada" "" [])) none).run appendKey
        [.key ⟨"y"⟩, .key ⟨"Y"⟩] =
      some (sessionOf .StateConfirmDelete (some (profileOf "Ada" "ada" "" [])) none,
            [.delete "id-1".toList, .delete "id-1".toList]) := by
  refine ⟨by decide, by decide⟩

/-! ## C24 -/

/-- C24, as the code has it: in ProfileEdit, after a save key has dispatched
an update and before its completion event is processed, the cancel key `esc`
moves the session to ProfileView at once, with the loaded profile and the
form as they were; when the completion event is processed afterwards the
state stays ProfileView and the profile of the event is loaded. -/
theorem C24_cancel_while_pending (edit : KeyEdit) (m : tuiModel) (p : User) (f : formModel)
    (hstate : m.state = .StateProfileEdit) (huser : m.user = some p)
    (hform : m.form = some f) (hval : f.validate = none) :
    m.run edit [.key ⟨"ctrl+s"⟩, .key ⟨"esc"⟩] =
      some ({ m with state := .StateProfileView },
            [.save f.toUpdateRequest p.ID p.Username]) ∧
    ∀ u : Option User,
      ({ m with state := .StateProfileView } : tuiModel).Update edit (.profileUpdatedMsg u) =
        some ({ m with state := .StateProfileView, user := u,
                       message := "Profile updated successfully!" }, none) := by
  constructor
  · have hesc : m.Update edit (.key ⟨"esc"⟩) =
        some ({ m with state := .StateProfileView }, none) := by
      rw [Update_key_ProfileEdit edit m _ hstate]
      unfold tuiModel.handleProfileEditKeys
      simp
    simp only [tuiModel.run, save_key_ProfileEdit edit m p f hstate huser hform hval, hesc]
    rfl
  · intro u
    rfl

/-- C24 at a concrete session. -/
theorem C24_cancel_while_pending_witness :
    (sessionOf .StateProfileEdit (some (profileOf "Ada" "ada" "" []))
        (some (formOf ["Ada L", "ada", "", "", ""] 0))).run appendKey
        [.key ⟨"ctrl+s"⟩, .key ⟨"esc"⟩] =
      some (sessionOf .StateProfileView (some (profileOf "Ada" "ada" "" []))
              (some (formOf ["Ada L", "ada", "", "", ""] 0)),
            [.save (formOf ["Ada L", "ada", "", "", ""] 0).toUpdateRequest "id-1".toList
               "ada".toList]) :=
  (C24_cancel_while_pending appendKey
    (sessionOf .StateProfileEdit (some (profileOf "Ada" "ada" "" []))
      (some (formOf ["Ada L", "ada", "", "", ""] 0)))
    (profileOf "Ada" "ada" "" []) (formOf ["Ada L", "ada", "", "", ""] 0)
    rfl rfl rfl (by decide)).1

/-- C24 fails as stated: after a save key that dispatched an update, the
cancel key changes the state from ProfileEdit to ProfileView although no
completion event has been processed. -/
theorem C24_cancel_while_pending_counterexample :
    ((sessionOf .StateProfileEdit (some (profileOf "Ada" "ada" "" []))
        (some (formOf ["Ada L", "ada", "", "", ""] 0))).run appendKey
        [.key ⟨"ctrl+s"⟩]).map (fun r => (r.1.state, r.2.length)) =
      some (.StateProfileEdit, 1) ∧
    ((sessionOf .StateProfileEdit (some (profileOf "Ada" "ada" "" []))
        (some (formOf ["Ada L", "ada", "", "", ""] 0))).run appendKey
        [.key ⟨"ctrl+s"⟩, .key ⟨"esc"⟩]).map (fun r => (r.1.state, r.2.length)) =
      some (.StateProfileView, 1) := by
  refine ⟨by decide, by decide⟩

/-! ## C25 -/

/-- The create command, case by case on what the storage answers. -/
theorem create_run {σ : Type} (db : DB σ) (s : σ) (req : CreateUserRequest) :
    (∀ (taken : Bool) (err : String) (s1 : σ),
      db.IsUsernameExists req.Username s = ((taken, some err), s1) →
      ((Cmd.create req).run db s).msg = .errorMsg (some err) ∧
      ((Cmd.create req).run db s).store = s1 ∧
      ((Cmd.create req).run db s).calls = [.IsUsernameExists req.Username]) ∧
    (∀ s1 : σ, db.IsUsernameExists req.Username s = ((true, none), s1) →
      ((Cmd.create req).run db s).msg =
        .errorMsg (some ("Username '" ++ String.mk req.Username ++ "' already exists")) ∧
      ((Cmd.create req).run db s).store = s1 ∧
      ((Cmd.create req).run db s).calls = [.IsUsernameExists req.Username]) ∧
    (∀ (s1 s2 : σ) (user : Option User),
      db.IsUsernameExists req.Username s = ((false, none), s1) →
      db.CreateUser req s1 = ((user, none), s2) →
      ((Cmd.create req).run db s).msg = .profileCreatedMsg user ∧
      ((Cmd.create req).run db s).store = s2 ∧
      ((Cmd.create req).run db s).calls = [.IsUsernameExists req.Username, .CreateUser req]) ∧
    (∀ (s1 s2 : σ) (user : Option User) (err : String),
      db.IsUsernameExists req.Username s = ((false, none), s1) →
      db.CreateUser req s1 = ((user, some err), s2) →
      ((Cmd.create req).run db s).msg = .errorMsg (some err) ∧
      ((Cmd.create req).run db s).store = s2 ∧
      ((Cmd.create req).run db s).calls = [.IsUsernameExists req.Username, .CreateUser req]) := by
  refine ⟨?_, ?_, ?_, ?_⟩
  · intro taken err s1 h
    unfold Cmd.run
    simp [h]
  · intro s1 h
    unfold Cmd.run
    simp [h]
  · intro s1 s2 user h1 h2
    unfold Cmd.run
    simp [h1, h2]
  · intro s1 s2 user err h1 h2
    unfold Cmd.run
    simp [h1, h2]

/-- C25: in ProfileCreate the save key on a form that `validate` accepts
returns the create command that holds the payload built from the form at that
moment. Run on any storage, the command first checks the handle: when the
check fails or reports the handle taken it resolves to an error event and
`CreateUser` is not called; otherwise it calls `CreateUser` once with the
payload and resolves to the created-profile event, or to an error event when
the call fails. Each run gives one event. -/
theorem C25_create_unit (edit : KeyEdit) (m : tuiModel) (f : formModel)
    (hstate : m.state = .StateProfileCreate) (hform : m.form = some f)
    (hval : f.validate = none) :
    m.Update edit (.key ⟨"ctrl+s"⟩) = some (m, some (.create (f.toCreateRequest m.sshKey))) ∧
    ∀ (σ : Type) (db : DB σ) (s : σ) (req : CreateUserRequest),
      req = f.toCreateRequest m.sshKey →
      (∀ (taken : Bool) (err : String) (s1 : σ),
        db.IsUsernameExists req.Username s = ((taken, some err), s1) →
        ((Cmd.create req).run db s).msg = .errorMsg (some err) ∧
        ((Cmd.create req).run db s).calls = [.IsUsernameExists req.Username]) ∧
      (∀ s1 : σ, db.IsUsernameExists req.Username s = ((true, none), s1) →
        ((Cmd.create req).run db s).msg =
          .errorMsg (some ("Username '" ++ String.mk req.Username ++ "' already exists")) ∧
        ((Cmd.create req).run db s).calls = [.IsUsernameExists req.Username]) ∧
      (∀ (s1 s2 : σ) (user : Option User),
        db.IsUsernameExists req.Username s = ((false, none), s1) →
        db.CreateUser req s1 = ((user, none), s2) →
        ((Cmd.create req).run db s).msg = .profileCreatedMsg user ∧
        ((Cmd.create req).run db s).calls =
          [.IsUsernameExists req.Username, .CreateUser req]) ∧
      (∀ (s1 s2 : σ) (user : Option User) (err : String),
        db.IsUsernameExists req.Username s = ((false, none), s1) →
        db.CreateUser req s1 = ((user, some err), s2) →
        ((Cmd.create req).run db s).msg = .errorMsg (some err) ∧
        ((Cmd.create req).run db s).calls =
          [.IsUsernameExists req.Username, .CreateUser req]) := by
  refine ⟨save_key_ProfileCreate edit m f hstate hform hval, ?_⟩
  intro σ db s req _
  obtain ⟨h1, h2, h3, h4⟩ := create_run db s req
  refine ⟨?_, ?_, ?_, ?_⟩
  · intro taken err s1 h
    exact ⟨(h1 taken err s1 h).1, (h1 taken err s1 h).2.2⟩
  · intro s1 h
    exact ⟨(h2 s1 h).1, (h2 s1 h).2.2⟩
  · intro s1 s2 user ha hb
    exact ⟨(h3 s1 s2 user ha hb).1, (h3 s1 s2 user ha hb).2.2⟩
  · intro s1 s2 user err ha hb
    exact ⟨(h4 s1 s2 user err ha hb).1, (h4 s1 s2 user err ha hb).2.2⟩

/-- C25 on the create scenario of the specification: full name `Ada
Lovelace`, handle `ada`; on a storage where the handle is free the command
calls the check and `CreateUser` and resolves to the created profile; where
`ada` is taken it calls only the check. -/
theorem C25_create_unit_witness :
    (sessionOf .StateProfileCreate none
        (some (formOf ["Ada Lovelace", "ada", "", "", ""] 1))).Update appendKey
        (.key ⟨"ctrl+s"⟩) =
      some (sessionOf .StateProfileCreate none
              (some (formOf ["Ada Lovelace", "ada", "", "", ""] 1)),
            some (.create ((formOf ["Ada Lovelace", "ada", "", "", ""] 1).toCreateRequest
              "ssh-ed25519:ab12".toList))) ∧
    ((Cmd.create ((formOf ["Ada Lovelace", "ada", "", "", ""] 1).toCreateRequest
        "ssh-ed25519:ab12".toList)).run exampleDB []).calls =
      [.IsUsernameExists "ada".toList,
       .CreateUser ((formOf ["Ada Lovelace", "ada", "", "", ""] 1).toCreateRequest
         "ssh-ed25519:ab12".toList)] ∧
    ((Cmd.create ((formOf ["Ada Lovelace", "ada", "", "", ""] 1).toCreateRequest
        "ssh-ed25519:ab12".toList)).run exampleDB ["ada".toList]).calls =
      [.IsUsernameExists "ada".toList] :=
  ⟨(C25_create_unit appendKey
      (sessionOf .StateProfileCreate none (some (formOf ["Ada Lovelace", "ada", "", "", ""] 1)))
      (formOf ["Ada Lovelace", "ada", "", "", ""] 1) rfl rfl (by decide)).1,
   ((C25_create_unit appendKey
      (sessionOf .StateProfileCreate none (some (formOf ["Ada Lovelace", "ada", "", "", ""] 1)))
      (formOf ["Ada Lovelace", "ada", "", "", ""] 1) rfl rfl (by decide)).2
      (List GoString) exampleDB [] _ rfl).2.2.1 [] ["ada".toList] _ (by decide) rfl |>.2,
   ((C25_create_unit appendKey
      (sessionOf .StateProfileCreate none (some (formOf ["Ada Lovelace", "ada", "", "", ""] 1)))
      (formOf ["Ada Lovelace", "ada", "", "", ""] 1) rfl rfl (by decide)).2
      (List GoString) exampleDB ["ada".toList] _ rfl).2.1 ["ada".toList] (by decide) |>.2⟩

/-! ## C26 -/

/-- The update command when the handle of the payload is the handle of the
loaded profile: `UpdateUser` is the only call. -/
theorem save_run_same {σ : Type} (db : DB σ) (s : σ) (req : UpdateUserRequest)
    (userID currentUsername : GoString) (hsame : req.Username = currentUsername) :
    (∀ (s2 : σ) (user : Option User), db.UpdateUser userID req s = ((user, none), s2) →
      ((Cmd.save req userID currentUsername).run db s).msg = .profileUpdatedMsg user ∧
      ((Cmd.save req userID currentUsername).run db s).store = s2 ∧
      ((Cmd.save req userID currentUsername).run db s).calls = [.UpdateUser userID req]) ∧
    (∀ (s2 : σ) (user : Option User) (err : String),
      db.UpdateUser userID req s = ((user, some err), s2) →
      ((Cmd.save req userID currentUsername).run db s).msg = .errorMsg (some err) ∧
      ((Cmd.save req userID currentUsername).run db s).store = s2 ∧
      ((Cmd.save req userID currentUsername).run db s).calls = [.UpdateUser userID req]) := by
  constructor
  · intro s2 user h
    unfold Cmd.run
    simp [hsame, h]
  · intro s2 user err h
    unfold Cmd.run
    simp [hsame, h]

/-- The update command when the handle of the payload differs from the handle
of the loaded profile: the check comes first, and `UpdateUser` is called only
when the check reports the handle free. -/
theorem save_run_changed {σ : Type} (db : DB σ) (s : σ) (req : UpdateUserRequest)
    (userID currentUsername : GoString) (hdiff : req.Username ≠ currentUsername) :
    (∀ (taken : Bool) (err : String) (s1 : σ),
      db.IsUsernameExists req.Username s = ((taken, some err), s1) →
      ((Cmd.save req userID currentUsername).run db s).msg = .errorMsg (some err) ∧
      ((Cmd.save req userID currentUsername).run db s).store = s1 ∧
      ((Cmd.save req userID currentUsername).run db s).calls =
        [.IsUsernameExists req.Username]) ∧
    (∀ s1 : σ, db.IsUsernameExists req.Username s = ((true, none), s1) →
      ((Cmd.save req userID currentUsername).run db s).msg =
        .errorMsg (some ("Username '" ++ String.mk req.Username ++ "' already exists")) ∧
      ((Cmd.save req userID currentUsername).run db s).store = s1 ∧
      ((Cmd.save req userID currentUsername).run db s).calls =
        [.IsUsernameExists req.Username]) ∧
    (∀ (s1 s2 : σ) (user : Option User),
      db.IsUsernameExists req.Username s = ((false, none), s1) →
      db.UpdateUser userID req s1 = ((user, none), s2) →
      ((Cmd.save req userID currentUsername).run db s).msg = .profileUpdatedMsg user ∧
      ((Cmd.save req userID currentUsername).run db s).store = s2 ∧
      ((Cmd.save req userID currentUsername).run db s).calls =
        [.IsUsernameExists req.Username, .UpdateUser userID req]) ∧
    (∀ (s1 s2 : σ) (user : Option User) (err : String),
      db.IsUsernameExists req.Username s = ((false, none), s1) →
      db.UpdateUser userID req s1 = ((user, some err), s2) →
      ((Cmd.save req userID currentUsername).run db s).msg = .errorMsg (some err) ∧
      ((Cmd.save req userID currentUsername).run db s).store = s2 ∧
      ((Cmd.save req userID currentUsername).run db s).calls =
        [.IsUsernameExists req.Username, .UpdateUser userID req]) := by
  refine ⟨?_, ?_, ?_, ?_⟩
  · intro taken err s1 h
    unfold Cmd.run
    simp [hdiff, h]
  · intro s1 h
    unfold Cmd.run
    simp [hdiff, h]
  · intro s1 s2 user h1 h2
    unfold Cmd.run
    simp [hdiff, h1, h2]
  · intro s1 s2 user err h1 h2
    unfold Cmd.run
    simp [hdiff, h1, h2]

theorem validate_none_three_le (f : formModel) (h : f.validate = none) :
    3 ≤ f.inputs.length := by
  by_contra hlt
  unfold formModel.validate at h
  rw [if_pos (by omega)] at h
  exact absurd h (by simp)

theorem toUpdateRequest_Username (f : formModel) (h3 : 3 ≤ f.inputs.length) :
    f.toUpdateRequest.Username = TrimSpace (valueAt f.inputs 1) := by
  unfold formModel.toUpdateRequest
  dsimp only
  rw [if_pos h3]

/-- C26: in ProfileEdit with loaded profile `p`, the save key on a form that
`validate` accepts returns the update command that holds the payload built
from the form at that moment, the id of `p` and the handle of `p`; the handle
of the payload is the trimmed value of field 1. Run on any storage, the
command checks the handle if and only if it differs from the handle of `p`.
When the check fails or reports the handle taken the command resolves to an
error event and `UpdateUser` is not called. When the handle is unchanged or
the check reports it free, `UpdateUser` is called once with the id of `p` and
the payload, and the command resolves to the updated-profile event, or to an
error event when the call fails. -/
theorem C26_update_unit (edit : KeyEdit) (m : tuiModel) (p : User) (f : formModel)
    (hstate : m.state = .StateProfileEdit) (huser : m.user = some p)
    (hform : m.form = some f) (hval : f.validate = none) :
    m.Update edit (.key ⟨"ctrl+s"⟩) =
      some (m, some (.save f.toUpdateRequest p.ID p.Username)) ∧
    f.toUpdateRequest.Username = TrimSpace (valueAt f.inputs 1) ∧
    ∀ (σ : Type) (db : DB σ) (s : σ) (req : UpdateUserRequest), req = f.toUpdateRequest →
      (req.Username = p.Username →
        (∀ (s2 : σ) (user : Option User), db.UpdateUser p.ID req s = ((user, none), s2) →
          ((Cmd.save req p.ID p.Username).run db s).msg = .profileUpdatedMsg user ∧
          ((Cmd.save req p.ID p.Username).run db s).calls = [.UpdateUser p.ID req]) ∧
        (∀ (s2 : σ) (user : Option User) (err : String),
          db.UpdateUser p.ID req s = ((user, some err), s2) →
          ((Cmd.save req p.ID p.Username).run db s).msg = .errorMsg (some err) ∧
          ((Cmd.save req p.ID p.Username).run db s).calls = [.UpdateUser p.ID req])) ∧
      (req.Username ≠ p.Username →
        (∀ (taken : Bool) (err : String) (s1 : σ),
          db.IsUsernameExists req.Username s = ((taken, some err), s1) →
          ((Cmd.save req p.ID p.Username).run db s).msg = .errorMsg (some err) ∧
          ((Cmd.save req p.ID p.Username).run db s).calls =
            [.IsUsernameExists req.Username]) ∧
        (∀ s1 : σ, db.IsUsernameExists req.Username s = ((true, none), s1) →
          ((Cmd.save req p.ID p.Username).run db s).msg =
            .errorMsg (some ("Username '" ++ String.mk req.Username ++ "' already exists")) ∧
          ((Cmd.save req p.ID p.Username).run db s).calls =
            [.IsUsernameExists req.Username]) ∧
        (∀ (s1 s2 : σ) (user : Option User),
          db.IsUsernameExists req.Username s = ((false, none), s1) →
          db.UpdateUser p.ID req s1 = ((user, none), s2) →
          ((Cmd.save req p.ID p.Username).run db s).msg = .profileUpdatedMsg user ∧
          ((Cmd.save req p.ID p.Username).run db s).calls =
            [.IsUsernameExists req.Username, .UpdateUser p.ID req]) ∧
        (∀ (s1 s2 : σ) (user : Option User) (err : String),
          db.IsUsernameExists req.Username s = ((false, none), s1) →
          db.UpdateUser p.ID req s1 = ((user, some err), s2) →
          ((Cmd.save req p.ID p.Username).run db s).msg = .errorMsg (some err) ∧
          ((Cmd.save req p.ID p.Username).run db s).calls =
            [.IsUsernameExists req.Username, .UpdateUser p.ID req])) := by
  refine ⟨save_key_ProfileEdit edit m p f hstate huser hform hval,
    toUpdateRequest_Username f (validate_none_three_le f hval), ?_⟩
  intro σ db s req _
  constructor
  · intro hsame
    obtain ⟨h1, h2⟩ := save_run_same db s req p.ID p.Username hsame
    exact ⟨fun s2 user h => ⟨(h1 s2 user h).1, (h1 s2 user h).2.2⟩,
           fun s2 user err h => ⟨(h2 s2 user err h).1, (h2 s2 user err h).2.2⟩⟩
  · intro hdiff
    obtain ⟨h1, h2, h3, h4⟩ := save_run_changed db s req p.ID p.Username hdiff
    exact ⟨fun taken err s1 h => ⟨(h1 taken err s1 h).1, (h1 taken err s1 h).2.2⟩,
           fun s1 h => ⟨(h2 s1 h).1, (h2 s1 h).2.2⟩,
           fun s1 s2 user ha hb => ⟨(h3 s1 s2 user ha hb).1, (h3 s1 s2 user ha hb).2.2⟩,
           fun s1 s2 user err ha hb =>
             ⟨(h4 s1 s2 user err ha hb).1, (h4 s1 s2 user err ha hb).2.2⟩⟩

/-- C26 at concrete sessions: a save that keeps the handle `ada` calls only
`UpdateUser`, also on a storage where `ada` is in use; a save that changes
the handle to `lovelace` checks it first, and stops there when it is taken. -/
theorem C26_update_unit_witness :
    (sessionOf .StateProfileEdit (some (profileOf "Ada" "ada" "" []))
        (some (formOf ["Ada L", " ada ", "", "", ""] 0))).Update appendKey (.key ⟨"ctrl+s"⟩) =
      some (sessionOf .StateProfileEdit (some (profileOf "Ada" "ada" "" []))
              (some (formOf ["Ada L", " ada ", "", "", ""] 0)),
            some (.save (formOf ["Ada L", " ada ", "", "", ""] 0).toUpdateRequest
              "id-1".toList "ada".toList)) ∧
    ((Cmd.save (formOf ["Ada L", " ada ", "", "", ""] 0).toUpdateRequest "id-1".toList
        "ada".toList).run exampleDB ["ada".toList]).calls =
      [.UpdateUser "id-1".toList (formOf ["Ada L", " ada ", "", "", ""] 0).toUpdateRequest] ∧
    ((Cmd.save (formOf ["Ada L", "lovelace", "", "", ""] 0).toUpdateRequest "id-1".toList
        "ada".toList).run exampleDB ["lovelace".toList]).calls =
      [.IsUsernameExists "lovelace".toList] ∧
    ((Cmd.save (formOf ["Ada L", "lovelace", "", "", ""] 0).toUpdateRequest "id-1".toList
        "ada".toList).run exampleDB ["ada".toList]).calls =
      [.IsUsernameExists "lovelace".toList,
       .UpdateUser "id-1".toList (formOf ["Ada L", "lovelace", "", "", ""] 0).toUpdateRequest] :=
  ⟨(C26_update_unit appendKey
      (sessionOf .StateProfileEdit (some (profileOf "Ada" "ada" "" []))
        (some (formOf ["Ada L", " ada ", "", "", ""] 0)))
      (profileOf "Ada" "ada" "" []) (formOf ["Ada L", " ada ", "", "", ""] 0)
      rfl rfl rfl (by decide)).1,
   (((C26_update_unit appendKey
      (sessionOf .StateProfileEdit (some (profileOf "Ada" "ada" "" []))
        (some (formOf ["Ada L", " ada ", "", "", ""] 0)))
      (profileOf "Ada" "ada" "" []) (formOf ["Ada L", " ada ", "", "", ""] 0)
      rfl rfl rfl (by decide)).2.2 (List GoString) exampleDB ["ada".toList] _ rfl).1
      (by decide)).1 _ _ rfl |>.2,
   by decide, by decide⟩

/-! ## C27 -/

/-- C27: with no loaded profile, the save key in ProfileEdit and the confirm
keys in ConfirmDelete leave the session as it is, whatever the form is (none,
invalid or valid: it is not validated), and return the command that resolves
to the one error event `No user to save`, respectively `No user to delete`;
running that command makes no storage call. -/
theorem C27_no_loaded_profile (edit : KeyEdit) (m : tuiModel) (huser : m.user = none) :
    (m.state = .StateProfileEdit →
      m.Update edit (.key ⟨"ctrl+s"⟩) = some (m, some (.fail "No user to save"))) ∧
    (m.state = .StateConfirmDelete → ∀ msg : KeyMsg, msg.name = "y" ∨ msg.name = "Y" →
      m.Update edit (.key msg) = some (m, some (.fail "No user to delete"))) ∧
    (∀ (σ : Type) (db : DB σ) (s : σ) (err : String),
      ((Cmd.fail err).run db s).msg = .errorMsg (some err) ∧
      ((Cmd.fail err).run db s).store = s ∧
      ((Cmd.fail err).run db s).calls = []) := by
  refine ⟨?_, ?_, fun σ db s err => ⟨rfl, rfl, rfl⟩⟩
  · intro hstate
    rw [Update_key_ProfileEdit edit m _ hstate]
    unfold tuiModel.handleProfileEditKeys tuiModel.saveProfile
    simp only [String.reduceEq, if_false, if_true]
    rw [huser]
  · intro hstate msg hk
    rw [Update_key_ConfirmDelete edit m msg hstate]
    unfold tuiModel.handleConfirmDeleteKeys tuiModel.deleteProfile
    rw [if_pos hk, huser]

/-- C27 at concrete sessions without profile: ProfileEdit with a form that
`validate` would reject, and ConfirmDelete without form. -/
theorem C27_no_loaded_profile_witness :
    (sessionOf .StateProfileEdit none (some (formOf ["", "", "", "", ""] 0))).Update appendKey
        (.key ⟨"ctrl+s"⟩) =
      some (sessionOf .StateProfileEdit none (some (formOf ["", "", "", "", ""] 0)),
        some (.fail "No user to save")) ∧
    (sessionOf .StateConfirmDelete none none).Update appendKey (.key ⟨"Y"⟩) =
      some (sessionOf .StateConfirmDelete none none, some (.fail "No user to delete")) ∧
    ((Cmd.fail "No user to save").run exampleDB ["ada".toList]).calls = [] :=
  ⟨(C27_no_loaded_profile appendKey
      (sessionOf .StateProfileEdit none (some (formOf ["", "", "", "", ""] 0))) rfl).1 rfl,
   (C27_no_loaded_profile appendKey (sessionOf .StateConfirmDelete none none) rfl).2.1 rfl
      ⟨"Y"⟩ (Or.inr rfl),
   ((C27_no_loaded_profile appendKey (sessionOf .StateConfirmDelete none none) rfl).2.2
      (List GoString) exampleDB ["ada".toList] "No user to save").2.2⟩

/-! ## C28 -/

/-- A rendered error line is no fixed text that starts with another letter. -/
theorem error_line_ne (s t : String) (h : t.data.head? ≠ some 'E') :
    "Error: " ++ s ≠ t := by
  intro e
  apply h
  rw [← e]
  simp [String.data_append]

theorem error_block_ne (s t : String) (h : t.data.head? ≠ some 'E') :
    "Error: " ++ s ++ "\n\n" ≠ t := by
  intro e
  apply h
  rw [← e]
  simp [String.data_append]

theorem error_line_inj (a b : String) : "Error: " ++ a = "Error: " ++ b ↔ a = b := by
  constructor
  · intro h
    have hd := congrArg String.data h
    simp only [String.data_append, List.append_cancel_left_eq] at hd
    exact String.ext hd
  · intro h
    rw [h]

theorem profileView_clears (m : tuiModel) :
    m.profileView.2.state = m.state ∧
    (∀ err, showsError m.profileView.1 err → m.err = some err ∧ m.profileView.2.err = none) ∧
    (∀ msg, showsMessage m.profileView.1 msg →
      m.message = msg ∧ msg ≠ "" ∧ m.profileView.2.message = "") := by
  unfold tuiModel.profileView showsError showsMessage
  cases hu : m.user with
  | none =>
    refine ⟨rfl, ?_, ?_⟩
    · intro err h
      simp [error_line_ne err "No user data available" (by decide)] at h
    · intro msg h
      simp at h
  | some user =>
    by_cases hm : m.message = "" <;> cases he : m.err <;>
      simp [hm, he, error_block_ne _ "\n\n" (by decide), error_line_inj]

theorem editView_clears (m m1 : tuiModel) (screen : List Fragment)
    (hview : m.editView = some (screen, m1)) :
    m1.state = m.state ∧
    (∀ err, showsError screen err → m.err = some err ∧ m1.err = none) ∧
    (∀ msg, showsMessage screen msg → m.message = msg ∧ msg ≠ "" ∧ m1.message = "") := by
  unfold tuiModel.editView at hview
  unfold showsError showsMessage
  cases hf : m.form with
  | none => rw [hf] at hview; exact absurd hview (by simp)
  | some form =>
    rw [hf] at hview
    cases he : m.err <;> simp [he] at hview <;> obtain ⟨rfl, rfl⟩ := hview <;>
      simp [error_block_ne _ "\n\n" (by decide), error_block_ne _ "\n" (by decide),
        error_line_inj]

theorem createView_clears (m m1 : tuiModel) (screen : List Fragment)
    (hview : m.createView = some (screen, m1)) :
    m1.state = m.state ∧
    (∀ err, showsError screen err → m.err = some err ∧ m1.err = none) ∧
    (∀ msg, showsMessage screen msg → m.message = msg ∧ msg ≠ "" ∧ m1.message = "") := by
  unfold tuiModel.createView at hview
  unfold showsError showsMessage
  cases hf : m.form with
  | none => rw [hf] at hview; exact absurd hview (by simp)
  | some form =>
    rw [hf] at hview
    cases he : m.err <;> simp [he] at hview <;> obtain ⟨rfl, rfl⟩ := hview <;>
      simp [error_block_ne _ "\n\n" (by decide), error_block_ne _ "\n" (by decide),
        error_block_ne _ "Welcome! Let's create your profile.\n\n" (by decide),
        error_line_inj]

/-- In every state but Error, a view that shows the pending error or the
pending success message leaves a session in which it is cleared; the state
is never changed by a view. -/
theorem View_clears (m m1 : tuiModel) (screen : List Fragment)
    (hview : m.View = some (screen, m1)) (hstate : m.state ≠ .StateError) :
    m1.state = m.state ∧
    (∀ err, showsError screen err → m.err = some err ∧ m1.err = none) ∧
    (∀ msg, showsMessage screen msg → m.message = msg ∧ msg ≠ "" ∧ m1.message = "") := by
  unfold tuiModel.View at hview
  split at hview
  · cases hview
    unfold showsError showsMessage
    simp [error_block_ne _ "Loading..." (by decide)]
  · rename_i he
    exact absurd he hstate
  · simp only [Option.some.injEq] at hview
    have h1 : screen = m.profileView.1 := by rw [hview]
    have h2 : m1 = m.profileView.2 := by rw [hview]
    subst h1; subst h2
    exact profileView_clears m
  · exact editView_clears m m1 screen hview
  · exact createView_clears m m1 screen hview
  · cases hview
    unfold showsError showsMessage
    simp [error_block_ne _ "\n\n" (by decide), error_block_ne _ "\n" (by decide),
      error_block_ne _ "This action cannot be undone.\n\n" (by decide),
      error_line_ne _ "Are you sure you want to delete your profile?" (by decide)]


/-- C28, as the code has it: in every state but Error, when `View` shows the
pending error or the pending success message, the session it leaves behind
has that message cleared, and the next `View` shows no error and no success
message. In the Error state `View` shows the error of the session and leaves
the session as it is, so every later `View` shows it again. -/
theorem C28_one_shot_messages (m m1 : tuiModel) (screen : List Fragment)
    (hview : m.View = some (screen, m1)) :
    (m.state ≠ .StateError →
      (∀ err, showsError screen err → m.err = some err ∧ m1.err = none) ∧
      (∀ msg, showsMessage screen msg → m.message = msg ∧ m1.message = "") ∧
      (∀ (screen2 : List Fragment) (m2 : tuiModel), m1.View = some (screen2, m2) →
        (∀ err, showsError screen err → ∀ err2, ¬ showsError screen2 err2) ∧
        (∀ msg, showsMessage screen msg → ∀ msg2, ¬ showsMessage screen2 msg2))) ∧
    (m.state = .StateError →
      m1 = m ∧ ∀ err, m.err = some err → showsError screen err) := by
  constructor
  · intro hstate
    obtain ⟨hs, herr, hmsg⟩ := View_clears m m1 screen hview hstate
    refine ⟨herr, fun msg h => ⟨(hmsg msg h).1, (hmsg msg h).2.2⟩, ?_⟩
    intro screen2 m2 hview2
    obtain ⟨-, herr2, hmsg2⟩ := View_clears m1 m2 screen2 hview2 (by rw [hs]; exact hstate)
    constructor
    · intro err h err2 h2
      have a := (herr err h).2
      have b := (herr2 err2 h2).1
      rw [a] at b
      exact absurd b (by simp)
    · intro msg h msg2 h2
      have a := (hmsg msg h).2.2
      obtain ⟨b, c, -⟩ := hmsg2 msg2 h2
      rw [a] at b
      exact c b.symm
  · intro hstate
    unfold tuiModel.View at hview
    rw [hstate] at hview
    simp only [Option.some.injEq] at hview
    have h1 : screen = m.errorView.1 := by rw [hview]
    have h2 : m1 = m.errorView.2 := by rw [hview]
    refine ⟨h2, ?_⟩
    intro err he
    rw [h1]
    unfold tuiModel.errorView showsError
    rw [he]
    simp

/-- C28 at a concrete session in ProfileView with a pending error and a
pending success message: the first view shows both and clears both, the
second view shows neither. -/
theorem C28_one_shot_messages_witness :
    ∃ screen m1 screen2 m2,
      ({ sessionOf .StateProfileView (some (profileOf "Ada" "ada" "" [])) none with
          message := "Profile updated successfully!", err := some "boom" } : tuiModel).View =
        some (screen, m1) ∧
      m1.View = some (screen2, m2) ∧
      showsError screen "boom" ∧ showsMessage screen "Profile updated successfully!" ∧
      m1.err = none ∧ m1.message = "" ∧
      ¬ showsError screen2 "boom" ∧ ¬ showsMessage screen2 "Profile updated successfully!" :=
  ⟨_, _, _, _, rfl, rfl, by decide, by decide,
   ((C28_one_shot_messages
      ({ sessionOf .StateProfileView (some (profileOf "Ada" "ada" "" [])) none with
          message := "Profile updated successfully!", err := some "boom" } : tuiModel)
      _ _ rfl).1 (by decide)).1 "boom" (by decide) |>.2,
   ((C28_one_shot_messages
      ({ sessionOf .StateProfileView (some (profileOf "Ada" "ada" "" [])) none with
          message := "Profile updated successfully!", err := some "boom" } : tuiModel)
      _ _ rfl).1 (by decide)).2.1 "Profile updated successfully!" (by decide) |>.2,
   by decide, by decide⟩

/-- C28 fails as stated: a session started without public key is in the Error
state; its `View` shows the error and leaves it set, and a second `View`
shows it again. -/
theorem C28_one_shot_messages_counterexample :
    ∃ screen m1 screen2 m2,
      (newTUIModel exampleDigest none (database.GetUserBySSHKey emptyConn)).View =
        some (screen, m1) ∧
      m1.View = some (screen2, m2) ∧
      showsError screen
        "No SSH public key found - please ensure you're connecting with a valid SSH key" ∧
      m1.err = some
        "No SSH public key found - please ensure you're connecting with a valid SSH key" ∧
      showsError screen2
        "No SSH public key found - please ensure you're connecting with a valid SSH key" :=
  ⟨_, _, _, _, rfl, rfl, by decide, by decide, by decide⟩

/-! ## C29 -/

theorem HasPrefix_singleton (s : GoString) (c : Char) :
    HasPrefix s [c] = true ↔ s.head? = some c := by
  unfold HasPrefix
  cases s with
  | nil => simp [List.isPrefixOf]
  | cons a t =>
    simp only [List.isPrefixOf, List.head?_cons, Option.some.injEq, Bool.and_true, beq_iff_eq]
    exact eq_comm

theorem HasSuffix_singleton (s : GoString) (c : Char) :
    HasSuffix s [c] = true ↔ s.getLast? = some c := by
  unfold HasSuffix List.isSuffixOf
  rw [List.getLast?_eq_head?_reverse]
  cases s.reverse with
  | nil => simp [List.isPrefixOf]
  | cons a t =>
    simp only [List.reverse_cons, List.reverse_nil, List.nil_append, List.isPrefixOf,
      List.head?_cons, Option.some.injEq, Bool.and_true, beq_iff_eq]
    exact eq_comm

theorem usernameRegexMatch_iff (s : GoString) :
    usernameRegexMatch s = true ↔
      s ≠ [] ∧ ∀ c ∈ s, ('a' ≤ c ∧ c ≤ 'z') ∨ ('A' ≤ c ∧ c ≤ 'Z') ∨ ('0' ≤ c ∧ c ≤ '9') ∨
        c = '-' ∨ c = '_' := by
  unfold usernameRegexMatch
  simp only [Bool.and_eq_true, Bool.not_eq_true', List.isEmpty_eq_false, List.all_eq_true,
    Bool.or_eq_true, decide_eq_true_eq, beq_iff_eq]
  constructor
  · rintro ⟨h1, h2⟩
    refine ⟨h1, fun c hc => ?_⟩
    rcases h2 c hc with (((h | h) | h) | h) | h
    · exact Or.inl h
    · exact Or.inr (Or.inl h)
    · exact Or.inr (Or.inr (Or.inl h))
    · exact Or.inr (Or.inr (Or.inr (Or.inr h)))
    · exact Or.inr (Or.inr (Or.inr (Or.inl h)))
  · rintro ⟨h1, h2⟩
    refine ⟨h1, fun c hc => ?_⟩
    rcases h2 c hc with h | h | h | h | h
    · exact Or.inl (Or.inl (Or.inl (Or.inl h)))
    · exact Or.inl (Or.inl (Or.inl (Or.inr h)))
    · exact Or.inl (Or.inl (Or.inr h))
    · exact Or.inr h
    · exact Or.inl (Or.inr h)

/-- C29: `ValidateUsername` returns no error for `s` if and only if `s` has
between 2 and 50 bytes, every character of `s` is an ASCII letter, a digit,
`-` or `_`, and `s` neither starts nor ends with `-` or `_`. -/
theorem C29_ValidateUsername_iff (s : GoString) :
    ValidateUsername s = none ↔
      (2 ≤ byteLen s ∧ byteLen s ≤ 50) ∧
      (∀ c ∈ s, ('a' ≤ c ∧ c ≤ 'z') ∨ ('A' ≤ c ∧ c ≤ 'Z') ∨ ('0' ≤ c ∧ c ≤ '9') ∨
        c = '-' ∨ c = '_') ∧
      (s.head? ≠ some '-' ∧ s.head? ≠ some '_') ∧
      (s.getLast? ≠ some '-' ∧ s.getLast? ≠ some '_') := by
  have hp1 := HasPrefix_singleton s '-'
  have hp2 := HasPrefix_singleton s '_'
  have hs1 := HasSuffix_singleton s '-'
  have hs2 := HasSuffix_singleton s '_'
  have hre := usernameRegexMatch_iff s
  unfold ValidateUsername
  by_cases h0 : s = []
  · subst h0
    simp [byteLen]
  · rw [if_neg h0]
    by_cases h1 : byteLen s < 2
    · rw [if_pos h1]
      exact iff_of_false (by simp) (fun h => by omega)
    · rw [if_neg h1]
      by_cases h2 : byteLen s > 50
      · rw [if_pos h2]
        exact iff_of_false (by simp) (fun h => by omega)
      · rw [if_neg h2]
        by_cases h3 : usernameRegexMatch s = true
        · have hall := (hre.mp h3).2
          simp only [h3, Bool.not_true, Bool.false_eq_true, if_false]
          by_cases h4 : (HasPrefix s "-".toList || HasSuffix s "-".toList ||
              HasPrefix s "_".toList || HasSuffix s "_".toList) = true
          · rw [if_pos h4]
            refine iff_of_false (by simp) ?_
            rintro ⟨-, -, hh, ht⟩
            simp only [Bool.or_eq_true] at h4
            rcases h4 with ((h | h) | h) | h
            · exact hh.1 (hp1.mp h)
            · exact ht.1 (hs1.mp h)
            · exact hh.2 (hp2.mp h)
            · exact ht.2 (hs2.mp h)
          · rw [if_neg h4]
            simp only [true_iff]
            simp only [Bool.or_eq_true, not_or] at h4
            obtain ⟨⟨⟨a, b⟩, c⟩, d⟩ := h4
            exact ⟨⟨by omega, by omega⟩, hall,
              ⟨fun h => a (hp1.mpr h), fun h => c (hp2.mpr h)⟩,
              ⟨fun h => b (hs1.mpr h), fun h => d (hs2.mpr h)⟩⟩
        · have hnot : ¬ ∀ c ∈ s, ('a' ≤ c ∧ c ≤ 'z') ∨ ('A' ≤ c ∧ c ≤ 'Z') ∨
              ('0' ≤ c ∧ c ≤ '9') ∨ c = '-' ∨ c = '_' :=
            fun hall => h3 (hre.mpr ⟨h0, hall⟩)
          simp only [h3, Bool.not_false, if_true]
          exact iff_of_false (by simp) (fun h => hnot h.2.1)

/-- C29 on the inputs of `TestValidateUsername`: `test-user` is accepted; `a`,
`-testuser`, `testuser_`, `test user` and a text of 51 zero bytes are
rejected. -/
theorem C29_ValidateUsername_iff_witness :
    ValidateUsername "test-user".toList = none ∧
    ValidateUsername "a".toList ≠ none ∧
    ValidateUsername "-testuser".toList ≠ none ∧
    ValidateUsername "testuser_".toList ≠ none ∧
    ValidateUsername "test user".toList ≠ none ∧
    ValidateUsername (List.replicate 51 (Char.ofNat 0)) ≠ none :=
  ⟨(C29_ValidateUsername_iff "test-user".toList).mpr (by decide),
   fun h => absurd ((C29_ValidateUsername_iff "a".toList).mp h).1.1 (by decide),
   fun h => absurd ((C29_ValidateUsername_iff "-testuser".toList).mp h).2.2.1.1 (by decide),
   fun h => absurd ((C29_ValidateUsername_iff "testuser_".toList).mp h).2.2.2.2 (by decide),
   fun h => absurd ((C29_ValidateUsername_iff "test user".toList).mp h).2.1 (by decide),
   fun h => absurd ((C29_ValidateUsername_iff (List.replicate 51 (Char.ofNat 0))).mp h).1.2
     (by decide)⟩

/-! ## C30 -/

/-- C30: whatever `url.Parse` answers, `ValidateURL` returns an error for the
empty text, for every text longer than 500 bytes, for every text that does
not parse, for every URL whose scheme is neither `http` nor `https` (the
empty scheme included) and for every URL with an empty host; it accepts every
other text that parses: not empty, at most 500 bytes, scheme `http` or
`https`, host not empty. -/
theorem C30_ValidateURL (Parse : GoString → Except String URL) :
    ValidateURL Parse [] ≠ none ∧
    (∀ s : GoString, byteLen s > 500 → ValidateURL Parse s ≠ none) ∧
    (∀ (s : GoString) (err : String), Parse s = .error err → ValidateURL Parse s ≠ none) ∧
    (∀ (s : GoString) (u : URL), Parse s = .ok u →
      u.Scheme ≠ "http".toList → u.Scheme ≠ "https".toList → ValidateURL Parse s ≠ none) ∧
    (∀ (s : GoString) (u : URL), Parse s = .ok u → u.Host = [] →
      ValidateURL Parse s ≠ none) ∧
    (∀ (s : GoString) (u : URL), s ≠ [] → byteLen s ≤ 500 → Parse s = .ok u →
      (u.Scheme = "http".toList ∨ u.Scheme = "https".toList) → u.Host ≠ [] →
      ValidateURL Parse s = none) := by
  refine ⟨by simp [ValidateURL], ?_, ?_, ?_, ?_, ?_⟩
  · intro s h
    unfold ValidateURL
    split_ifs <;> simp
  · intro s err h
    unfold ValidateURL
    rw [h]
    split_ifs <;> simp
  · intro s u h h1 h2
    unfold ValidateURL
    rw [h]
    dsimp only
    by_cases a : s = []
    · rw [if_pos a]; simp
    · rw [if_neg a]
      by_cases b : byteLen s > 500
      · rw [if_pos b]; simp
      · rw [if_neg b, if_pos ⟨h1, h2⟩]; simp
  · intro s u h h1
    unfold ValidateURL
    rw [h]
    dsimp only
    by_cases a : s = []
    · rw [if_pos a]; simp
    · rw [if_neg a]
      by_cases b : byteLen s > 500
      · rw [if_pos b]; simp
      · rw [if_neg b]
        by_cases c : u.Scheme ≠ "http".toList ∧ u.Scheme ≠ "https".toList
        · rw [if_pos c]; simp
        · rw [if_neg c, if_pos h1]; simp
  · intro s u h0 h1 h h2 h3
    unfold ValidateURL
    rw [h, if_neg h0, if_neg (by omega)]
    dsimp only
    have hs : ¬ (u.Scheme ≠ "http".toList ∧ u.Scheme ≠ "https".toList) := by
      rintro ⟨a, b⟩
      rcases h2 with e | e
      · exact a e
      · exact b e
    rw [if_neg hs, if_neg h3]

/-- C30 on the inputs of `TestValidateURL`, with the answers of `url.Parse`
on them: the URL with path and query is accepted; the text without scheme,
the `ftp` URL, the URL without host and a text of 508 bytes are rejected. -/
theorem C30_ValidateURL_witness :
    ValidateURL testParse "https://example.com/path?query=1".toList = none ∧
    ValidateURL testParse "example.com".toList ≠ none ∧
    ValidateURL testParse "ftp://example.com".toList ≠ none ∧
    ValidateURL testParse "https://".toList ≠ none ∧
    ValidateURL testParse ("https://".toList ++ List.replicate 500 (Char.ofNat 0)) ≠ none :=
  ⟨(C30_ValidateURL testParse).2.2.2.2.2 "https://example.com/path?query=1".toList
      { Scheme := "https".toList, Host := "example.com".toList }
      (by decide) (by decide) rfl (Or.inr rfl) (by decide),
   (C30_ValidateURL testParse).2.2.2.1 "example.com".toList { Scheme := [], Host := [] }
      rfl (by decide) (by decide),
   (C30_ValidateURL testParse).2.2.2.1 "ftp://example.com".toList
      { Scheme := "ftp".toList, Host := "example.com".toList }
      rfl (by decide) (by decide),
   (C30_ValidateURL testParse).2.2.2.2.1 "https://".toList
      { Scheme := "https".toList, Host := [] } rfl rfl,
   (C30_ValidateURL testParse).2.1 _
     (lt_of_lt_of_le
       (by rw [List.length_append, List.length_replicate]
           exact Nat.lt_add_of_pos_left (by decide))
       (length_le_byteLen _))⟩

/-! ## C31 -/

/-- C31: `ValidateFullName` and `ValidateLinkName` each return an error for
`s` if and only if `s` is blank after trimming or longer than 100 bytes. -/
theorem C31_name_validators (s : GoString) :
    (ValidateFullName s ≠ none ↔ (TrimSpace s = [] ∨ byteLen s > 100)) ∧
    (ValidateLinkName s ≠ none ↔ (TrimSpace s = [] ∨ byteLen s > 100)) := by
  unfold ValidateFullName ValidateLinkName
  by_cases h1 : TrimSpace s = [] <;> by_cases h2 : byteLen s > 100 <;> simp [h1, h2]

/-- C31 on the inputs of the tests: `John` is accepted; the empty text, three
spaces and a text of 101 zero bytes are rejected. -/
theorem C31_name_validators_witness :
    (ValidateFullName "John".toList = none ∧ ValidateLinkName "My Website".toList = none) ∧
    (ValidateFullName [] ≠ none ∧ ValidateLinkName [] ≠ none) ∧
    (ValidateFullName "   ".toList ≠ none ∧ ValidateLinkName "   ".toList ≠ none) ∧
    (ValidateFullName (List.replicate 101 (Char.ofNat 0)) ≠ none ∧
      ValidateLinkName (List.replicate 101 (Char.ofNat 0)) ≠ none) :=
  ⟨⟨not_not.mp (fun h => absurd ((C31_name_validators "John".toList).1.mp h) (by decide)),
    not_not.mp (fun h => absurd ((C31_name_validators "My Website".toList).2.mp h)
      (by decide))⟩,
   ⟨(C31_name_validators []).1.mpr (Or.inl (by decide)),
    (C31_name_validators []).2.mpr (Or.inl (by decide))⟩,
   ⟨(C31_name_validators "   ".toList).1.mpr (Or.inl (by decide)),
    (C31_name_validators "   ".toList).2.mpr (Or.inl (by decide))⟩,
   ⟨(C31_name_validators (List.replicate 101 (Char.ofNat 0))).1.mpr (Or.inr (by decide)),
    (C31_name_validators (List.replicate 101 (Char.ofNat 0))).2.mpr (Or.inr (by decide))⟩⟩

/-! ## C32 -/

theorem mem_removeAll (old c : Char) (s : GoString) :
    c ∈ removeAll old s ↔ c ∈ s ∧ c ≠ old := by
  unfold removeAll
  simp [List.mem_filter]

/-- What `SanitizeInput` does ensure: the result has no NUL character and no
carriage return, and every character of it comes from the input. -/
theorem SanitizeInput_no_nul_cr (s : GoString) :
    Char.ofNat 0 ∉ SanitizeInput s ∧ '\r' ∉ SanitizeInput s ∧
      ∀ c ∈ SanitizeInput s, c ∈ s := by
  unfold SanitizeInput
  refine ⟨?_, ?_, ?_⟩
  · intro h
    have h1 := ((mem_removeAll _ _ _).mp h).1
    exact ((mem_removeAll _ _ _).mp h1).2 rfl
  · intro h
    exact ((mem_removeAll _ _ _).mp h).2 rfl
  · intro c h
    have h1 := ((mem_removeAll _ _ _).mp h).1
    have h2 := ((mem_removeAll _ _ _).mp h1).1
    unfold TrimSpace at h2
    exact (List.dropWhile_sublist _).subset
      ((List.rdropWhile_prefix isSpace _).sublist.subset h2)

/-- C32 fails on the code: the input made of a NUL character, a space and
`hello` is trimmed first (nothing to trim, NUL is no white space) and loses
its NUL afterwards, so the result starts with a space, and another pass
changes it; the same at the end of a text. -/
theorem C32_SanitizeInput_leaves_space :
    SanitizeInput (Char.ofNat 0 :: " hello".toList) = " hello".toList ∧
    (SanitizeInput (Char.ofNat 0 :: " hello".toList)).head?.map isSpace = some true ∧
    SanitizeInput (SanitizeInput (Char.ofNat 0 :: " hello".toList)) = "hello".toList ∧
    SanitizeInput (SanitizeInput (Char.ofNat 0 :: " hello".toList)) ≠
      SanitizeInput (Char.ofNat 0 :: " hello".toList) ∧
    SanitizeInput ("hello ".toList ++ ['\r', Char.ofNat 0]) = "hello ".toList ∧
    SanitizeInput ("hello ".toList ++ [Char.ofNat 0]) = "hello ".toList ∧
    (SanitizeInput "  hello world  ".toList = "hello world".toList ∧
      SanitizeInput ("hello".toList ++ Char.ofNat 0 :: "world".toList) = "helloworld".toList ∧
      SanitizeInput "   ".toList = []) := by
  refine ⟨by decide, by decide, by decide, by decide, by decide, by decide,
    by decide, by decide, by decide⟩

/-! ## C33 -/

theorem replaceChars_append (pairs : List (Char × GoString)) (a b : GoString) :
    replaceChars pairs (a ++ b) = replaceChars pairs a ++ replaceChars pairs b := by
  unfold replaceChars
  exact List.flatMap_append _ _ _

theorem SanitizeHTML_eq_escape (s : GoString) : SanitizeHTML s = s.flatMap escapeChar := by
  unfold SanitizeHTML replaceChars
  congr 1
  funext c
  unfold escapeChar
  by_cases h1 : c = '<'
  · subst h1; rfl
  · by_cases h2 : c = '>'
    · subst h2; rfl
    · by_cases h3 : c = '&'
      · subst h3; rfl
      · by_cases h4 : c = Char.ofNat 34
        · subst h4; rfl
        · by_cases h5 : c = Char.ofNat 39
          · subst h5; rfl
          · have e1 : (c == '<') = false := by simpa using h1
            have e2 : (c == '>') = false := by simpa using h2
            have e3 : (c == '&') = false := by simpa using h3
            have e4 : (c == Char.ofNat 34) = false := by simpa using h4
            have e5 : (c == Char.ofNat 39) = false := by simpa using h5
            simp only [List.lookup, e1, e2, e3, e4, e5]
            rw [if_neg h1, if_neg h2, if_neg h3, if_neg h4, if_neg h5]

theorem escapeChar_clean (c d : Char) (h : d ∈ escapeChar c) :
    d ≠ '<' ∧ d ≠ '>' ∧ d ≠ Char.ofNat 34 ∧ d ≠ Char.ofNat 39 := by
  unfold escapeChar at h
  split_ifs at h with h1 h2 h3 h4 h5
  · revert d; decide
  · revert d; decide
  · revert d; decide
  · revert d; decide
  · revert d; decide
  · simp only [List.mem_singleton] at h
    subst h
    exact ⟨h1, h2, h4, h5⟩

/-- C33: `SanitizeHTML` returns the concatenation of the escapes of the
characters of its input, one escape per character in order (so a `&` that an
escape brings in is not escaped again); the result has no `<`, `>`, double
quote or single quote; and `SanitizeHTML` of a concatenation is the
concatenation of the results. -/
theorem C33_SanitizeHTML (a b : GoString) :
    SanitizeHTML a = a.flatMap escapeChar ∧
    (∀ d ∈ SanitizeHTML a, d ≠ '<' ∧ d ≠ '>' ∧ d ≠ Char.ofNat 34 ∧ d ≠ Char.ofNat 39) ∧
    SanitizeHTML (a ++ b) = SanitizeHTML a ++ SanitizeHTML b := by
  refine ⟨SanitizeHTML_eq_escape a, ?_, replaceChars_append _ a b⟩
  intro d hd
  rw [SanitizeHTML_eq_escape, List.mem_flatMap] at hd
  obtain ⟨c, -, hc⟩ := hd
  exact escapeChar_clean c d hc

/-- C33 on the inputs of `TestSanitizeHTML`. -/
theorem C33_SanitizeHTML_witness :
    SanitizeHTML "hello <script>alert(\x27xss\x27)</script>".toList =
      "hello &lt;script&gt;alert(&#39;xss&#39;)&lt;/script&gt;".toList ∧
    SanitizeHTML "hello & world".toList = "hello &amp; world".toList ∧
    SanitizeHTML "hello \"world\"".toList = "hello &quot;world&quot;".toList ∧
    SanitizeHTML "&lt;".toList = "&amp;lt;".toList ∧
    SanitizeHTML ("a<".toList ++ "b>".toList) =
      SanitizeHTML "a<".toList ++ SanitizeHTML "b>".toList :=
  ⟨by decide, by decide, by decide, by decide,
   (C33_SanitizeHTML "a<".toList "b>".toList).2.2⟩

/-! ## C36 -/

/-- C36: every form reachable from `newFormModel` by the operations of the
form has its focus index in range, `0 ≤ focusIndex < len(inputs)`, so the
field at the focus index exists and `nextField`, `prevField` and
`deleteCurrentLink` do not index out of range. -/
theorem C36_focus_in_range (edit : KeyEdit) (f : formModel) (h : Reachable edit f) :
    0 ≤ f.focusIndex ∧ f.focusIndex < (f.inputs.length : Int) ∧
    (∃ m, goIndex f.inputs f.focusIndex = some m) ∧
    (∃ g, f.nextField = some g) ∧ (∃ g, f.prevField = some g) ∧
    (∃ g, f.deleteCurrentLink = some g) := by
  obtain ⟨⟨k, hk⟩, h0, h1⟩ := reachable_invariant edit f h
  obtain ⟨hd, hn, hp⟩ := operations_defined f k hk h0 h1
  refine ⟨h0, h1, ?_, hn, hp, hd⟩
  unfold goIndex
  rw [if_pos h0]
  have hlt : f.focusIndex.toNat < f.inputs.length := by omega
  exact ⟨f.inputs[f.focusIndex.toNat], List.getElem?_eq_getElem hlt⟩

/-- C36 on the form left by `clearLinks` after a key and `addLink`. -/
theorem C36_focus_in_range_witness :
    Reachable appendKey
      (((newFormModel.Update appendKey ⟨"a"⟩).addLink "n".toList "u".toList).clearLinks) ∧
    (((newFormModel.Update appendKey ⟨"a"⟩).addLink "n".toList "u".toList).clearLinks).focusIndex
      = 0 ∧
    (((newFormModel.Update appendKey ⟨"a"⟩).addLink "n".toList
      "u".toList).clearLinks).inputs.length = 3 ∧
    (∃ g, (((newFormModel.Update appendKey ⟨"a"⟩).addLink "n".toList
      "u".toList).clearLinks).nextField = some g) :=
  ⟨Reachable.clearLinks (Reachable.addLink _ _ (Reachable.Update _ Reachable.init)),
   by decide, by decide,
   (C36_focus_in_range appendKey _
     (Reachable.clearLinks (Reachable.addLink _ _ (Reachable.Update _ Reachable.init)))).2.2.2.1⟩

/-! ## Focus flags -/

theorem focusAt_iff (f : formModel) :
    FocusAt f ↔ 0 ≤ f.focusIndex ∧ f.focusIndex < (f.inputs.length : Int) ∧
      FlagsAt f.inputs f.focusIndex := by
  unfold FocusAt FlagsAt
  constructor
  · rintro ⟨h0, h1, h⟩
    exact ⟨h0, h1, fun j m hj => h (j, m) (List.mk_mem_enum_iff_getElem?.mpr hj)⟩
  · rintro ⟨h0, h1, h⟩
    refine ⟨h0, h1, ?_⟩
    rintro ⟨j, m⟩ hp
    exact h j m (List.mk_mem_enum_iff_getElem?.mp hp)

theorem SetValue_focus (m : textinput.Model) (s : GoString) :
    (m.SetValue s).focus = m.focus := by
  unfold textinput.Model.SetValue
  dsimp only
  split_ifs <;> rfl

theorem flagsAt_append (l r : List textinput.Model) (k : Int) (h : FlagsAt l k)
    (hk : k < (l.length : Int)) (hr : ∀ m ∈ r, m.focus = false) : FlagsAt (l ++ r) k := by
  intro j m hj
  by_cases hlt : j < l.length
  · rw [List.getElem?_append_left hlt] at hj
    exact h j m hj
  · rw [List.getElem?_append_right (by omega)] at hj
    have hm : m ∈ r := List.mem_iff_getElem?.mpr ⟨_, hj⟩
    constructor
    · intro hf
      rw [hr m hm] at hf
      cases hf
    · intro hjk
      omega

theorem flagsAt_take (l : List textinput.Model) (k : Int) (n : Nat) (h : FlagsAt l k) :
    FlagsAt (l.take n) k := by
  intro j m hj
  rw [List.getElem?_take] at hj
  split_ifs at hj
  exact h j m hj

theorem flagsAt_modify (l : List textinput.Model) (k : Int) (n : Nat)
    (g : textinput.Model → textinput.Model) (hg : ∀ m, (g m).focus = m.focus)
    (h : FlagsAt l k) : FlagsAt (l.modify g n) k := by
  intro j m hj
  rw [List.getElem?_modify] at hj
  cases hl : l[j]? with
  | none => rw [hl] at hj; cases hj
  | some a =>
    rw [hl] at hj
    simp only [Option.map_eq_map, Option.map_some', Option.some.injEq] at hj
    subst hj
    split_ifs
    · rw [hg]; exact h j a hl
    · exact h j a hl

theorem flagsAt_move (l : List textinput.Model) (i j : Nat) (hij : i ≠ j)
    (hi : i < l.length) (hj : j < l.length) (h : FlagsAt l (i : Int)) :
    FlagsAt ((l.modify textinput.Model.Blur i).modify textinput.Model.Focus j) (j : Int) := by
  obtain ⟨-, -, hbi, hfj, hrest⟩ := focus_move l i j hij hi hj
  intro n m hn
  by_cases hnj : n = j
  · subst hnj
    rw [hn] at hfj
    simp only [Option.map_some', Option.some.injEq] at hfj
    simp [hfj]
  · by_cases hni : n = i
    · subst hni
      rw [hn] at hbi
      simp only [Option.map_some', Option.some.injEq] at hbi
      constructor
      · intro hf; rw [hbi] at hf; cases hf
      · intro hc; omega
    · rw [hrest n hni hnj] at hn
      have := h n m hn
      constructor
      · intro hf; have := this.mp hf; omega
      · intro hc; omega

theorem deleteCurrentLink_fixed (f : formModel) (h : f.focusIndex < 3) :
    f.deleteCurrentLink = some f := by
  unfold formModel.deleteCurrentLink
  dsimp only
  by_cases h3 : f.inputs.length ≤ 3
  · rw [if_pos h3]
  · rw [if_neg h3, scanLinkIndex_of_lt _ _ _ 3 (by push_cast; exact h)]
    rfl

theorem populateFromUser_focusIndex_fixed (f : formModel) (user : User)
    (h : f.focusIndex < 3) : (f.populateFromUser user).focusIndex = f.focusIndex := by
  unfold formModel.populateFromUser
  rw [foldl_addLink_focusIndex]
  unfold formModel.clearLinks
  dsimp only
  split_ifs
  all_goals first
    | rfl
    | (exfalso; simp only [List.length_take, List.length_modify] at *; omega)

theorem focusKept_reachable (edit : KeyEdit) (f : formModel) (h : FocusKept f) :
    Reachable edit f := by
  induction h with
  | init => exact Reachable.init
  | addLink name url _ ih => exact Reachable.addLink name url ih
  | nextField _ hg ih => exact Reachable.nextField ih hg
  | prevField _ hg ih => exact Reachable.prevField ih hg
  | populateFromUser user _ _ ih => exact Reachable.populateFromUser user ih
  | deleteCurrentLink _ _ hg ih => exact Reachable.deleteCurrentLink ih hg

theorem focusKept_focusAt (f : formModel) (h : FocusKept f) : FocusAt f := by
  induction h with
  | init => decide
  | @addLink f name url _ ih =>
    rw [focusAt_iff] at ih ⊢
    obtain ⟨h0, h1, hfl⟩ := ih
    refine ⟨h0, ?_, ?_⟩
    · rw [addLink_length, addLink_focusIndex]; push_cast; omega
    · rw [addLink_inputs, addLink_focusIndex]
      apply flagsAt_append _ _ _ hfl h1
      intro m hm
      simp only [List.mem_cons, List.mem_singleton, List.not_mem_nil, or_false] at hm
      rcases hm with hm | hm <;> rw [hm, SetValue_focus] <;> rfl
  | @nextField f g _ hg ih =>
    rw [focusAt_iff] at ih ⊢
    obtain ⟨h0, h1, hfl⟩ := ih
    unfold formModel.nextField at hg
    dsimp only at hg
    split_ifs at hg with h2
    · simp only [Option.some.injEq] at hg
      subst hg
      dsimp only
      refine ⟨by omega, by simp only [List.length_modify]; omega, ?_⟩
      have e1 : ((f.focusIndex.toNat : Nat) : Int) = f.focusIndex := Int.toNat_of_nonneg h0
      have e2 : (((f.focusIndex + 1).toNat : Nat) : Int) = f.focusIndex + 1 :=
        Int.toNat_of_nonneg (by omega)
      rw [← e2]
      apply flagsAt_move _ _ _ (by omega) (by omega) (by omega)
      rw [e1]; exact hfl
    · simp only [Option.some.injEq] at hg
      subst hg
      exact ⟨h0, h1, hfl⟩
  | @prevField f g _ hg ih =>
    rw [focusAt_iff] at ih ⊢
    obtain ⟨h0, h1, hfl⟩ := ih
    unfold formModel.prevField at hg
    dsimp only at hg
    split_ifs at hg with h2
    · simp only [Option.some.injEq] at hg
      subst hg
      dsimp only
      refine ⟨by omega, by simp only [List.length_modify]; omega, ?_⟩
      have e1 : ((f.focusIndex.toNat : Nat) : Int) = f.focusIndex := Int.toNat_of_nonneg h0
      have e2 : (((f.focusIndex - 1).toNat : Nat) : Int) = f.focusIndex - 1 :=
        Int.toNat_of_nonneg (by omega)
      rw [← e2]
      apply flagsAt_move _ _ _ (by omega) (by omega) (by omega)
      rw [e1]; exact hfl
    · simp only [Option.some.injEq] at hg
      subst hg
      exact ⟨h0, h1, hfl⟩
  | @populateFromUser f user hf hlt ih =>
    obtain ⟨⟨k, hk⟩, -, -⟩ := reachable_invariant appendKey f (focusKept_reachable appendKey f hf)
    have h3 : 3 ≤ f.inputs.length := by omega
    rw [focusAt_iff] at ih ⊢
    obtain ⟨h0, h1, hfl⟩ := ih
    rw [populateFromUser_focusIndex_fixed f user hlt]
    refine ⟨h0, ?_, ?_⟩
    · rw [populateFromUser_length f user h3]; push_cast; omega
    · rw [populateFromUser_inputs f user h3]
      apply flagsAt_append
      · apply flagsAt_take
        apply flagsAt_modify _ _ _ _ (fun m => SetValue_focus m _)
        apply flagsAt_modify _ _ _ _ (fun m => SetValue_focus m _)
        apply flagsAt_modify _ _ _ _ (fun m => SetValue_focus m _)
        exact hfl
      · simp only [List.length_take, List.length_modify]
        omega
      · intro m hm
        rw [List.mem_flatMap] at hm
        obtain ⟨link, -, hm⟩ := hm
        simp only [List.mem_cons, List.mem_singleton, List.not_mem_nil, or_false] at hm
        rcases hm with hm | hm <;> rw [hm, SetValue_focus] <;> rfl
  | @deleteCurrentLink f g _ hlt hg ih =>
    rw [deleteCurrentLink_fixed f hlt] at hg
    simp only [Option.some.injEq] at hg
    subst hg
    exact ih

/-! ## The focus flags after `View` -/

theorem modify_viewFlag (k : Int) (i : Nat) (l : List textinput.Model) :
    (if (i : Int) = k then l.modify textinput.Model.Focus i
      else l.modify textinput.Model.Blur i) = l.modify (viewFlag k i) i := by
  by_cases h : (i : Int) = k
  · rw [if_pos h]
    congr 1
    funext m
    unfold viewFlag
    rw [if_pos h]
  · rw [if_neg h]
    congr 1
    funext m
    unfold viewFlag
    rw [if_neg h]

theorem modify_viewFlag_succ (k : Int) (i : Nat) (l : List textinput.Model) :
    (if (i : Int) + 1 = k then l.modify textinput.Model.Focus (i + 1)
      else l.modify textinput.Model.Blur (i + 1)) = l.modify (viewFlag k (i + 1)) (i + 1) := by
  by_cases h : (i : Int) + 1 = k
  · rw [if_pos h]
    congr 1
    funext m
    unfold viewFlag
    rw [if_pos (by push_cast; exact h)]
  · rw [if_neg h]
    congr 1
    funext m
    unfold viewFlag
    rw [if_neg (by push_cast; exact h)]

theorem viewFixedFields_getElem? (k : Int) (fuel i : Nat) (l : List textinput.Model)
    (j : Nat) :
    (viewFixedFields k fuel i l)[j]? =
      if i ≤ j ∧ j < i + fuel ∧ j < 3 then l[j]?.map (viewFlag k j) else l[j]? := by
  induction fuel generalizing i l with
  | zero =>
    unfold viewFixedFields
    rw [if_neg (by omega)]
  | succ fuel ih =>
    unfold viewFixedFields
    by_cases hc : i < 3 ∧ i < l.length
    · rw [if_pos hc]
      dsimp only
      rw [modify_viewFlag, ih, List.getElem?_modify]
      by_cases hij : i = j
      · subst hij
        rw [if_neg (by omega), if_pos (by omega)]
        cases l[i]? <;> simp
      · have hcond : (i + 1 ≤ j ∧ j < i + 1 + fuel ∧ j < 3) ↔
            (i ≤ j ∧ j < i + (fuel + 1) ∧ j < 3) := by omega
        rw [if_congr hcond rfl rfl]
        have hsame : ((fun a => if i = j then viewFlag k i a else a) <$> l[j]?) = l[j]? := by
          cases l[j]? <;> simp [hij]
        rw [hsame]
    · rw [if_neg hc]
      by_cases hcond : i ≤ j ∧ j < i + (fuel + 1) ∧ j < 3
      · rw [if_pos hcond, List.getElem?_eq_none (by omega)]
        rfl
      · rw [if_neg hcond]

theorem viewLinkFields_getElem? (k : Int) (fuel i : Nat) (l : List textinput.Model)
    (r j : Nat) (hlen : l.length = i + 2 * r) (hr : r ≤ fuel) :
    (viewLinkFields k fuel i l)[j]? =
      if i ≤ j then l[j]?.map (viewFlag k j) else l[j]? := by
  induction fuel generalizing i l r with
  | zero =>
    unfold viewLinkFields
    by_cases hij : i ≤ j
    · rw [if_pos hij, List.getElem?_eq_none (by omega)]
      rfl
    · rw [if_neg hij]
  | succ fuel ih =>
    unfold viewLinkFields
    by_cases h1 : i < l.length
    · rw [if_pos h1, if_neg (by omega)]
      dsimp only
      rw [modify_viewFlag, modify_viewFlag_succ,
        ih (i + 2) _ (r - 1) (by simp only [List.length_modify]; omega) (by omega),
        List.getElem?_modify, List.getElem?_modify]
      by_cases hj0 : j = i
      · subst hj0
        rw [if_neg (by omega), if_pos (le_refl _)]
        cases l[j]? <;> simp
      · by_cases hj1 : j = i + 1
        · subst hj1
          rw [if_neg (by omega), if_pos (by omega)]
          cases l[i + 1]? <;> simp
        · have hsame : ((fun a => if i + 1 = j then viewFlag k (i + 1) a else a) <$>
              ((fun a => if i = j then viewFlag k i a else a) <$> l[j]?)) = l[j]? := by
            have e0 : ¬ i = j := fun e => hj0 e.symm
            have e1 : ¬ i + 1 = j := fun e => hj1 e.symm
            cases l[j]? <;> simp [e0, e1]
          rw [hsame]
          have hcond : (i + 2 ≤ j) ↔ (i ≤ j) := by omega
          rw [if_congr hcond rfl rfl]
    · rw [if_neg h1]
      by_cases hij : i ≤ j
      · rw [if_pos hij, List.getElem?_eq_none (by omega)]
        rfl
      · rw [if_neg hij]

theorem viewFixedFields_length (k : Int) (fuel i : Nat) (l : List textinput.Model) :
    (viewFixedFields k fuel i l).length = l.length := by
  induction fuel generalizing i l with
  | zero => rfl
  | succ fuel ih =>
    unfold viewFixedFields
    dsimp only
    split_ifs <;> simp [ih]

theorem viewLinkFields_length (k : Int) (fuel i : Nat) (l : List textinput.Model) :
    (viewLinkFields k fuel i l).length = l.length := by
  induction fuel generalizing i l with
  | zero => rfl
  | succ fuel ih =>
    unfold viewLinkFields
    dsimp only
    split_ifs <;> simp [ih]

/-- On a form of `3 + 2k` fields, `View` leaves at every index the old field
with `Focus()` or `Blur()` applied, `Focus()` at the focus index only. -/
theorem View_getElem? (f : formModel) (r : Nat) (hlen : f.inputs.length = 3 + 2 * r)
    (j : Nat) : f.View.inputs[j]? = f.inputs[j]?.map (viewFlag f.focusIndex j) := by
  unfold formModel.View
  dsimp only
  rw [viewLinkFields_getElem? f.focusIndex f.inputs.length 3 _ r j
    (by rw [viewFixedFields_length]; exact hlen) (by omega), viewFixedFields_getElem?]
  by_cases h3 : 3 ≤ j
  · rw [if_pos h3, if_neg (by omega)]
  · rw [if_neg h3, if_pos (by omega)]

theorem View_length (f : formModel) : f.View.inputs.length = f.inputs.length := by
  unfold formModel.View
  dsimp only
  rw [viewLinkFields_length, viewFixedFields_length]

theorem Update_getElem? (edit : KeyEdit) (f : formModel) (msg : KeyMsg) (j : Nat) :
    (f.Update edit msg).inputs[j]? =
      f.inputs[j]?.map fun m => if (j : Int) = f.focusIndex then m.Update edit msg else m := by
  simp only [formModel.Update, List.getElem?_map, List.getElem?_enum]
  cases f.inputs[j]? <;> rfl

/-- On a form whose flags agree with the focus index, a key event reaches the
editing behaviour of the field at the focus index. -/
theorem focusAt_key (edit : KeyEdit) (f : formModel) (msg : KeyMsg) (h : FocusAt f) :
    (f.Update edit msg).inputs = f.inputs.modify (edit msg) f.focusIndex.toNat := by
  obtain ⟨h0, -, hfl⟩ := (focusAt_iff f).mp h
  apply List.ext_getElem?
  intro j
  rw [Update_getElem?, List.getElem?_modify]
  cases hl : f.inputs[j]? with
  | none => rfl
  | some m =>
    simp only [Option.map_some', Option.map_eq_map, Option.some.injEq]
    by_cases hj : (j : Int) = f.focusIndex
    · have hfocus : m.focus = true := (hfl j m hl).mpr hj
      rw [if_pos hj, if_pos (by omega)]
      unfold textinput.Model.Update
      simp [hfocus]
    · rw [if_neg hj, if_neg (by omega)]

theorem View_focusAt (f : formModel) (r : Nat) (hlen : f.inputs.length = 3 + 2 * r)
    (h0 : 0 ≤ f.focusIndex) (h1 : f.focusIndex < (f.inputs.length : Int)) :
    FocusAt f.View := by
  rw [focusAt_iff]
  refine ⟨h0, by rw [View_length]; exact h1, ?_⟩
  intro j m hj
  rw [View_getElem? f r hlen] at hj
  cases hl : f.inputs[j]? with
  | none => rw [hl] at hj; cases hj
  | some a =>
    rw [hl] at hj
    simp only [Option.map_some', Option.some.injEq] at hj
    subst hj
    unfold viewFlag
    have hv : f.View.focusIndex = f.focusIndex := rfl
    rw [hv]
    by_cases hc : (j : Int) = f.focusIndex
    · rw [if_pos hc]
      exact iff_of_true rfl hc
    · rw [if_neg hc]
      exact iff_of_false (by simp [textinput.Model.Blur]) hc

theorem View_values (f : formModel) (r : Nat) (hlen : f.inputs.length = 3 + 2 * r) :
    f.View.inputs.map textinput.Model.Value = f.inputs.map textinput.Model.Value := by
  apply List.ext_getElem?
  intro j
  rw [List.getElem?_map, List.getElem?_map, View_getElem? f r hlen]
  cases f.inputs[j]? with
  | none => rfl
  | some a =>
    simp only [Option.map_some', Option.some.injEq]
    unfold viewFlag
    split_ifs <;> rfl

theorem stepsToDelete_reachable (edit : KeyEdit) : Reachable edit formAfterDelete := by
  have h : stepsToDelete = some formAfterDelete := by decide
  unfold stepsToDelete at h
  obtain ⟨g3, h3, hd⟩ := Option.bind_eq_some.mp h
  obtain ⟨g2, h2, hn3⟩ := Option.bind_eq_some.mp h3
  obtain ⟨g1, hn1, hn2⟩ := Option.bind_eq_some.mp h2
  exact Reachable.deleteCurrentLink
    (Reachable.nextField (Reachable.nextField (Reachable.nextField Reachable.init hn1) hn2) hn3)
    hd

/-- A form without a focused field ignores a key event. -/
theorem Update_unfocused (edit : KeyEdit) (f : formModel) (msg : KeyMsg)
    (h : ∀ m ∈ f.inputs, m.focus = false) : f.Update edit msg = f := by
  have hin : (f.Update edit msg).inputs = f.inputs := by
    apply List.ext_getElem?
    intro j
    rw [Update_getElem?]
    cases hl : f.inputs[j]? with
    | none => rfl
    | some m =>
      have hm : m.focus = false := h m (List.mem_iff_getElem?.mpr ⟨j, hl⟩)
      simp only [Option.map_some', Option.some.injEq]
      split_ifs
      · unfold textinput.Model.Update
        simp [hm]
      · rfl
  have hrec : f.Update edit msg = { f with inputs := (f.Update edit msg).inputs } := rfl
  rw [hrec, hin]

/-- When exactly the field at the focus index is focused, a `deleteCurrentLink`
that removes a pair removes the focused field: no field is focused after it. -/
theorem deleteCurrentLink_unfocused (f g : formModel) (hf : FocusAt f)
    (hd : f.deleteCurrentLink = some g) (hlen : g.inputs.length ≠ f.inputs.length) :
    ∀ m ∈ g.inputs, m.focus = false := by
  obtain ⟨h0, h1, hfl⟩ := (focusAt_iff f).mp hf
  have hout : ∀ (r : Nat), (f.focusIndex = (r : Int) ∨ f.focusIndex = (r : Int) + 1) →
      ∀ m ∈ f.inputs.take r ++ f.inputs.drop (r + 2), m.focus = false := by
    intro r hr m hm
    rw [Bool.eq_false_iff]
    intro hfocus
    rcases List.mem_append.mp hm with hm | hm
    · obtain ⟨j, hj⟩ := List.mem_iff_getElem?.mp hm
      rw [List.getElem?_take] at hj
      split_ifs at hj with hjr
      have := (hfl j m hj).mp hfocus
      omega
    · obtain ⟨j, hj⟩ := List.mem_iff_getElem?.mp hm
      rw [List.getElem?_drop] at hj
      have := (hfl (r + 2 + j) m hj).mp hfocus
      omega
  unfold formModel.deleteCurrentLink at hd
  dsimp only at hd
  split_ifs at hd with h3 h4 h5 h6
  · simp only [Option.some.injEq] at hd
    subst hd
    exact absurd rfl hlen
  · rcases scanLinkIndex_cases f.inputs.length f.focusIndex f.inputs.length 3 with
      e | ⟨r, e, -, -, hr⟩
    · exact absurd e h4
    · simp only [e] at hd
      simp only [Option.some.injEq] at hd
      subst hd
      have e1 : ((r : Int)).toNat = r := Int.toNat_ofNat r
      have e2 : ((r : Int) + 2).toNat = r + 2 := by omega
      dsimp only
      rw [e1, e2]
      exact hout r hr
  · rcases scanLinkIndex_cases f.inputs.length f.focusIndex f.inputs.length 3 with
      e | ⟨r, e, -, -, hr⟩
    · exact absurd e h4
    · simp only [e] at hd
      simp only [Option.some.injEq] at hd
      subst hd
      have e1 : ((r : Int)).toNat = r := Int.toNat_ofNat r
      have e2 : ((r : Int) + 2).toNat = r + 2 := by omega
      dsimp only
      rw [e1, e2]
      exact hout r hr
  · simp only [Option.some.injEq] at hd
    subst hd
    exact absurd rfl hlen

/-- When exactly the field at the focus index is focused and it is a link
field, `populateFromUser` drops it: no field is focused after it. -/
theorem populateFromUser_unfocused (f : formModel) (user : User) (hf : FocusAt f)
    (h3 : 3 ≤ f.focusIndex) : ∀ m ∈ (f.populateFromUser user).inputs, m.focus = false := by
  obtain ⟨h0, h1, hfl⟩ := (focusAt_iff f).mp hf
  intro m hm
  rw [populateFromUser_inputs f user (by omega)] at hm
  rcases List.mem_append.mp hm with hm | hm
  · rw [Bool.eq_false_iff]
    intro hfocus
    obtain ⟨j, hj⟩ := List.mem_iff_getElem?.mp hm
    rw [List.getElem?_take] at hj
    split_ifs at hj with hj3
    have hfl3 := flagsAt_modify _ f.focusIndex 2 (fun m => m.SetValue user.About)
      (fun m => SetValue_focus m _)
      (flagsAt_modify _ f.focusIndex 1 (fun m => m.SetValue user.Username)
        (fun m => SetValue_focus m _)
        (flagsAt_modify _ f.focusIndex 0 (fun m => m.SetValue user.FullName)
          (fun m => SetValue_focus m _) hfl))
    have := (hfl3 j m hj).mp hfocus
    omega
  · rw [List.mem_flatMap] at hm
    obtain ⟨link, -, hm⟩ := hm
    simp only [List.mem_cons, List.mem_singleton, List.not_mem_nil, or_false] at hm
    rcases hm with hm | hm <;> rw [hm, SetValue_focus] <;> rfl

/-! ## C37 -/

/-- C37 does not hold for `deleteCurrentLink` and `populateFromUser`: after
`newFormModel`, three times `nextField` and `deleteCurrentLink`, the form has
three fields, focus index 2 and no focused field, and a key event leaves it
as it is; the same after `populateFromUser` in place of `deleteCurrentLink`
(five fields, focus index 2, none focused). -/
theorem C37_focus_flags_counterexample :
    (stepsToDelete = some formAfterDelete ∧ formAfterDelete.inputs.length = 3 ∧
      formAfterDelete.focusIndex = 2 ∧
      (formAfterDelete.inputs.all fun m => !m.focus) = true ∧ ¬ FocusAt formAfterDelete ∧
      formAfterDelete.Update appendKey ⟨"a"⟩ = formAfterDelete) ∧
    (stepsToPopulate = some formAfterPopulate ∧ formAfterPopulate.inputs.length = 5 ∧
      formAfterPopulate.focusIndex = 2 ∧
      (formAfterPopulate.inputs.all fun m => !m.focus) = true ∧ ¬ FocusAt formAfterPopulate ∧
      formAfterPopulate.Update appendKey ⟨"a"⟩ = formAfterPopulate) := by
  refine ⟨⟨by decide, by decide, by decide, by decide, by decide, by decide⟩,
    ⟨by decide, by decide, by decide, by decide, by decide, by decide⟩⟩

/-- C37 (amended): on every form reachable from `newFormModel` by `addLink`,
`nextField` and `prevField`, and by `populateFromUser` and `deleteCurrentLink`
applied while the focus is on one of the three fixed fields, exactly the field
at the focus index is focused, and a key event passed to `Update` is edited
into that field. On every form reachable by any operation of the form, the
same holds once `View()` has run: `View` keeps the focus index and the values
and leaves exactly the field at the focus index focused. On a form where
exactly the field at the focus index is focused, a `deleteCurrentLink` that
removes a pair, and a `populateFromUser` applied while the focus is on a link
field, leave a form without a focused field, which ignores a key event. -/
theorem C37_focus_flags (edit : KeyEdit) (f : formModel) (msg : KeyMsg) :
    (FocusKept f →
      FocusAt f ∧
      (f.Update edit msg).inputs = f.inputs.modify (edit msg) f.focusIndex.toNat) ∧
    (Reachable edit f →
      FocusAt f.View ∧ f.View.focusIndex = f.focusIndex ∧
      f.View.inputs.map textinput.Model.Value = f.inputs.map textinput.Model.Value ∧
      (f.View.Update edit msg).inputs =
        f.View.inputs.modify (edit msg) f.focusIndex.toNat) ∧
    (FocusAt f → ∀ g : formModel, f.deleteCurrentLink = some g →
      g.inputs.length ≠ f.inputs.length →
      (∀ m ∈ g.inputs, m.focus = false) ∧ g.Update edit msg = g) ∧
    (FocusAt f → 3 ≤ f.focusIndex → ∀ user : User,
      (∀ m ∈ (f.populateFromUser user).inputs, m.focus = false) ∧
      (f.populateFromUser user).Update edit msg = f.populateFromUser user) := by
  refine ⟨?_, ?_, ?_, ?_⟩
  · intro h
    exact ⟨focusKept_focusAt f h, focusAt_key edit f msg (focusKept_focusAt f h)⟩
  · intro h
    obtain ⟨⟨k, hk⟩, h0, h1⟩ := reachable_invariant edit f h
    have hv := View_focusAt f k hk h0 h1
    exact ⟨hv, rfl, View_values f k hk, focusAt_key edit f.View msg hv⟩
  · intro hf g hd hlen
    have hun := deleteCurrentLink_unfocused f g hf hd hlen
    exact ⟨hun, Update_unfocused edit g msg hun⟩
  · intro hf h3 user
    have hun := populateFromUser_unfocused f user hf h3
    exact ⟨hun, Update_unfocused edit _ msg hun⟩

/-- C37 (amended) on a freshly populated form with a link added, on the form
left by `deleteCurrentLink`, and on the form with the focus on a link field
before `deleteCurrentLink` and `populateFromUser`. -/
theorem C37_focus_flags_witness :
    (FocusKept ((newFormModel.populateFromUser (profileOf "Ada" "ada" "" [])).addLink
        "web".toList "https://a.io".toList) ∧
      Reachable appendKey formAfterDelete) ∧
    (FocusAt ((newFormModel.populateFromUser (profileOf "Ada" "ada" "" [])).addLink
        "web".toList "https://a.io".toList) ∧
      (((newFormModel.populateFromUser (profileOf "Ada" "ada" "" [])).addLink
        "web".toList "https://a.io".toList).Update appendKey ⟨"x"⟩).inputs =
        ((newFormModel.populateFromUser (profileOf "Ada" "ada" "" [])).addLink
          "web".toList "https://a.io".toList).inputs.modify (appendKey ⟨"x"⟩)
          ((newFormModel.populateFromUser (profileOf "Ada" "ada" "" [])).addLink
            "web".toList "https://a.io".toList).focusIndex.toNat) ∧
    (FocusAt formAfterDelete.View ∧ formAfterDelete.View.focusIndex = formAfterDelete.focusIndex ∧
      formAfterDelete.View.inputs.map textinput.Model.Value =
        formAfterDelete.inputs.map textinput.Model.Value ∧
      (formAfterDelete.View.Update appendKey ⟨"x"⟩).inputs =
        formAfterDelete.View.inputs.modify (appendKey ⟨"x"⟩) formAfterDelete.focusIndex.toNat) ∧
    (FocusAt formOnLink ∧ formOnLink.focusIndex = 3 ∧
      formOnLink.deleteCurrentLink = some formAfterDelete ∧
      formAfterDelete.inputs.length ≠ formOnLink.inputs.length) ∧
    ((∀ m ∈ formAfterDelete.inputs, m.focus = false) ∧
      formAfterDelete.Update appendKey ⟨"x"⟩ = formAfterDelete) ∧
    ((∀ m ∈ (formOnLink.populateFromUser profileWithTabs).inputs, m.focus = false) ∧
      (formOnLink.populateFromUser profileWithTabs).Update appendKey ⟨"x"⟩ =
        formOnLink.populateFromUser profileWithTabs) :=
  ⟨⟨FocusKept.addLink _ _ (FocusKept.populateFromUser _ FocusKept.init (by decide)),
    stepsToDelete_reachable appendKey⟩,
   (C37_focus_flags appendKey _ ⟨"x"⟩).1
     (FocusKept.addLink _ _ (FocusKept.populateFromUser _ FocusKept.init (by decide))),
   (C37_focus_flags appendKey formAfterDelete ⟨"x"⟩).2.1 (stepsToDelete_reachable appendKey),
   ⟨by decide, by decide, by decide, by decide⟩,
   (C37_focus_flags appendKey formOnLink ⟨"x"⟩).2.2.1 (by decide) formAfterDelete
     (by decide) (by decide),
   (C37_focus_flags appendKey formOnLink ⟨"x"⟩).2.2.2 (by decide) (by decide)
     profileWithTabs⟩

/-! ## C39 -/

/-- What `validate` does ensure: the two ports of an accepted configuration
are in `1..65535`. -/
theorem validate_ports (c : config.Config) (h : c.validate = none) :
    1 ≤ c.Server.Port ∧ c.Server.Port ≤ 65535 ∧ 1 ≤ c.SSH.Port ∧ c.SSH.Port ≤ 65535 := by
  unfold config.Config.validate at h
  by_cases h1 : c.Server.Port < 1 ∨ c.Server.Port > 65535
  · rw [if_pos h1] at h
    cases h
  · rw [if_neg h1] at h
    by_cases h2 : c.SSH.Port < 1 ∨ c.SSH.Port > 65535
    · rw [if_pos h2] at h
      cases h
    · omega

/-- The rate limit plays no part in `validate`. -/
theorem validate_ignores_rate_limit (c : config.Config) (r : config.RateLimitConfig) :
    config.Config.validate { c with Server := { c.Server with RateLimit := r } } =
      c.validate := rfl

/-- C39 fails on the code: with `RATE_LIMIT_PER_MINUTE=0` in the environment
and every other setting at its default, `Load` returns a configuration that
`validate` accepts and whose `RequestsPerMinute` is `0`, and `NewRateLimiter`
called with it as `main` does divides by zero. -/
theorem C39_zero_rate_limit_accepted :
    ∃ cfg, config.Load envZeroRate noConfigFile = .ok cfg ∧
      cfg.validate = none ∧
      cfg.Server.RateLimit.RequestsPerMinute = 0 ∧
      NewRateLimiter cfg.Server.RateLimit.RequestsPerMinute cfg.Server.RateLimit.Burst = none ∧
      NewRateLimiter config.defaultConfig.Server.RateLimit.RequestsPerMinute
        config.defaultConfig.Server.RateLimit.Burst =
        some { every := 1000000000, burst := 10 } :=
  ⟨{ config.defaultConfig with
      Server := { config.defaultConfig.Server with
        RateLimit := { RequestsPerMinute := 0, Burst := 10 } } },
   by rfl, by decide, rfl, by decide, by decide⟩

/-! ## C34 -/

theorem Fields_ne_nil (s : GoString) : ∀ w ∈ Fields s, w ≠ [] := by
  intro w hw
  unfold Fields at hw
  rw [List.mem_filter] at hw
  intro h
  rw [h] at hw
  exact absurd hw.2 (by decide)

theorem joinWords_append_singleton (g : List GoString) (w : GoString) (hg : g ≠ []) :
    joinWords (g ++ [w]) = joinWords g ++ " ".toList ++ w := by
  induction g with
  | nil => exact absurd rfl hg
  | cons a t ih =>
    cases t with
    | nil => rfl
    | cons b t =>
      have e1 : joinWords (a :: b :: t ++ [w]) =
          a ++ " ".toList ++ joinWords (b :: t ++ [w]) := rfl
      have e2 : joinWords (a :: b :: t) = a ++ " ".toList ++ joinWords (b :: t) := rfl
      rw [e1, e2, ih (by simp)]
      simp only [List.append_assoc]

theorem joinWords_ne_nil (g : List GoString) (hg : g ≠ []) (hw : ∀ w ∈ g, w ≠ []) :
    joinWords g ≠ [] := by
  cases g with
  | nil => exact absurd rfl hg
  | cons a t =>
    have ha : a ≠ [] := hw a (List.mem_cons_self _ _)
    cases t with
    | nil => exact ha
    | cons b t =>
      have e : joinWords (a :: b :: t) = a ++ " ".toList ++ joinWords (b :: t) := rfl
      rw [e]
      simp [ha]

theorem linesText_append_singleton (pre : GoString) (ls : List GoString) (l : GoString) :
    linesText pre (ls ++ [l]) =
      ls.flatMap (fun x => x ++ "\n".toList ++ pre) ++ (l ++ "\n".toList) := by
  induction ls with
  | nil => rfl
  | cons a t ih =>
    have e : linesText pre (a :: t ++ [l]) =
        a ++ "\n".toList ++ pre ++ linesText pre (t ++ [l]) := by
      cases t <;> rfl
    rw [e, ih, List.flatMap_cons]
    simp only [List.append_assoc]

theorem lineOK_singleton (n : Nat) (w : GoString) : LineOK n [w] := by
  unfold LineOK
  rcases Nat.lt_or_ge n (byteLen w) with h | h
  · exact Or.inr ⟨w, rfl, h⟩
  · exact Or.inl h

theorem wrapWords_cons (pre : GoString) (n i : Nat) (word : GoString)
    (rest : List GoString) (cur w : GoString) :
    wrapWords pre n i (word :: rest) cur w =
      if byteLen (if i > 0 then cur ++ " ".toList ++ word else cur ++ word) > n ∧ cur ≠ [] then
        wrapWords pre n (i + 1) rest word (w ++ (cur ++ "\n".toList ++ pre))
      else
        wrapWords pre n (i + 1) rest ((if i > 0 then cur ++ " ".toList else cur) ++ word) w := by
  rw [wrapWords]

/-- The loop fills lines with whole words in their order: the text written
and the line in progress are those of a grouping of the words seen so far. -/
theorem wrapWords_groups (pre : GoString) (n : Nat) (rest : List GoString) :
    ∀ (i : Nat) (g : List GoString) (gs : List (List GoString)) (w0 : GoString),
      (∀ w ∈ rest, w ≠ []) → (∀ w ∈ g, w ≠ []) → (i = 0 ↔ g = []) → (g = [] → gs = []) →
      LineOK n g → (∀ x ∈ gs, x ≠ [] ∧ LineOK n x) →
      ∃ (gs1 : List (List GoString)) (g1 : List GoString),
        wrapWords pre n i rest (joinWords g)
            (w0 ++ gs.flatMap fun x => joinWords x ++ "\n".toList ++ pre) =
          (w0 ++ gs1.flatMap (fun x => joinWords x ++ "\n".toList ++ pre), joinWords g1) ∧
        gs1.flatten ++ g1 = gs.flatten ++ g ++ rest ∧
        (∀ x ∈ gs1, x ≠ [] ∧ LineOK n x) ∧ LineOK n g1 ∧ (∀ w ∈ g1, w ≠ []) ∧
        (g1 = [] → gs1 = []) := by
  induction rest with
  | nil =>
    intro i g gs w0 _ hg _ hgs hok hall
    exact ⟨gs, g, rfl, by simp, hall, hok, hg, hgs⟩
  | cons word rest ih =>
    intro i g gs w0 hrest hg hi hgs hok hall
    have hword : word ≠ [] := hrest word (List.mem_cons_self _ _)
    have hrest1 : ∀ w ∈ rest, w ≠ [] := fun w hw => hrest w (List.mem_cons_of_mem _ hw)
    by_cases hi0 : i = 0
    · have hg0 : g = [] := hi.mp hi0
      have hgs0 : gs = [] := hgs hg0
      subst hi0 hg0 hgs0
      obtain ⟨gs1, g1, h1, h2, h3, h4, h5, h6⟩ :=
        ih 1 [word] [] w0 hrest1 (by simpa using hword) (by simp) (by simp)
          (lineOK_singleton n word) (by simp)
      refine ⟨gs1, g1, ?_, ?_, h3, h4, h5, h6⟩
      · have hj : joinWords ([] : List GoString) = [] := rfl
        rw [wrapWords_cons, hj, if_neg (fun h => h.2 rfl), if_neg (by decide)]
        exact h1
      · rw [h2]; simp
    · have hgne : g ≠ [] := fun h => hi0 (hi.mpr h)
      have hcur : joinWords g ≠ [] := joinWords_ne_nil g hgne hg
      have hpos : i > 0 := Nat.pos_of_ne_zero hi0
      have htest : joinWords g ++ " ".toList ++ word = joinWords (g ++ [word]) :=
        (joinWords_append_singleton g word hgne).symm
      by_cases hlen : byteLen (joinWords (g ++ [word])) > n
      · obtain ⟨gs1, g1, h1, h2, h3, h4, h5, h6⟩ :=
          ih (i + 1) [word] (gs ++ [g]) w0 hrest1 (by simpa using hword) (by simp) (by simp)
            (lineOK_singleton n word)
            (by
              intro x hx
              rcases List.mem_append.mp hx with hx | hx
              · exact hall x hx
              · rw [List.mem_singleton] at hx
                rw [hx]
                exact ⟨hgne, hok⟩)
        refine ⟨gs1, g1, ?_, ?_, h3, h4, h5, h6⟩
        · rw [wrapWords_cons, if_pos hpos, htest, if_pos ⟨hlen, hcur⟩]
          rw [List.flatMap_append, List.flatMap_singleton, ← List.append_assoc] at h1
          exact h1
        · rw [h2]; simp
      · obtain ⟨gs1, g1, h1, h2, h3, h4, h5, h6⟩ :=
          ih (i + 1) (g ++ [word]) gs w0 hrest1
            (by
              intro w hw
              rcases List.mem_append.mp hw with hw | hw
              · exact hg w hw
              · rw [List.mem_singleton] at hw
                rw [hw]
                exact hword)
            (by simp) (by simp) (Or.inl (by omega)) hall
        refine ⟨gs1, g1, ?_, ?_, h3, h4, h5, h6⟩
        · rw [wrapWords_cons, if_pos hpos, htest, if_neg (fun h => hlen h.1), if_pos hpos,
            htest]
          exact h1
        · rw [h2]; simp

/-- The about section of a non-empty about text, in terms of a grouping of
its words into lines. -/
theorem renderAbout_groups (about : GoString) (h : about ≠ []) :
    ∃ groups : List (List GoString),
      groups.flatten = Fields about ∧
      (∀ g ∈ groups, g ≠ [] ∧ LineOK 60 g) ∧
      renderAbout about =
        "├─ About:\n".toList ++ "│  ├─ ".toList ++
          linesText "│     ".toList (groups.map joinWords) ++ "│\n".toList := by
  obtain ⟨gs1, g1, h1, h2, h3, h4, h5, h6⟩ :=
    wrapWords_groups "│     ".toList 60 (Fields about) 0 [] []
      ("├─ About:\n".toList ++ "│  ├─ ".toList) (Fields_ne_nil about)
      (by simp) (by simp) (by simp) (Or.inl (Nat.zero_le _)) (by simp)
  have hj : joinWords ([] : List GoString) = [] := rfl
  rw [hj, List.flatMap_nil, List.append_nil] at h1
  rw [List.flatten_nil, List.nil_append, List.nil_append] at h2
  have hrender : renderAbout about =
      (if (wrapWords "│     ".toList 60 0 (Fields about) []
            ("├─ About:\n".toList ++ "│  ├─ ".toList)).2 ≠ [] then
          (wrapWords "│     ".toList 60 0 (Fields about) []
            ("├─ About:\n".toList ++ "│  ├─ ".toList)).1 ++
          ((wrapWords "│     ".toList 60 0 (Fields about) []
            ("├─ About:\n".toList ++ "│  ├─ ".toList)).2 ++ "\n".toList)
        else
          (wrapWords "│     ".toList 60 0 (Fields about) []
            ("├─ About:\n".toList ++ "│  ├─ ".toList)).1) ++ "│\n".toList := by
    unfold renderAbout
    rw [if_pos h]
  rw [hrender, h1]
  by_cases hg1 : g1 = []
  · have hgs1 : gs1 = [] := h6 hg1
    subst hg1 hgs1
    refine ⟨[], ?_, by simp, ?_⟩
    · rw [← h2]; rfl
    · dsimp only
      rw [hj, if_neg (fun hne => hne rfl)]
      rfl
  · refine ⟨gs1 ++ [g1], ?_, ?_, ?_⟩
    · rw [← h2, List.flatten_append]
      simp
    · intro g hg
      rcases List.mem_append.mp hg with hg | hg
      · exact h3 g hg
      · rw [List.mem_singleton] at hg
        rw [hg]
        exact ⟨hg1, h4⟩
    · dsimp only
      rw [if_pos (joinWords_ne_nil g1 hg1 h5), List.map_append, List.map_singleton,
        linesText_append_singleton, List.flatMap_map]
      simp only [List.append_assoc]

/-! ## C38 -/

/-- C38: for a profile with a non-empty about text, the about section that
`renderPlainText` writes consists of lines that hold the words of the text
(`strings.Fields`) in their order, none dropped and none added, the words of a
line separated by single spaces; every line but the first follows the tree
prefix; and every line is at most 60 bytes long unless it consists of a
single word of more than 60 bytes. -/
theorem C38_about_wrapping (profile : PublicProfile) (h : profile.About ≠ []) :
    ∃ groups : List (List GoString),
      groups.flatten = Fields profile.About ∧
      (∀ g ∈ groups, g ≠ [] ∧
        (byteLen (joinWords g) ≤ 60 ∨ ∃ w, g = [w] ∧ byteLen w > 60)) ∧
      renderPlainText profile =
        "┌─ ".toList ++ profile.FullName ++ " (@".toList ++ profile.Username ++
          ")\n".toList ++ "│\n".toList ++
          ("├─ About:\n".toList ++ "│  ├─ ".toList ++
            linesText "│     ".toList (groups.map joinWords) ++ "│\n".toList) ++
          renderLinks profile.Links ++ "└─ Powered by curltree.dev\n".toList := by
  obtain ⟨groups, h1, h2, h3⟩ := renderAbout_groups profile.About h
  refine ⟨groups, h1, h2, ?_⟩
  unfold renderPlainText
  rw [h3]

/-- C38 on an about text of thirteen words with irregular spacing: eleven
words fill the first line, two the second. -/
theorem C38_about_wrapping_witness :
    profileTwoLines.About ≠ [] ∧
    (∃ groups : List (List GoString),
      groups.flatten = Fields profileTwoLines.About ∧
      (∀ g ∈ groups, g ≠ [] ∧
        (byteLen (joinWords g) ≤ 60 ∨ ∃ w, g = [w] ∧ byteLen w > 60)) ∧
      renderPlainText profileTwoLines =
        "┌─ ".toList ++ profileTwoLines.FullName ++ " (@".toList ++ profileTwoLines.Username ++
          ")\n".toList ++ "│\n".toList ++
          ("├─ About:\n".toList ++ "│  ├─ ".toList ++
            linesText "│     ".toList (groups.map joinWords) ++ "│\n".toList) ++
          renderLinks profileTwoLines.Links ++ "└─ Powered by curltree.dev\n".toList) ∧
    renderAbout profileTwoLines.About =
      ("├─ About:\n".toList ++
        "│  ├─ one two three four five six seven eight nine ten eleven\n".toList ++
        "│     twelve thirteen\n".toList ++ "│\n".toList) :=
  ⟨by decide, C38_about_wrapping profileTwoLines (by decide), by decide⟩

/-! ## The scheme and the host of a parsed URL -/

/-- A scheme that `getScheme` finds is the text before a colon. -/
theorem getSchemeFrom_scheme (rawURL : GoString) (cs : List Char) :
    ∀ (i : Nat) (pre : List Char) (scheme rest : GoString),
      rawURL = pre ++ cs → pre.length = i →
      url.getSchemeFrom rawURL i cs = .ok (scheme, rest) → scheme ≠ [] →
      rawURL = scheme ++ ':' :: rest := by
  induction cs with
  | nil =>
    intro i pre scheme rest _ _ h hne
    simp only [url.getSchemeFrom, Except.ok.injEq, Prod.mk.injEq] at h
    exact absurd h.1.symm hne
  | cons c cs ih =>
    intro i pre scheme rest hraw hlen h hne
    rw [url.getSchemeFrom] at h
    split_ifs at h with h1 h2 h3 h4 h5
    · exact ih (i + 1) (pre ++ [c]) scheme rest (by simp [hraw]) (by simp [hlen]) h hne
    · simp only [Except.ok.injEq, Prod.mk.injEq] at h
      exact absurd h.1.symm hne
    · exact ih (i + 1) (pre ++ [c]) scheme rest (by simp [hraw]) (by simp [hlen]) h hne
    · simp only [Except.ok.injEq, Prod.mk.injEq] at h
      obtain ⟨hs, hr⟩ := h
      subst h4
      rw [← hs, ← hr, hraw, ← hlen]
      simp
    · simp only [Except.ok.injEq, Prod.mk.injEq] at h
      exact absurd h.1.symm hne

theorem HasPrefix_takeWhile (l pre : GoString) (p : Char → Bool)
    (h : HasPrefix (l.takeWhile p) pre = true) : ∃ tail, l = pre ++ tail := by
  unfold HasPrefix at h
  rw [List.isPrefixOf_iff_prefix] at h
  obtain ⟨t, ht⟩ := h.trans (List.takeWhile_prefix p)
  exact ⟨t, ht.symm⟩

/-- A URL that `parse` gives a scheme and a host is its scheme, in some
spelling of upper and lower case, then `://`. -/
theorem parse_scheme_host (h : url.Helpers) (raw : GoString) (u : URL)
    (hp : url.parse h raw = .ok u) (hs : u.Scheme ≠ []) (hh : u.Host ≠ []) :
    ∃ scheme tail, raw = scheme ++ "://".toList ++ tail ∧
      scheme.map Char.toLower = u.Scheme := by
  unfold url.parse at hp
  split_ifs at hp with h1 h2
  · simp only [Except.ok.injEq] at hp
    rw [← hp] at hs
    exact absurd rfl hs
  · cases hg : url.getScheme raw with
    | error err => rw [hg] at hp; cases hp
    | ok pr =>
      obtain ⟨scheme0, rest0⟩ := pr
      rw [hg] at hp
      dsimp only at hp
      split_ifs at hp with h3 h4 h5
      · simp only [Except.ok.injEq] at hp
        rw [← hp] at hh
        exact absurd rfl hh
      · cases ha : h.parseAuthority
            (List.takeWhile (fun c => c != '/')
              (List.drop 2 (List.takeWhile (fun c => c != '?') rest0))) with
        | error err => rw [ha] at hp; cases hp
        | ok host =>
          rw [ha] at hp
          dsimp only at hp
          split at hp
          · cases hp
          · simp only [Except.ok.injEq] at hp
            have hsch : scheme0.map Char.toLower = u.Scheme := by rw [← hp]
            have hne : scheme0 ≠ [] := by
              intro h0
              rw [h0] at hsch
              exact hs hsch.symm
            have hraw := getSchemeFrom_scheme raw raw 0 [] scheme0 rest0 rfl rfl hg hne
            obtain ⟨tail, htail⟩ := HasPrefix_takeWhile rest0 "//".toList _ h5.2
            refine ⟨scheme0, tail, ?_, hsch⟩
            rw [hraw, htail]
            simp
      · split at hp
        · cases hp
        · simp only [Except.ok.injEq] at hp
          rw [← hp] at hh
          exact absurd rfl hh

theorem Parse_parse (h : url.Helpers) (s : GoString) (u : URL)
    (hp : url.Parse h s = .ok u) :
    url.parse h (s.takeWhile fun c => c != '#') = .ok u := by
  unfold url.Parse at hp
  dsimp only at hp
  cases hq : url.parse h (s.takeWhile fun c => c != '#') with
  | error err => rw [hq] at hp; cases hp
  | ok v =>
    rw [hq] at hp
    dsimp only at hp
    split_ifs at hp
    · exact hp
    · split at hp
      · cases hp
      · exact hp

/-- What `ValidateURL` has checked when it accepts: the parse succeeded with
scheme `http` or `https` and a host. -/
theorem ValidateURL_none (Parse : GoString → Except String URL) (s : GoString)
    (hv : ValidateURL Parse s = none) :
    ∃ u, Parse s = .ok u ∧ (u.Scheme = "http".toList ∨ u.Scheme = "https".toList) ∧
      u.Host ≠ [] := by
  unfold ValidateURL at hv
  split_ifs at hv with h1 h2
  cases hp : Parse s with
  | error err => rw [hp] at hv; cases hv
  | ok u =>
    rw [hp] at hv
    dsimp only at hv
    split_ifs at hv with h3 h4
    refine ⟨u, rfl, ?_, h4⟩
    by_cases h5 : u.Scheme = "http".toList
    · exact Or.inl h5
    · by_cases h6 : u.Scheme = "https".toList
      · exact Or.inr h6
      · exact absurd ⟨h5, h6⟩ h3

/-! ## C35 -/

/-- C35 fails for a scheme written in upper case: with the helpers of a plain
host name, `ValidateURL` accepts `HTTP://example.com` (the parser lower-cases
the scheme), the text does not begin with `http://` or `https://`, and the
`validate()` of a form that holds it as a link URL rejects it, while it
accepts the same URL with the scheme in lower case. -/
theorem C35_accepted_url_prefix_counterexample :
    ValidateURL (url.Parse url.plainHelpers) "HTTP://example.com".toList = none ∧
    (HasPrefix "HTTP://example.com".toList "http://".toList ||
      HasPrefix "HTTP://example.com".toList "https://".toList) = false ∧
    (formOf ["Ada", "ada", "", "web", "HTTP://example.com"] 0).validate =
      some "URL must start with http:// or https://" ∧
    (formOf ["Ada", "ada", "", "web", "http://example.com"] 0).validate = none := by
  refine ⟨by decide, by decide, by decide, by decide⟩

/-- C35 (amended): every URL string that `ValidateURL` accepts consists of a
scheme that is `http` or `https` in some spelling of upper and lower case,
followed by `://`; when the scheme is spelled in lower case, the string begins
with `http://` or `https://` and so passes the URL check of the form. -/
theorem C35_accepted_url_prefix (h : url.Helpers) (s : GoString)
    (hv : ValidateURL (url.Parse h) s = none) :
    ∃ scheme tail, s = scheme ++ "://".toList ++ tail ∧
      (scheme.map Char.toLower = "http".toList ∨ scheme.map Char.toLower = "https".toList) ∧
      (scheme.map Char.toLower = scheme →
        (HasPrefix s "http://".toList || HasPrefix s "https://".toList) = true) := by
  obtain ⟨u, hp, hsch, hhost⟩ := ValidateURL_none (url.Parse h) s hv
  have hne : u.Scheme ≠ [] := by
    rcases hsch with e | e <;> rw [e] <;> decide
  obtain ⟨scheme, tail, hraw, hlow⟩ :=
    parse_scheme_host h _ u (Parse_parse h s u hp) hne hhost
  have hs : s = scheme ++ "://".toList ++
      (tail ++ s.dropWhile fun c => c != '#') := by
    conv_lhs => rw [← List.takeWhile_append_dropWhile (fun c => c != '#') s, hraw]
    simp only [List.append_assoc]
  refine ⟨scheme, _, hs, by rw [hlow]; exact hsch, ?_⟩
  intro hsame
  rw [hlow] at hsame
  rw [hs, ← hsame]
  rcases hsch with e | e <;> rw [e] <;> simp [HasPrefix]

/-- C35 (amended) on a URL of `TestValidateURL`. -/
theorem C35_accepted_url_prefix_witness :
    ValidateURL (url.Parse url.plainHelpers) "https://example.com/path?query=1".toList = none ∧
    ∃ scheme tail, "https://example.com/path?query=1".toList = scheme ++ "://".toList ++ tail ∧
      (scheme.map Char.toLower = "http".toList ∨ scheme.map Char.toLower = "https".toList) ∧
      (scheme.map Char.toLower = scheme →
        (HasPrefix "https://example.com/path?query=1".toList "http://".toList ||
          HasPrefix "https://example.com/path?query=1".toList "https://".toList) = true) :=
  ⟨by decide,
   C35_accepted_url_prefix url.plainHelpers "https://example.com/path?query=1".toList
     (by decide)⟩

/-- On the URLs of `TestValidateURL` the parser with the plain helpers gives
the scheme and host listed in `testParse`. -/
theorem Parse_plain_testParse :
    url.Parse url.plainHelpers "http://example.com".toList =
      testParse "http://example.com".toList ∧
    url.Parse url.plainHelpers "https://example.com".toList =
      testParse "https://example.com".toList ∧
    url.Parse url.plainHelpers "https://example.com/path".toList =
      testParse "https://example.com/path".toList ∧
    url.Parse url.plainHelpers "https://example.com/path?query=1".toList =
      testParse "https://example.com/path?query=1".toList ∧
    url.Parse url.plainHelpers "example.com".toList = testParse "example.com".toList ∧
    url.Parse url.plainHelpers "ftp://example.com".toList =
      testParse "ftp://example.com".toList ∧
    url.Parse url.plainHelpers "https://".toList = testParse "https://".toList :=
  ⟨rfl, rfl, rfl, rfl, rfl, rfl, rfl⟩

/-! ## The form that the edit key builds -/

/-- The values of a fresh form loaded from a profile: what `SetValue` stores
of the three texts of the profile in fields of limit 100, 50 and 500, then of
the name and URL of every link in fields of limit 100 and 500. -/
theorem populate_fresh_values (p : User) :
    (newFormModel.populateFromUser p).inputs.map textinput.Model.Value =
      [textinput.stored 100 p.FullName, textinput.stored 50 p.Username,
        textinput.stored 500 p.About] ++
      p.Links.flatMap fun link =>
        [textinput.stored 100 link.Name, textinput.stored 500 link.URL] := by
  rw [populateFromUser_inputs newFormModel p (by decide), List.map_append, List.map_flatMap]
  congr 1
  · have h1 : (((newFormModel.inputs.modify (fun m => m.SetValue p.FullName) 0).modify
        (fun m => m.SetValue p.Username) 1).modify (fun m => m.SetValue p.About) 2).take 3 =
        [ ({ textinput.New with
              Placeholder := "Your full name".toList, CharLimit := 100,
              Width := 48 }.Focus).SetValue p.FullName,
          ({ textinput.New with
              Placeholder := "Username (alphanumeric, -, _)".toList, CharLimit := 50,
              Width := 48 }).SetValue p.Username,
          ({ textinput.New with
              Placeholder := "Tell us about yourself (optional)".toList, CharLimit := 500,
              Width := 48 }).SetValue p.About ] := rfl
    rw [h1]
    simp only [List.map_cons, List.map_nil, SetValue_Value]
    rfl
  · congr 1
    funext link
    simp only [List.map_cons, List.map_nil, SetValue_Value]

theorem flatMap_congr_mem {α β : Type} (l : List α) (f g : α → List β)
    (h : ∀ a ∈ l, f a = g a) : l.flatMap f = l.flatMap g := by
  induction l with
  | nil => rfl
  | cons a t ih =>
    rw [List.flatMap_cons, List.flatMap_cons, h a (List.mem_cons_self _ _),
      ih (fun b hb => h b (List.mem_cons_of_mem _ hb))]

/-! ## C17 -/

/-- C17 fails as stated for the contents of the form: for a profile with a
tab in its full name and in the name of its link, the edit key builds a form
whose fields hold a space in place of each tab, so neither field holds the
text of the profile; for a profile with a full name of 101 characters, field 0
holds its first 100 characters. -/
theorem C17_view_keys_counterexample :
    (sessionOf .StateProfileView (some profileWithTabs) none).Update appendKey
        (.key ⟨"ctrl+e"⟩) =
      some (sessionOf .StateProfileEdit (some profileWithTabs)
        (some (newFormModel.populateFromUser profileWithTabs)), none) ∧
    (newFormModel.populateFromUser profileWithTabs).inputs.map textinput.Model.Value =
      ["Ada Lovelace".toList, "ada".toList, [], "my blog".toList,
        "https://a.example".toList] ∧
    (newFormModel.populateFromUser profileWithTabs).inputs.map textinput.Model.Value ≠
      [profileWithTabs.FullName, profileWithTabs.Username, profileWithTabs.About] ++
        profileWithTabs.Links.flatMap (fun link => [link.Name, link.URL]) ∧
    (sessionOf .StateProfileView (some profileLongName) none).Update appendKey
        (.key ⟨"ctrl+e"⟩) =
      some (sessionOf .StateProfileEdit (some profileLongName)
        (some (newFormModel.populateFromUser profileLongName)), none) ∧
    valueAt (newFormModel.populateFromUser profileLongName).inputs 0 =
      List.replicate 100 'a' ∧
    profileLongName.FullName = List.replicate 101 'a' := by
  refine ⟨by decide, by decide, by decide, by decide, by decide, by decide⟩

/-- C17 (amended): in ProfileView with a loaded profile `p`, the key `ctrl+e`
moves the session to ProfileEdit with a form that is a fresh form loaded from
`p`, keeps the profile and returns no command. That form has focus index 0
with field 0 the only focused field, and `3 + 2n` fields for the `n` links of
`p`; its fields hold, in order, what `SetValue` stores of the full name, the
handle and the bio of `p` (limits 100, 50, 500) and of the name and URL of
every link (limits 100, 500): the text without control characters and U+FFFD,
tabs and line breaks turned into a space, cut to the limit. When every text of
`p` is free of such characters and fits its limit, the fields hold the texts
of `p` themselves. The key `ctrl+d` moves the session to ConfirmDelete, keeps
the profile and returns no command. -/
theorem C17_view_keys (edit : KeyEdit) (m : tuiModel) (p : User)
    (hstate : m.state = .StateProfileView) (huser : m.user = some p) :
    m.Update edit (.key ⟨"ctrl+e"⟩) =
      some ({ m with state := .StateProfileEdit,
                     form := some (newFormModel.populateFromUser p) }, none) ∧
    ({ m with state := .StateProfileEdit,
              form := some (newFormModel.populateFromUser p) } : tuiModel).user = some p ∧
    (newFormModel.populateFromUser p).focusIndex = 0 ∧
    (newFormModel.populateFromUser p).inputs.length = 3 + 2 * p.Links.length ∧
    m.Update edit (.key ⟨"ctrl+d"⟩) = some ({ m with state := .StateConfirmDelete }, none) ∧
    ({ m with state := .StateConfirmDelete } : tuiModel).user = some p ∧
    FocusAt (newFormModel.populateFromUser p) ∧
    (newFormModel.populateFromUser p).inputs.map textinput.Model.Value =
      [textinput.stored 100 p.FullName, textinput.stored 50 p.Username,
        textinput.stored 500 p.About] ++
      p.Links.flatMap (fun link =>
        [textinput.stored 100 link.Name, textinput.stored 500 link.URL]) ∧
    (textinput.Verbatim 100 p.FullName → textinput.Verbatim 50 p.Username →
      textinput.Verbatim 500 p.About →
      (∀ link ∈ p.Links,
        textinput.Verbatim 100 link.Name ∧ textinput.Verbatim 500 link.URL) →
      (newFormModel.populateFromUser p).inputs.map textinput.Model.Value =
        [p.FullName, p.Username, p.About] ++
          p.Links.flatMap (fun link => [link.Name, link.URL])) := by
  refine ⟨?_, huser, ?_, populateFromUser_length newFormModel p (by decide), ?_, huser,
    focusKept_focusAt _ (FocusKept.populateFromUser p FocusKept.init (by decide)),
    populate_fresh_values p, ?_⟩
  · rw [Update_key_ProfileView edit m _ hstate]
    unfold tuiModel.handleProfileViewKeys
    simp [huser]
  · unfold formModel.populateFromUser
    rw [foldl_addLink_focusIndex]
    rfl
  · rw [Update_key_ProfileView edit m _ hstate]
    unfold tuiModel.handleProfileViewKeys
    simp
  · intro h0 h1 h2 hl
    rw [populate_fresh_values p, stored_eq_self _ _ h0, stored_eq_self _ _ h1,
      stored_eq_self _ _ h2]
    congr 1
    apply flatMap_congr_mem
    intro link hlink
    rw [stored_eq_self _ _ (hl link hlink).1, stored_eq_self _ _ (hl link hlink).2]

/-- C17 (amended) at a session that shows a profile with one link: the form
that `ctrl+e` builds holds the five texts of the profile, field 0 focused. -/
theorem C17_view_keys_witness :
    (sessionOf .StateProfileView
        (some (profileOf "Ada" "ada" "" [("blog", "https://a.example")])) none).Update
        appendKey (.key ⟨"ctrl+e"⟩) =
      some (sessionOf .StateProfileEdit
        (some (profileOf "Ada" "ada" "" [("blog", "https://a.example")]))
        (some (newFormModel.populateFromUser
          (profileOf "Ada" "ada" "" [("blog", "https://a.example")]))), none) ∧
    (sessionOf .StateProfileView
        (some (profileOf "Ada" "ada" "" [("blog", "https://a.example")])) none).Update
        appendKey (.key ⟨"ctrl+d"⟩) =
      some (sessionOf .StateConfirmDelete
        (some (profileOf "Ada" "ada" "" [("blog", "https://a.example")])) none, none) ∧
    FocusAt (newFormModel.populateFromUser
      (profileOf "Ada" "ada" "" [("blog", "https://a.example")])) ∧
    (newFormModel.populateFromUser
      (profileOf "Ada" "ada" "" [("blog", "https://a.example")])).inputs.map
        textinput.Model.Value =
      ["Ada".toList, "ada".toList, [], "blog".toList, "https://a.example".toList] :=
  ⟨(C17_view_keys appendKey _ _ rfl rfl).1, (C17_view_keys appendKey _ _ rfl rfl).2.2.2.2.1,
   (C17_view_keys appendKey
      (sessionOf .StateProfileView
        (some (profileOf "Ada" "ada" "" [("blog", "https://a.example")])) none)
      (profileOf "Ada" "ada" "" [("blog", "https://a.example")]) rfl rfl).2.2.2.2.2.2.1,
   (C17_view_keys appendKey
      (sessionOf .StateProfileView
        (some (profileOf "Ada" "ada" "" [("blog", "https://a.example")])) none)
      (profileOf "Ada" "ada" "" [("blog", "https://a.example")]) rfl rfl).2.2.2.2.2.2.2.2
      (by decide) (by decide) (by decide) (by decide)⟩

end Curltree
